import Mathlib

/-!
Wharf porting controller.

A shallow embedding of the porting controller of `ZOSOpenTools/wharf`
(`internal/port2/port.go`, with the module-version step of
`internal/porting/port.go`) and theorems about it.

Conventions of the embedding.

* Go pointers to packages are package identifiers (`PkgId`); the objects they
  point to live in a heap (`M.heap`).
* Go maps are association lists in insertion order (`Map`); a map that may be
  `nil` is an `Option`.
* A Go `panic` is `Except.error`; an `error` value returned by a function is an
  `Option String` next to the resulting state.
* The external collaborators (package lister, type checker, `go` tool calls,
  file system, directive registry) are the fields of `Ext`; the calls that
  change the outside world are recorded in `M.trace`. Printing is not
  recorded.
-/

namespace Wharf

/-! ## Finite maps -/

abbrev Map (κ α : Type) := List (κ × α)

namespace Map

variable {κ α : Type} [DecidableEq κ]

/-- Map lookup: `m[k]` with the comma-ok result as an `Option`. -/
def get : Map κ α → κ → Option α
  | [], _ => none
  | (k', v) :: r, k => if k' = k then some v else get r k

/-- Map assignment `m[k] = v`; a new key is appended. -/
def set : Map κ α → κ → α → Map κ α
  | [], k, v => [(k, v)]
  | (k', v') :: r, k, v => if k' = k then (k, v) :: r else (k', v') :: set r k v

end Map

/-! ## Data model -/

abbrev PkgId := Nat

/-- The types object of a checked package (`*types.Package`), as a token. -/
abbrev Types := Nat

/-- The structured reason of a diagnostic: `pkg2.TCBadImportName`,
`pkg2.TCBadName`, or anything else. -/
inductive Reason
  | badImportName (pkgName : String) (name : String)
  | badName (name : String)
  | other (raw : String)
  deriving DecidableEq, Repr

/-- A diagnostic `pkg2.TypeError`: its reason, `Err.Soft`, and the file name
`Err.Fset.Position(Err.Pos).Filename`. -/
structure TypeError where
  reason : Reason
  soft : Bool
  filename : String
  deriving DecidableEq, Repr

/-- The port state constants `psUnknown` .. `psExhausted`. -/
inductive PortState
  | psUnknown | psBuilt | psValid | psBrokeParent | psPortingDependencies
  | psPatched | psExhausted
  deriving DecidableEq, Repr

/-- The module action constants `modLocked`, `modUpdated`, `modImported`. -/
inductive ModAction
  | modLocked | modUpdated | modImported
  deriving DecidableEq, Repr

open PortState ModAction

/-- The numeric values of the state and action constants. Their declaration is
not in `port.go`, so the code is embedded for every numbering:
`a < b` on two states is `ps a < ps b`, on two actions `act a < act b`. -/
structure Ranks where
  ps : PortState → Nat
  act : ModAction → Nat

/-- Modelled from the spec: the constant declarations are missing. A numbering
under which the paths of `port` and `portAll` are live as the spec describes
them: a settled package (`Valid`, `Patched`) is skipped by the sweep like an
exhausted one, promotion of a dependency keeps `PortingDependencies`, and a
journal entry at `Updated` takes the module-version step again (section 4.5
step 2), that is `modUpdated < modLocked`. -/
def declRanks : Ranks where
  ps
    | psUnknown => 0
    | psBuilt => 1
    | psBrokeParent => 2
    | psPortingDependencies => 3
    | psExhausted => 4
    | psValid => 5
    | psPatched => 6
  act
    | modUpdated => 0
    | modLocked => 1
    | modImported => 2

/-- The module of a package (`pkg.Meta.Module`); `replace` is
`Module.Replace != nil`. -/
structure Module where
  path : String
  version : String
  main : Bool
  replace : Bool
  dir : String
  deriving DecidableEq, Repr

/-- An export substitution of the directive registry (`base.ExportInline`). -/
structure ExportInline where
  type : String
  replace : String
  deriving DecidableEq, Repr

/-- The edit map of the export-directive search:
file name → import alias → symbol → substitution. -/
abbrev FileImportEdits := Map String (Map String (Map String ExportInline))

/-- The override record of a file (`GoFile.Replaced`): the name of the file it
replaces and the substitutions (`Reason`). -/
structure Replaced where
  file : String
  reason : Map String (Map String ExportInline)
  deriving DecidableEq, Repr

/-- A source file `pkg2.GoFile`; `hasStx` is `Syntax != nil`. Files are
identified by name. -/
structure GoFile where
  name : String
  path : String
  hasStx : Bool
  replaced : Option Replaced
  deriving DecidableEq, Repr

/-- A build configuration (`pkg.Builds[i]`); `stx` lists the parsed files
(`Syntax`). -/
structure Build where
  files : List GoFile
  platforms : List String
  stx : List String
  deriving DecidableEq, Repr

/-- A package `pkg2.Package`. `files` is `Files` (file name → alias → import
path), `imports` is `Imports` (import path → package). -/
structure Package where
  id : PkgId
  importPath : String
  name : String
  dir : String
  module : Module
  goroot : Bool
  standard : Bool
  files : Map String (Map String String)
  imports : Map String PkgId
  builds : List Build
  parents : List PkgId
  included : Bool
  dirty : Bool
  depDirty : Bool
  firstLoad : Bool
  modified : Bool
  deriving DecidableEq, Repr

/-- The per-package record `state` of the controller. -/
structure State where
  ps : PortState
  cfi : Nat
  errs : List TypeError
  types : Option Types
  deriving DecidableEq, Repr

/-- A journal entry `workEdit`. -/
structure WorkEdit where
  original : String
  version : String
  action : ModAction
  deriving DecidableEq, Repr

/-- The `Controller`. -/
structure Controller where
  paths : List String
  tree : Option (List (List PkgId))
  states : Map PkgId State
  patchable : List PkgId
  workspace : Map String WorkEdit
  treeIsDirty : Bool
  complete : Bool
  loadCount : Nat
  deriving DecidableEq, Repr

/-- A call that changes the outside world. -/
inductive Effect
  | workReplace (path version : String)
  | dropReplace (path : String)
  | workUse (dir : String)
  | cloneVCS (dst path version : String)
  | cloneCache (src dst path : String)
  | copyFile (dst src : String)
  | writeFile (path src tag op : String)
  | mkdirAll (dir : String)
  | exportDirective (pkg : PkgId) (cfi : Nat) (dir : String) (edits : FileImportEdits)
  | gitDiff (path out : String)
  | remove (path : String)
  deriving DecidableEq, Repr

/-- What one run of the type checker yields: the import paths it asked the
importer for, the types object and the diagnostics. -/
structure CheckResult where
  requests : List String
  typed : Types
  errs : List TypeError

/-- A directive of the registry `base.Inlines`; `exports = none` is a nil
`Exports` map. -/
structure Directive where
  exports : Option (Map String ExportInline)
  hasFiles : Bool

/-- What the package lister hands to one `load`: the error of `pkg2.List`, the
packages in the order `pkg2.Resolve` visits them, the layered tree and the
error of `pkg2.Resolve`. -/
structure Listing where
  listErr : Option String
  visit : List Package
  tree : Option (List (List PkgId))
  resolveErr : Option String

/-- The external collaborators. -/
structure Ext where
  /-- The type checker on a package at a configuration index, with
  `IgnoreFuncBodies` and the cached types of the package's imports. -/
  check : PkgId → Nat → Bool → List (String × Option Types) → CheckResult
  /-- Types of `types.NewPackage` for a package without parsed files. -/
  emptyTypes : PkgId → Types
  goListModUpdate : String → String × Option String
  isExcludeGoListError : String → Bool
  goWorkEditReplaceVersion : String → String → Option String
  backupNameLookup : String → Option (PkgId × String)
  isGolangXPkg : Package → Bool
  isStdlibPkg : Package → Bool
  inlines : String → Option Directive
  readParse : String → Bool
  mkdirAll : String → Option String
  applyExportDirective : PkgId → Nat → String → FileImportEdits → Option String
  list : Nat → Listing
  cache : String
  unsafePackageName : String
  /-- The error, if any, of a call of `util` or `os` that changes the world. -/
  effectErr : Effect → Option String
  goListModMain : String → Option String
  goListPkgDir : String → String × Option String
  formatErr : String → Option String
  appendTagErr : String → String → String → Option String
  /-- Whether `tags.ParseFileName` finds a constraint in a file name. -/
  parseFileName : String → Bool

/-- The machine: controller, package heap and the effects so far. -/
structure M where
  c : Controller
  heap : Map PkgId Package
  trace : List Effect

/-! ## Small helpers on the controller -/

/-- Assignment through the `state` pointer of a package. -/
def Controller.modify (c : Controller) (id : PkgId) (f : State → State) : Controller :=
  match c.states.get id with
  | none => c
  | some s => { c with states := c.states.set id (f s) }

def Controller.setPs (c : Controller) (id : PkgId) (p : PortState) : Controller :=
  c.modify id (fun s => { s with ps := p })

def Controller.setCfi (c : Controller) (id : PkgId) (n : Nat) : Controller :=
  c.modify id (fun s => { s with cfi := n })

/-- Insertion of a key in a Go map used as a set. -/
def insertKey {α : Type} [DecidableEq α] (k : α) (l : List α) : List α :=
  if k ∈ l then l else l ++ [k]

/-- The value `file.Imports[alias]`, the empty string when absent. -/
def importOf (file : Map String String) (al : String) : String :=
  (file.get al).getD ""

/-! ## Type-check harness -/

/-- The importer of `typeCheck` (lines 946-966) on one requested path: the
message of the panic it raises, if any. -/
def importerPanic (x : Ext) (c : Controller) (pkg : Package) (path : String) :
    Option String :=
  if path = x.unsafePackageName then none
  else
    match pkg.imports.get path with
    | none => some "unknown imported package path requested during type check"
    | some ipkg =>
      match c.states.get ipkg with
      | none => some "imported package with uninitialized state found during type check"
      | some istate =>
        match istate.types with
        | none => some "imported package with unintialized types object found during type check"
        | some _ => none

/-- The cached types of the imports of a package, as the importer would
return them. -/
def importTypes (c : Controller) (pkg : Package) : List (String × Option Types) :=
  pkg.imports.map (fun e => (e.1, (c.states.get e.2).bind (fun s => s.types)))

/-- `Controller.typeCheck` (lines 936-970). `ign` is `tcfg.IgnoreFuncBodies`.
The index `pkg.Builds[s.cfi]` panics when out of range. -/
def typeCheck (x : Ext) (c : Controller) (pkg : Package) (ign : Bool) :
    Except String (Types × List TypeError) :=
  match c.states.get pkg.id with
  | none => .error "no state found for package during type check"
  | some s =>
    if s.cfi < pkg.builds.length then
      let r := x.check pkg.id s.cfi ign (importTypes c pkg)
      match r.requests.findSome? (importerPanic x c pkg) with
      | some msg => .error msg
      | none => .ok (r.typed, r.errs)
    else .error "index out of range"

/-! ## Configuration filter -/

/-- A filter closure of `port`: it owns an accumulator `σ` (its captured
variables), reads the current `state.cfi` and may panic. -/
abbrev Filter (σ : Type) := σ → Nat → TypeError → Except String (σ × Bool)

/-- Step 1 of `validate` (lines 886-894): the diagnostics are fed to the filter
until one does not pass. -/
def feed {σ : Type} (filter : Option (Filter σ)) (cfi : Nat) :
    σ → List TypeError → Except String (σ × Bool)
  | acc, [] => .ok (acc, true)
  | acc, e :: es =>
    match filter with
    | none => if e.soft then feed filter cfi acc es else .ok (acc, false)
    | some f =>
      match f acc cfi e with
      | .error msg => .error msg
      | .ok (acc', true) => feed filter cfi acc' es
      | .ok (acc', false) => .ok (acc', false)

/-- The import path a bad-import diagnostic of a parent stands for (lines
906-913): the import of the file under the alias, else the import path of the
package of the backup name lookup. -/
def parentImportPath (x : Ext) (file : Map String String) (pn : String) : Option String :=
  match file.get pn with
  | some p => some p
  | none => (x.backupNameLookup pn).map (fun b => b.2)

/-- The inner loop of step 2 of `validate` (lines 903-930) over the diagnostics
of one parent: `true` when a bad-import diagnostic refers to the package under
test. `parent.Files` is taken as a map to pointers: a file name it does not
hold is a nil dereference. -/
def parentRefers (x : Ext) (pkg parent : Package) : List TypeError → Except String Bool
  | [] => .ok false
  | e :: es =>
    match e.reason with
    | .badImportName pn _ =>
      match parent.files.get e.filename with
      | none => .error "nil pointer dereference"
      | some f =>
        match parentImportPath x f pn with
        | none => .error "bad import error but no known name in lookup"
        | some ipath =>
          if pkg.importPath = ipath then .ok true else parentRefers x pkg parent es
    | _ => parentRefers x pkg parent es

/-- Step 2 of `validate` (lines 898-931): `true` when no parent refers to the
package under test in a bad-import diagnostic. -/
def validateParents (x : Ext) (heap : Map PkgId Package) (c : Controller) (pkg : Package) :
    List PkgId → Except String Bool
  | [] => .ok true
  | p :: ps =>
    match heap.get p with
    | none => .error "nil pointer dereference"
    | some parent =>
      match typeCheck x c parent false with
      | .error msg => .error msg
      | .ok (_, errs) =>
        match parentRefers x pkg parent errs with
        | .error msg => .error msg
        | .ok true => .ok false
        | .ok false => validateParents x heap c pkg ps

/-- `Controller.validate` (lines 880-934). -/
def validate {σ : Type} (x : Ext) (heap : Map PkgId Package) (c : Controller)
    (pkg : Package) (filter : Option (Filter σ)) (acc : σ) :
    Except String (Controller × σ × Bool) :=
  match c.states.get pkg.id with
  | none => .error "no state found for package during type check"
  | some state =>
    match typeCheck x c pkg false with
    | .error msg => .error msg
    | .ok (typed, errs) =>
      match feed filter state.cfi acc errs with
      | .error msg => .error msg
      | .ok (acc', false) => .ok (c, acc', false)
      | .ok (acc', true) =>
        let c' := c.modify pkg.id (fun s => { s with types := some typed })
        match validateParents x heap c' pkg pkg.parents with
        | .error msg => .error msg
        | .ok b => .ok (c', acc', b)

/-- The lazy load of the parsed files of a configuration (lines 853-871) fails,
which the code turns into a panic. -/
def stxFails (x : Ext) (b : Build) : Bool :=
  b.stx.isEmpty && b.files.any (fun g => !g.hasStx && !x.readParse g.path)

/-- The loop of `filterConfigs` (lines 850-877), one iteration per unit of
fuel. -/
def filterConfigsLoop {σ : Type} (x : Ext) (heap : Map PkgId Package) (pkg : Package)
    (filter : Option (Filter σ)) : Nat → Controller → σ → Except String (Controller × σ)
  | 0, c, acc => .ok (c, acc)
  | fuel + 1, c, acc =>
    match c.states.get pkg.id with
    | none => .error "nil pointer dereference"
    | some state =>
      match pkg.builds.get? state.cfi with
      | none => .ok (c, acc)
      | some cfg =>
        if stxFails x cfg then .error "unable to read or parse file"
        else
          match validate x heap c pkg filter acc with
          | .error msg => .error msg
          | .ok (c', acc', true) => .ok (c', acc')
          | .ok (c', acc', false) =>
            filterConfigsLoop x heap pkg filter fuel
              (c'.modify pkg.id (fun s => { s with cfi := s.cfi + 1 })) acc'

/-- `Controller.filterConfigs` (lines 848-878). The loop runs at most
`len(pkg.Builds) - state.cfi` times. -/
def filterConfigs {σ : Type} (x : Ext) (heap : Map PkgId Package) (c : Controller)
    (pkg : Package) (filter : Option (Filter σ)) (acc : σ) :
    Except String (Controller × σ) :=
  match c.states.get pkg.id with
  | none => .error "nil pointer dereference"
  | some state =>
    filterConfigsLoop x heap pkg filter (pkg.builds.length - state.cfi + 1) c acc

/-! ## Port state machine -/

/-- The record behind the `state` pointer of a package; read only after the
pointer was found non-nil. -/
def Controller.st (c : Controller) (id : PkgId) : State :=
  (c.states.get id).getD ⟨psUnknown, 0, [], none⟩

/-- `filepath.Join` on two elements. -/
def joinPath (a b : String) : String := a ++ "/" ++ b

/-- The package a bad-import diagnostic refers to (lines 247-257, 352-360 and
390-397): the import of the file under that alias, else the backup name
lookup, else a panic. The key is `none` when `pkg.Imports` has no entry for the
path (a nil package pointer). `pkg.Files` is taken as a map to pointers. -/
def badImportTarget (x : Ext) (pkg : Package) (e : TypeError) (pn : String) :
    Except String (Option PkgId) :=
  match pkg.files.get e.filename with
  | none => .error "nil pointer dereference"
  | some file =>
    if importOf file pn ≠ "" then .ok (pkg.imports.get (importOf file pn))
    else
      match x.backupNameLookup pn with
      | some b => .ok (some b.1)
      | none => .error "bad import on unknown package"

/-- The locals of the entry classification: the bad-import set, `needTag` and
`illList`. -/
structure Entry where
  imports : List (Option PkgId)
  needTag : Bool
  illList : List TypeError

/-- The classification loop over the cached diagnostics (lines 245-267). -/
def classify (x : Ext) (pkg : Package) : Entry → List TypeError → Except String Entry
  | en, [] => .ok en
  | en, e :: es =>
    match e.reason with
    | .badImportName pn _ =>
      match badImportTarget x pkg e pn with
      | .error msg => .error msg
      | .ok t => classify x pkg { en with imports := insertKey t en.imports } es
    | .badName _ => classify x pkg { en with needTag := true } es
    | .other _ => classify x pkg { en with illList := en.illList ++ [e] } es

/-- The filter of the export-directive search (lines 442-477). Its captured
variables are `fiEdits` (`none` when nil) and `expIdx`. -/
def exportFilter (x : Ext) (pkg : Package) : Filter (Option FileImportEdits × Nat) :=
  fun acc cfi te =>
    let acc1 : Option FileImportEdits × Nat :=
      if acc.2 < cfi ∧ acc.1.isNone then (some [], cfi) else acc
    let rest : Except String ((Option FileImportEdits × Nat) × Bool) :=
      if te.soft = false ∧ acc1.2 = cfi then .ok ((none, acc1.2), false)
      else .ok (acc1, te.soft)
    match te.reason, acc1.1 with
    | .badImportName pn nm, some ed =>
      match pkg.files.get te.filename with
      | none => .error "nil pointer dereference"
      | some file =>
        match ((x.inlines (importOf file pn)).bind (fun d => d.exports)).bind
            (fun ex => ex.get nm) with
        | some d =>
          let perFile := (ed.get te.filename).getD []
          let perAlias := (perFile.get pn).getD []
          .ok ((some (ed.set te.filename (perFile.set pn (perAlias.set nm d))), acc1.2), false)
        | none => rest
    | _, _ => rest

/-- The last stage of `port` (lines 439-513): the export-directive search, the
export directive on the configuration `expIdx`, and exhaustion.

Modelled from the spec: `applyExportDirective` is missing. By section 4.5 step
5 it writes an overriding file in the cache directory of the package and marks
the file as replaced; it is taken to leave the state table as it is. What it
does to the configuration index is not said (the export scenario of the spec
has the index at "the accepting configuration"); the call and the index at the
call are recorded in the trace. -/
def portExport (x : Ext) (m : M) (pkg : Package) : Except String (M × Option String) :=
  match filterConfigs x m.heap m.c pkg (some (exportFilter x pkg))
      (some [], (m.c.st pkg.id).cfi) with
  | .error msg => .error msg
  | .ok (c1, fiEdits, expIdx) =>
    if (c1.st pkg.id).cfi < pkg.builds.length then
      .ok ({ m with c := c1.setPs pkg.id psPatched }, none)
    else
      let dir := joinPath x.cache pkg.importPath
      let m1 : M := { m with c := c1, trace := m.trace ++ [.mkdirAll dir] }
      match x.mkdirAll dir with
      | some err =>
        .ok (m1, some ("unable to create cache directory for package: " ++ err))
      | none =>
        let exhausted (m2 : M) : Except String (M × Option String) :=
          .ok ({ m2 with c := m2.c.setPs pkg.id psExhausted },
            some ("no applicable options available to port package " ++ pkg.importPath))
        match fiEdits with
        | none => exhausted m1
        | some ed =>
          let m2 : M := { m1 with
            c := c1.setCfi pkg.id expIdx
            trace := m1.trace ++ [.exportDirective pkg.id expIdx dir ed] }
          match x.applyExportDirective pkg.id expIdx dir ed with
          | none => .ok ({ m2 with c := m2.c.setPs pkg.id psPatched }, none)
          | some _ => exhausted m2

/-- The recheck of a package that comes back in `PortingDependencies` (lines
388-402). Assigning to a nil map panics. -/
def recheck (x : Ext) (pkg : Package) :
    Option (List (Option PkgId)) → List TypeError → Except String (Option (List (Option PkgId)))
  | imports, [] => .ok imports
  | imports, e :: es =>
    match e.reason with
    | .badImportName pn _ =>
      match badImportTarget x pkg e pn with
      | .error msg => .error msg
      | .ok t =>
        match imports with
        | none => .error "assignment to entry in nil map"
        | some l => recheck x pkg (some (insertKey t l)) es
    | _ => .error "unsanitized config used for doing porting of depenendencies"

/-- The promotion loop over the bad-import set (lines 419-431); the result
carries `canPortImports`. -/
def promote (R : Ranks) : Controller → Bool → List (Option PkgId) → Except String (Controller × Bool)
  | c, can, [] => .ok (c, can)
  | c, can, k :: ks =>
    match k with
    | none => .error "nil pointer dereference"
    | some ipkg =>
      match c.states.get ipkg with
      | none => .error "nil pointer dereference"
      | some istate =>
        if R.ps istate.ps < R.ps psExhausted then
          if R.ps istate.ps < R.ps psBrokeParent then
            promote R (c.setPs ipkg psBrokeParent) true ks
          else promote R c true ks
        else if istate.ps = psPatched then
          .error "package is claimed to be patchable but has bad parent"
        else promote R c can ks

/-- The dependency stage of `port` (lines 384-437), followed by the export
stage. `imports = none` is the nil map. -/
def portDeps (R : Ranks) (x : Ext) (m : M) (pkg : Package)
    (imports : Option (List (Option PkgId))) : Except String (M × Option String) :=
  let st := m.c.st pkg.id
  let rechecked : Except String (Option (List (Option PkgId))) :=
    if st.ps = psPortingDependencies then recheck x pkg imports st.errs
    else if (imports.getD []).length = 0 then
      .error "advancing to dependency porting but no bad dependencies found"
    else .ok imports
  match rechecked with
  | .error msg => .error msg
  | .ok imports1 =>
    if (imports1.getD []).length = 0 then
      if st.cfi = 0 then .ok ({ m with c := m.c.setPs pkg.id psValid }, none)
      else .ok ({ m with c := m.c.setPs pkg.id psPatched }, none)
    else
      match promote R m.c false (imports1.getD []) with
      | .error msg => .error msg
      | .ok (c1, canPortImports) =>
        if canPortImports then
          .ok ({ m with c := c1.setPs pkg.id psPortingDependencies }, none)
        else portExport x { m with c := c1 } pkg

/-- The filter of the re-tag search (lines 346-370). Its captured variable is
`imports`; `errIdx` stays 1. -/
def retagFilter (x : Ext) (pkg : Package) : Filter (Option (List (Option PkgId))) :=
  fun imports cfi e =>
    let imports1 : Option (List (Option PkgId)) := if 1 < cfi then some [] else imports
    let rest : Except String (Option (List (Option PkgId)) × Bool) :=
      if e.soft = false ∧ imports1.isSome then .ok (none, false)
      else .ok (imports1, e.soft)
    match e.reason, imports1 with
    | .badImportName pn _, some l =>
      match badImportTarget x pkg e pn with
      | .error msg => .error msg
      | .ok t => .ok (some (insertKey t l), true)
    | _, _ => rest

/-- The re-tag stage of `port` (lines 341-382), followed by the dependency
stage. -/
def portRetag (R : Ranks) (x : Ext) (m : M) (pkg : Package) (needTag : Bool)
    (imports : List (Option PkgId)) : Except String (M × Option String) :=
  if needTag then
    match filterConfigs x m.heap (m.c.setCfi pkg.id 1) pkg (some (retagFilter x pkg))
        (some imports) with
    | .error msg => .error msg
    | .ok (c1, imports1) =>
      if (c1.st pkg.id).cfi ≥ pkg.builds.length then
        .ok ({ m with c := c1 }, some "unable to find a valid config")
      else if (imports1.getD []).length = 0 then
        .ok ({ m with c := c1.setPs pkg.id psPatched }, none)
      else portDeps R x { m with c := c1 } pkg imports1
  else portDeps R x m pkg (some imports)

/-- The guard of the module-version step (line 285). -/
def moduleStepTaken (R : Ranks) (c : Controller) (pkg : Package) : Bool :=
  !pkg.module.main &&
    (match c.workspace.get pkg.module.path with
     | none => !pkg.module.replace
     | some mptc => decide (R.act mptc.action < R.act modLocked))

/-- The decision of the module-version step (lines 289-318): the controller
with the journal entry written, the version to write in the workspace,
`updated`, and the error of the update query when it is fatal. -/
def moduleDecision (x : Ext) (c : Controller) (pkg : Package) :
    Controller × String × Bool × Option String :=
  let mod := pkg.module
  match c.workspace.get mod.path with
  | none =>
    let locked : WorkEdit :=
      { original := mod.version, version := mod.version, action := modLocked }
    let c1 := { c with workspace := c.workspace.set mod.path locked }
    let q := x.goListModUpdate mod.path
    let fatal : Option String := q.2.filter (fun err => !x.isExcludeGoListError err)
    if fatal.isSome then (c1, mod.version, false, fatal)
    else if mod.version ≠ q.1 then
      let bumped : WorkEdit := { locked with action := modUpdated, version := q.1 }
      ({ c1 with workspace := c1.workspace.set mod.path bumped }, q.1, true, none)
    else (c1, mod.version, false, none)
  | some mptc =>
    let relocked : WorkEdit := { mptc with action := modLocked, version := mod.version }
    ({ c with workspace := c.workspace.set mod.path relocked }, mod.version, true, none)

/-- The module-version stage of `port` (lines 285-339), followed by the re-tag
stage. -/
def portModule (R : Ranks) (x : Ext) (m : M) (pkg : Package) (needTag : Bool)
    (imports : List (Option PkgId)) : Except String (M × Option String) :=
  if moduleStepTaken R m.c pkg then
    let mod := pkg.module
    match moduleDecision x m.c pkg with
    | (c1, _, _, some err) => .ok ({ m with c := c1 }, some err)
    | (c1, version, updated, none) =>
      let m1 : M := { m with c := c1, trace := m.trace ++ [.workReplace mod.path version] }
      match x.goWorkEditReplaceVersion mod.path version with
      | some err => .ok (m1, some err)
      | none =>
        let c2 := { c1 with treeIsDirty := updated }
        if x.isGolangXPkg pkg then
          .ok ({ m1 with c := c2.setPs pkg.id psExhausted }, none)
        else if updated then
          .ok ({ m1 with c := c2.setPs pkg.id psUnknown }, none)
        else portRetag R x { m1 with c := c2 } pkg needTag imports
  else portRetag R x m pkg needTag imports

/-- How the entry of `port` ends: `port` returns, or goes on to the
module-version stage with its locals `needTag` and `imports`. -/
inductive EntryOut
  | done (m : M) (err : Option String)
  | proceed (m : M) (needTag : Bool) (imports : List (Option PkgId))

/-- The entry classification of `port` for a package in `Built` (lines
239-279). -/
def portBuilt (x : Ext) (m : M) (pkg : Package) (needTag : Bool) : Except String EntryOut :=
  if (m.c.st pkg.id).ps = psBuilt then
    match classify x pkg ⟨[], needTag, []⟩ (m.c.st pkg.id).errs with
    | .error msg => .error msg
    | .ok en =>
      if en.needTag = false ∧ en.imports.length = 0 then
        .ok (.done { m with c := m.c.setPs pkg.id psValid } none)
      else if en.illList.length > 0 then
        .ok (.done m (some ("unknown type error(s) occurred in " ++ pkg.importPath)))
      else .ok (.proceed m en.needTag en.imports)
  else .ok (.proceed m needTag [])

/-- The entry of `port` (lines 211-279): the guards, the first type check of a
package in `Unknown`, and the entry classification. -/
def portEntry (x : Ext) (m : M) (pkg : Package) : Except String EntryOut :=
  match m.c.states.get pkg.id with
  | none => .error "no state associated with package under port"
  | some state =>
    if pkg.id ∈ m.c.patchable then
      .error "trying to port package that already has patch associated with it"
    else
      let needTag := decide (state.ps = psBrokeParent)
      if state.ps = psUnknown then
        match typeCheck x m.c pkg false with
        | .error msg => .error msg
        | .ok (typed, errs) =>
          let built : State → State :=
            fun s => { s with types := some typed, errs := errs, ps := psBuilt }
          portBuilt x { m with c := m.c.modify pkg.id built } pkg needTag
      else portBuilt x m pkg needTag

/-- `Controller.port` (lines 211-513). -/
def port (R : Ranks) (x : Ext) (m : M) (pkg : Package) : Except String (M × Option String) :=
  match portEntry x m pkg with
  | .error msg => .error msg
  | .ok (.done m1 err) => .ok (m1, err)
  | .ok (.proceed m1 needTag imports) => portModule R x m1 pkg needTag imports

/-! ## Controller -/

/-- The body of the inner loop of `portAll` after a successful `port` (lines
183-192): the bookkeeping and the new value of `valid`. -/
def afterPort (R : Ranks) (m : M) (pkg : Package) (valid : Bool) : M × Bool :=
  let ps := (m.c.st pkg.id).ps
  if ps = psPatched then
    let ws := match m.c.workspace.get pkg.module.path with
      | none => m.c.workspace
      | some e => m.c.workspace.set pkg.module.path { e with action := modImported }
    ({ m with
        c := { m.c with workspace := ws, patchable := insertKey pkg.id m.c.patchable }
        heap := m.heap.set pkg.id { pkg with modified := true } }, valid)
  else if R.ps ps < R.ps psExhausted then
    ({ m with heap := m.heap.set pkg.id { pkg with modified := true } }, false)
  else (m, valid)

/-- What the inner loops of `portAll` hand back: the sweep goes on, or
`portAll` returns at once with the given error (`none` for `return nil`). -/
inductive Sweep
  | goOn (m : M) (valid : Bool)
  | ret (m : M) (err : Option String)

/-- The loop of `portAll` over the packages of one layer (lines 164-197). -/
def portLayer (R : Ranks) (x : Ext) : M → Bool → List PkgId → Except String Sweep
  | m, valid, [] => .ok (.goOn m valid)
  | m, valid, id :: ids =>
    match m.heap.get id with
    | none => .error "nil pointer dereference"
    | some pkg =>
    match m.c.states.get pkg.id with
    | none => .error "nil pointer dereference"
    | some state =>
      if (pkg.included = false ∧ state.ps = psUnknown) ∨ R.ps state.ps ≥ R.ps psExhausted then
        portLayer R x m valid ids
      else
        match port R x m pkg with
        | .error msg => .error msg
        | .ok (m1, some err) => .ok (.ret m1 (some err))
        | .ok (m1, none) =>
          let r := afterPort R m1 pkg valid
          if r.1.c.treeIsDirty then .ok (.ret r.1 none)
          else portLayer R x r.1 r.2 ids

/-- The loop of `portAll` over the layers, last layer first (lines 160-199). -/
def portLayers (R : Ranks) (x : Ext) : M → Bool → List (List PkgId) → Except String Sweep
  | m, valid, [] => .ok (.goOn m valid)
  | m, valid, layer :: layers =>
    match portLayer R x m valid layer with
    | .error msg => .error msg
    | .ok (.ret m1 err) => .ok (.ret m1 err)
    | .ok (.goOn m1 valid1) => portLayers R x m1 valid1 layers

/-- `Controller.portAll` (lines 154-208). -/
def portAll (R : Ranks) (x : Ext) (m : M) : Except String (M × Option String) :=
  match m.c.tree with
  | none => .error "package tree not initialized"
  | some tree =>
    match portLayers R x m true tree.reverse with
    | .error msg => .error msg
    | .ok (.ret m1 err) => .ok (m1, err)
    | .ok (.goOn m1 valid) =>
      if valid = false then .ok ({ m1 with c := { m1.c with treeIsDirty := true } }, none)
      else .ok (m1, none)

/-- The callback of `load` on one package (lines 111-146). A fresh `state` is
the zero value: `Unknown` at configuration 0. -/
def loadPackage (x : Ext) (c : Controller) (pkg : Package) :
    Except String Controller :=
  let pinned := pkg.goroot || pkg.standard || (x.isGolangXPkg pkg && pkg.module.replace)
  let found : Except String Controller :=
    match c.states.get pkg.id with
    | none =>
      let fresh : State := ⟨if pinned then psExhausted else psUnknown, 0, [], none⟩
      .ok { c with states := c.states.set pkg.id fresh }
    | some _ =>
      if c.loadCount > 1 ∧ pkg.firstLoad = false ∧ (pkg.goroot ∨ pkg.standard)
          ∧ (pkg.dirty ∨ pkg.depDirty) then
        .error "package found in GOROOT changed after first load"
      else .ok c
  match found with
  | .error msg => .error msg
  | .ok c1 =>
    let c2 :=
      if (c1.st pkg.id).ps = psUnknown ∧ pkg.included then c1.setPs pkg.id psBuilt else c1
    if pkg.dirty ∨ pkg.depDirty then
      match pkg.builds.get? (c2.st pkg.id).cfi with
      | none => .error "index out of range"
      | some b =>
        if b.stx.length = 0 then
          .ok (c2.modify pkg.id (fun s => { s with types := some (x.emptyTypes pkg.id) }))
        else
          match typeCheck x c2 pkg (!pkg.included || x.isStdlibPkg pkg) with
          | .error msg => .error msg
          | .ok (typed, errs) =>
            .ok (c2.modify pkg.id (fun s => { s with types := some typed, errs := errs }))
    else .ok c2

/-- The walk of `pkg2.Resolve` over the packages it found, calling the callback
of `load` on each. The package object is up to date when the callback sees it. -/
def loadVisit (x : Ext) : M → List Package → Except String M
  | m, [] => .ok m
  | m, pkg :: pkgs =>
    match loadPackage x m.c pkg with
    | .error msg => .error msg
    | .ok c1 => loadVisit x { m with c := c1, heap := m.heap.set pkg.id pkg } pkgs

/-- `Controller.load` (lines 101-152). The lister is asked with the number of
the load. -/
def load (x : Ext) (m : M) : Except String (M × Option String) :=
  let c0 := { m.c with loadCount := m.c.loadCount + 1, treeIsDirty := false }
  let l := x.list c0.loadCount
  match l.listErr with
  | some err => .ok ({ m with c := c0 }, some ("package discovery: " ++ err))
  | none =>
    match loadVisit x { m with c := c0 } l.visit with
    | .error msg => .error msg
    | .ok m1 =>
      let m2 : M := { m1 with c := { m1.c with tree := l.tree } }
      match l.resolveErr with
      | some err => .ok (m2, some ("build import tree: " ++ err))
      | none => .ok (m2, none)

/-- The loop of `Run` (lines 84-96), one sweep per unit of fuel; `none` when
the fuel does not suffice. -/
def runLoop (R : Ranks) (x : Ext) : Nat → M → Option (Except String (M × Option String))
  | 0, _ => none
  | fuel + 1, m =>
    match load x m with
    | .error msg => some (.error msg)
    | .ok (m1, some err) => some (.ok (m1, some err))
    | .ok (m1, none) =>
      match portAll R x m1 with
      | .error msg => some (.error msg)
      | .ok (m2, some err) => some (.ok (m2, some err))
      | .ok (m2, none) =>
        if m2.c.treeIsDirty = false then some (.ok (m2, none))
        else runLoop R x fuel m2

/-- `Controller.Run` (lines 74-99); the deferred function sets `complete`. -/
def Run (R : Ranks) (x : Ext) (fuel : Nat) (m : M) : Option (Except String (M × Option String)) :=
  if m.c.complete then some (.error "cannot run a controller more than once")
  else
    match runLoop R x fuel m with
    | none => none
    | some (.error msg) => some (.error msg)
    | some (.ok (m1, err)) => some (.ok ({ m1 with c := { m1.c with complete := true } }, err))

/-- `NewController` (lines 64-72). -/
def NewController (paths : List String) : Controller :=
  { paths := paths, tree := none, states := [], patchable := [], workspace := [],
    treeIsDirty := false, complete := false, loadCount := 0 }

/-! ## Applier -/

/-- The settings of package `base` that `Apply` reads, with `SuppressOutput`. -/
structure Base where
  verbose : Bool
  dryRun : Bool
  generatePatches : Bool
  cloneFromVCS : Bool
  importDir : String
  goos : String
  gowork : String
  suppressOutput : Bool

structure ModuleAction where
  path : String
  version : String
  fixed : String
  imported : Bool
  dir : String
  deriving DecidableEq, Repr

structure FileAction where
  name : String
  baseFile : String
  build : Bool
  deriving DecidableEq, Repr

structure TokenAction where
  file : String
  token : String
  change : String
  deriving DecidableEq, Repr

structure PackageAction where
  path : String
  module : String
  dir : String
  tags : List String
  files : List FileAction
  tokens : List TokenAction
  deriving DecidableEq, Repr

/-- `strings.TrimSuffix`. -/
def trimSuffix (s suf : String) : String :=
  if suf.data.isSuffixOf s.data then String.mk (s.data.take (s.data.length - suf.data.length))
  else s

/-- `filepath.Base` of a clean slash-separated path. -/
def baseOf (s : String) : String :=
  String.mk (s.data.reverse.takeWhile (fun ch => ch ≠ '/')).reverse

/-- `filepath.Dir` of a clean slash-separated path. -/
def dirOf (s : String) : String :=
  String.mk ((s.data.reverse.dropWhile (fun ch => ch ≠ '/')).drop 1).reverse

/-- One step of the applier on the outside world: a call whose error is
returned, a call whose error is dropped, a computation that may fail, or a
panic. -/
inductive Step
  | eff (e : Effect)
  | effIgnored (e : Effect)
  | check (err : Option String)
  | abort (msg : String)

/-- Runs steps in order until one returns an error or panics. -/
def runSteps (x : Ext) : M → List Step → Except String (M × Option String)
  | m, [] => .ok (m, none)
  | m, .eff e :: rest =>
    match x.effectErr e with
    | some err => .ok ({ m with trace := m.trace ++ [e] }, some err)
    | none => runSteps x { m with trace := m.trace ++ [e] } rest
  | m, .effIgnored e :: rest => runSteps x { m with trace := m.trace ++ [e] } rest
  | m, .check (some err) :: _ => .ok (m, some err)
  | m, .check none :: rest => runSteps x m rest
  | _, .abort msg :: _ => .error msg

/-- Format a file, append a tag and write the result (lines 690-703, 708-721,
776-795, 811-824). -/
def writeTagged (x : Ext) (src dst tag op : String) : List Step :=
  [.check (x.formatErr src), .check (x.appendTagErr src tag op), .eff (.writeFile dst src tag op)]

/-- The token actions of an overridden file (lines 728-748); an unknown
directive type panics. -/
def tokenSteps (fname : String) (reason : Map String (Map String ExportInline)) :
    List Step × List TokenAction :=
  reason.foldl (fun acc entry =>
    entry.2.foldl (fun acc2 sym =>
      if sym.2.type = "EXPORT" then
        (acc2.1, acc2.2 ++ [⟨fname, entry.1 ++ "." ++ sym.1, entry.1 ++ "." ++ sym.2.replace⟩])
      else if sym.2.type = "CONTSTANT" then
        (acc2.1, acc2.2 ++ [⟨fname, entry.1 ++ "." ++ sym.1, sym.2.replace⟩])
      else (acc2.1 ++ [.abort "unknown export directive type"], acc2.2)) acc) ([], [])

/-- The locals of the tag branch of `Apply` while it walks the files of the
patched configuration: the files still marked as active by default, the steps
so far and the file and token actions. -/
structure TagWalk where
  current : List String
  steps : List Step
  files : List FileAction
  tokens : List TokenAction

/-- The body of the loop over the files of the patched configuration (lines
657-799). -/
def tagFile (b : Base) (x : Ext) (dir : String) (dcfg : Build) (w : TagWalk) (g : GoFile) :
    TagWalk :=
  let fileAction : FileAction := ⟨g.name, "", !(g.name ∈ w.current)⟩
  let w1 : TagWalk :=
    match g.replaced with
    | some r =>
      let replAction : FileAction := ⟨r.file, "", !(r.file ∈ w.current)⟩
      let ovrAction : FileAction := ⟨g.name, r.file, true⟩
      let wasActive : List Step × List FileAction :=
        if g.name ∈ w.current then
          (if b.dryRun then []
            else .eff (.copyFile (joinPath dir g.name) g.path) ::
              writeTagged x r.file (joinPath dir r.file) ("!" ++ b.goos) "&&", [replAction])
        else ([], [])
      let own : List Step :=
        if b.dryRun then [] else writeTagged x g.name (joinPath dir g.name) b.goos ""
      let toks := tokenSteps g.name r.reason
      { w with
        steps := w.steps ++ wasActive.1 ++ own ++ toks.1
        files := w.files ++ [fileAction, ovrAction] ++ wasActive.2
        tokens := w.tokens ++ toks.2 }
    | none =>
      if g.name ∈ w.current then w
      else
        let newName := trimSuffix g.name ".go" ++ "_" ++ b.goos ++ ".go"
        let copy : List Step :=
          if dcfg.files.length = 0 then
            [.eff (.copyFile (joinPath dir newName) (joinPath dir g.name))]
          else []
        let name := if x.parseFileName g.name then newName else g.name
        { w with
          steps := w.steps ++ copy ++ writeTagged x g.name (joinPath dir name) b.goos "||"
          files := w.files ++ [fileAction] }
  { w1 with current := w1.current.filter (fun n => n ≠ g.name) }

/-- The loop over the files that are left in `current` (lines 802-825). -/
def excludeRest (b : Base) (x : Ext) (dir : String) (w : TagWalk) : TagWalk :=
  w.current.foldl (fun acc n =>
    { acc with
      files := acc.files ++ [⟨n, "", false⟩]
      steps := acc.steps ++ writeTagged x n (joinPath dir n) ("!" ++ b.goos) "&&" }) w

/-- The clone of a module that is not a main module into the import directory
(lines 577-609). -/
def cloneSteps (b : Base) (x : Ext) (pkg : Package) : List Step :=
  let path := joinPath b.importDir pkg.module.path
  [ (if b.cloneFromVCS then
      .eff (.cloneVCS path pkg.module.path (trimSuffix pkg.module.version "+incompatible"))
     else .eff (.cloneCache pkg.module.dir path pkg.module.path)),
    .eff (.dropReplace pkg.module.path),
    .eff (.workUse path),
    .check ((x.goListModMain pkg.module.path).filter (fun e => !x.isExcludeGoListError e)) ]

/-- The steps and the package action of `Apply` for one patchable package
(lines 611-827), after the clone; the configurations are `Builds[0]` and
`Builds[state.cfi]`. -/
def applyPackage (b : Base) (x : Ext) (pkg : Package) (dcfg pcfg : Build) :
    List Step × PackageAction :=
  let actionDir := if pkg.module.main then pkg.dir else joinPath b.importDir pkg.module.path
  let q := x.goListPkgDir pkg.importPath
  let dirErr : Option String := q.2.filter (fun e => !x.isExcludeGoListError e)
  let dir := if q.2.isSome then joinPath b.importDir pkg.module.path else q.1
  let action : PackageAction := ⟨pkg.importPath, pkg.module.path, actionDir, [], [], []⟩
  if pcfg.platforms.length = 0 then
    let copies : List Step :=
      (pcfg.files.filter (fun g => g.replaced.isSome)).map
        (fun g => .effIgnored (.copyFile (joinPath dir g.name) g.path))
    (.check dirErr :: copies, action)
  else
    let start : TagWalk := ⟨dcfg.files.map (fun g => g.name), [], [], []⟩
    let w := excludeRest b x dir (pcfg.files.foldl (tagFile b x dir dcfg) start)
    (.check dirErr :: w.steps,
      { action with tags := pcfg.platforms, files := w.files, tokens := w.tokens })

/-- What `Apply` leaves: the machine, the globals `ModuleActions` and
`PackageActions`, and the error it returns. -/
structure Applied where
  m : M
  moduleActions : List ModuleAction
  packageActions : List PackageAction
  err : Option String

/-- The loop of `Apply` over the patchable packages (lines 558-828); `diffs`
collects the module directories to diff. -/
def applyPackages (b : Base) (x : Ext) :
    M → List PackageAction → List String → List PkgId →
      Except String (M × List PackageAction × List String × Option String)
  | m, acts, diffs, [] => .ok (m, acts, diffs, none)
  | m, acts, diffs, id :: ids =>
    match m.heap.get id with
    | none => .error "nil pointer dereference"
    | some pkg =>
    match m.c.states.get pkg.id with
    | none => .error "nil pointer dereference"
    | some state =>
      let diffs1 :=
        if b.dryRun = false ∧ b.generatePatches then insertKey pkg.module.dir diffs else diffs
      if state.cfi = 0 then .error "trying to patch using default config (no changes)"
      else
        let clone : List Step := if pkg.module.main then [] else cloneSteps b x pkg
        match runSteps x m clone with
        | .error msg => .error msg
        | .ok (m1, some err) => .ok (m1, acts, diffs1, some err)
        | .ok (m1, none) =>
          let pkg1 : Package := { pkg with module := { pkg.module with main := true } }
          let m2 : M := { m1 with heap := m1.heap.set pkg.id pkg1 }
          match pkg.builds.get? 0, pkg.builds.get? state.cfi with
          | some dcfg, some pcfg =>
            let r := applyPackage b x pkg dcfg pcfg
            match runSteps x m2 r.1 with
            | .error msg => .error msg
            | .ok (m3, some err) => .ok (m3, acts, diffs1, some err)
            | .ok (m3, none) => applyPackages b x m3 (acts ++ [r.2]) diffs1 ids
          | _, _ => .error "index out of range"

/-- `Controller.Apply` (lines 515-842). -/
def Apply (b : Base) (x : Ext) (m : M) : Except String Applied :=
  if m.c.complete = false then .error "trying to apply incomplete porting job"
  else
    let moduleActions : List ModuleAction := m.c.workspace.map (fun e =>
      ⟨e.1, e.2.original, e.2.version, decide (e.2.action = modImported),
        if e.2.action = modImported then joinPath b.importDir e.1 else ""⟩)
    match applyPackages b x m [] [] m.c.patchable with
    | .error msg => .error msg
    | .ok (m1, acts, _, some err) => .ok ⟨m1, moduleActions, acts, some err⟩
    | .ok (m1, acts, diffs, none) =>
      let patches : List Effect :=
        diffs.map (fun d => .gitDiff d (joinPath (dirOf b.gowork) (baseOf d ++ ".patch")))
      .ok ⟨{ m1 with trace := m1.trace ++ patches }, moduleActions, acts, none⟩

/-! ## The variant of package `porting`: entry and module-version step -/

namespace Porting

/-- A module decision `modulepatch` of the module cache. -/
structure ModulePatch where
  version : String
  action : ModAction
  deriving DecidableEq, Repr

/-- The fields of `packages.Package` that `port` reads or writes up to the
re-tag stage; `module = none` is a nil `Module`. -/
structure Package where
  importPath : String
  module : Option Module
  extFlags : PortState
  cfgIdx : Nat
  fileImports : Map String (Map String String)
  deriving DecidableEq, Repr

/-- The package-level variables `forceLoad` and `modcache`, with the external
calls so far. -/
structure Globals where
  forceLoad : Bool
  modcache : Map String ModulePatch
  trace : List Effect
  deriving DecidableEq, Repr

/-- The external collaborators of the prefix of `port`. -/
structure Ext where
  loadSyntaxErr : Option String
  /-- The diagnostics `pkg.Build` reports to its handler. -/
  build : List TypeError
  goListModUpdate : String → String × Option String
  isExcludeGoListError : String → Bool
  goWorkEditReplaceVersion : String → String → Option String

/-- `isGolangX` (lines 796-798). -/
def isGolangX (mod : Option Module) : Bool :=
  match mod with
  | none => false
  | some md => "golang.org/x/".data.isPrefixOf md.path.data

/-- How the prefix of `port` (lines 208-310) ends: `port` returns, or goes on
to the re-tag stage of line 313 with its locals. -/
inductive PrefixOut
  | ret (g : Globals) (pkg : Package) (err : Option String)
  | retag (g : Globals) (pkg : Package) (needTag : Bool) (imports : List String)
  deriving DecidableEq, Repr

/-- The error handler of the first build (lines 221-237) over the
diagnostics. -/
def classify (pkg : Package) :
    List String × Bool × List TypeError → List TypeError → List String × Bool × List TypeError
  | acc, [] => acc
  | (imports, needTag, ill), e :: es =>
    match e.reason with
    | .badImportName pn _ =>
      let target := (((pkg.fileImports.get e.filename).getD []).get pn).getD ""
      classify pkg (insertKey target imports, needTag, ill) es
    | .badName _ => classify pkg (imports, true, ill) es
    | .other _ => classify pkg (imports, needTag, ill ++ [e]) es

/-- The module-version step (lines 256-310). In the branch of a module without
cache entry, `updated := version != uver` declares a new variable: the
`updated` read by lines 298 and 306 is the outer one, still false. -/
def moduleStep (R : Ranks) (x : Ext) (g : Globals) (pkg : Package) (needTag : Bool)
    (imports : List String) : Except String PrefixOut :=
  match pkg.module with
  | none => .error "nil pointer dereference"
  | some mod =>
    let taken : Bool := !mod.main &&
      (match g.modcache.get mod.path with
       | none => !mod.replace
       | some mptc => decide (R.act mptc.action < R.act modLocked))
    if taken then
      -- lines 265-288: the cache, the version to write, the outer `updated`,
      -- and the error of the update query
      let decided : Map String ModulePatch × String × Bool × Option String :=
        match g.modcache.get mod.path with
        | none =>
          let cache1 := g.modcache.set mod.path ⟨mod.version, modLocked⟩
          let q := x.goListModUpdate mod.path
          let fatal : Option String := q.2.filter (fun err => !x.isExcludeGoListError err)
          if fatal.isSome then (cache1, mod.version, false, fatal)
          else if mod.version ≠ q.1 then
            (cache1.set mod.path ⟨q.1, modUpdated⟩, q.1, false, none)
          else (cache1, mod.version, false, none)
        | some _ => (g.modcache.set mod.path ⟨mod.version, modLocked⟩, mod.version, true, none)
      match decided with
      | (cache1, _, _, some err) => .ok (.ret { g with modcache := cache1 } pkg (some err))
      | (cache1, version, updated, none) =>
        let g1 : Globals :=
          { g with modcache := cache1, trace := g.trace ++ [.workReplace mod.path version] }
        match x.goWorkEditReplaceVersion mod.path version with
        | some err => .ok (.ret g1 pkg (some err))
        | none =>
          let g2 : Globals := { g1 with forceLoad := updated }
          if isGolangX pkg.module then .ok (.ret g2 { pkg with extFlags := psExhausted } none)
          else if updated then .ok (.ret g2 { pkg with extFlags := psUnknown } none)
          else .ok (.retag g2 pkg needTag imports)
    else .ok (.retag g pkg needTag imports)

/-- The prefix of `port` (lines 208-310): syntax load, first build and
classification of a package in `stateUnknown`, module-version step. -/
def portPrefix (R : Ranks) (x : Ext) (g : Globals) (pkg : Package) : Except String PrefixOut :=
  match x.loadSyntaxErr with
  | some err => .ok (.ret g pkg (some err))
  | none =>
    let needTag := decide (pkg.extFlags = psBrokeParent)
    if pkg.extFlags = psUnknown then
      let r := classify pkg ([], needTag, []) x.build
      if r.2.2.length > 0 then
        .ok (.ret g pkg (some ("unknown type error(s) occurred in " ++ pkg.importPath)))
      else if r.2.1 = false ∧ r.1.length = 0 then
        .ok (.ret g { pkg with extFlags := psValid } none)
      else moduleStep R x g pkg r.2.1 r.1
    else moduleStep R x g pkg needTag []

/-- The fields of `porting.Config` that `Port` reads before the run;
`goEnv = none` is a nil map. -/
structure Config where
  goEnv : Option (Map String String)
  cache : String
  dryRun : Bool

/-- The external collaborators of `Port`. The porting run `run(paths, config)`
enters by the error it returns. -/
structure PortExt where
  parseGoEnvTagsErr : Option String
  setupCacheErr : String → Option String
  setupTempGoWork : String → String × Option String
  runErr : Option String
  copyFileErr : String → String → Option String

/-- The teardown of `Port` (lines 88-125) on the workspace file `gowork` and its
temporary copy `aGoWork`: the calls it makes on the file system. The results of
the two `os.Remove` only decide what is printed. -/
def teardown (x : PortExt) (gowork aGoWork : String) (dryRun : Bool) : List Effect :=
  if aGoWork.length > 0 ∧ dryRun = false then
    let backup := gowork ++ ".backup"
    match x.copyFileErr backup gowork with
    | some _ => [.copyFile backup gowork]
    | none =>
      match x.copyFileErr gowork aGoWork with
      | some _ => [.copyFile backup gowork, .copyFile gowork aGoWork]
      | none =>
        [.copyFile backup gowork, .copyFile gowork aGoWork, .remove (aGoWork ++ ".sum"),
          .remove aGoWork]
  else []

/-- `Port` (lines 44-128): the calls it makes on the user's workspace file and
the error it returns. -/
def Port (x : PortExt) (config : Option Config) : Except String (List Effect × Option String) :=
  match config with
  | none => .error "config must not be nil"
  | some cfg =>
    match cfg.goEnv with
    | none => .error "go environment not initialized"
    | some env =>
      if env.length = 0 then .error "go environment not initialized"
      else
        let gowork := (env.get "GOWORK").getD ""
        let cache := if cfg.cache.length = 0 then joinPath (dirOf gowork) ".wharf_cache"
          else cfg.cache
        match x.parseGoEnvTagsErr with
        | some err => .ok ([], some err)
        | none =>
          match x.setupCacheErr cache with
          | some err => .ok ([], some err)
          | none =>
            let tmp := x.setupTempGoWork gowork
            let err := match tmp.2 with
              | some e => some e
              | none => x.runErr
            .ok (teardown x gowork tmp.1 cfg.dryRun, err)

end Porting

/-! ## The command -/

/-- What the command line and the environment hand to `main` and `main1`. -/
structure MainIn where
  help : Bool
  version : Bool
  nArg : Nat
  configFlag : String
  readFileErr : Option String
  parseConfigErr : Option String
  patches : Bool
  vcs : Bool
  test : Bool
  dryRun : Bool
  force : Bool
  importDir : String
  goEnv : Map String String
  goEnvErr : Option String
  lstatExists : Bool
  isTerminal : Bool
  confirm : String

/-- How `main1` ends: the process exits with a status, or `main1` returns an
error value. -/
inductive Main1Out
  | exit (status : Nat)
  | ret (err : Option String)
  deriving DecidableEq, Repr

/-- `main1` (lines 126-187). `log.Fatal` exits with status 1, a panic with
status 2. -/
def main1 (x : Porting.PortExt) (i : MainIn) : Main1Out :=
  match i.goEnvErr with
  | some _ => .exit 1
  | none =>
    if (i.goEnv.get "GOWORK").getD "" = "" then .exit 1
    else
      let declined : Option Nat :=
        if i.force = false ∧ i.lstatExists then
          if i.isTerminal then
            if i.confirm ≠ "y" ∧ i.confirm ≠ "Y" then some 0 else none
          else some 1
        else none
      match declined with
      | some status => .exit status
      | none =>
        match Porting.Port x (some ⟨some i.goEnv, "", i.dryRun⟩) with
        | .error _ => .exit 2
        | .ok r => .ret r.2

/-- `main` (lines 35-124): the exit status of the command. Returning from
`main` is status 0. -/
def main (x : Porting.PortExt) (i : MainIn) : Nat :=
  if i.help then 0
  else if i.version then 0
  else if i.nArg < 1 then 1
  else if i.configFlag ≠ "" ∧ (i.readFileErr.isSome ∨ i.parseConfigErr.isSome) then 1
  else if i.patches ∧ i.vcs = false then 1
  else
    match main1 x i with
    | .exit status => status
    | .ret _ => 0

/-! ## Example inputs -/

/-- External collaborators that report nothing and never fail. -/
def ext0 : Ext where
  check := fun _ _ _ _ => ⟨[], 0, []⟩
  emptyTypes := fun _ => 0
  goListModUpdate := fun _ => ("", none)
  isExcludeGoListError := fun _ => false
  goWorkEditReplaceVersion := fun _ _ => none
  backupNameLookup := fun _ => none
  isGolangXPkg := fun _ => false
  isStdlibPkg := fun _ => false
  inlines := fun _ => none
  readParse := fun _ => true
  mkdirAll := fun _ => none
  applyExportDirective := fun _ _ _ _ => none
  list := fun _ => ⟨none, [], some [], none⟩
  cache := ".wharf_cache"
  unsafePackageName := "unsafe"
  effectErr := fun _ => none
  goListModMain := fun _ => none
  goListPkgDir := fun p => (p, none)
  formatErr := fun _ => none
  appendTagErr := fun _ _ _ => none
  parseFileName := fun _ => false

/-- A build with one parsed file. -/
def oneFile (name : String) : Build :=
  ⟨[⟨name, "/src/" ++ name, true, none⟩], ["zos"], [name]⟩

/-- The target package `example.com/app` of the main module: one file that
imports `example.com/lib` as `lib`, one configuration. -/
def appPkg : Package where
  id := 1
  importPath := "example.com/app"
  name := "app"
  dir := "/work/app"
  module := ⟨"example.com/app", "", true, false, "/work/app"⟩
  goroot := false
  standard := false
  files := [("a.go", [("lib", "example.com/lib")])]
  imports := [("example.com/lib", 2)]
  builds := [oneFile "a.go"]
  parents := []
  included := true
  dirty := false
  depDirty := false
  firstLoad := true
  modified := false

/-- A diagnostic of kind `Other`. -/
def otherErr : TypeError := ⟨.other "cannot use x as int value", false, "a.go"⟩

/-- Machine in which `example.com/app` is `Built` with one cached diagnostic of
kind `Other`. -/
def mOther : M where
  c := { NewController ["example.com/app"] with
          states := [(1, ⟨psBuilt, 0, [otherErr], some 7⟩)] }
  heap := [(1, appPkg)]
  trace := []

/-- A soft bad-import diagnostic on `lib.Sym` in `a.go`. -/
def softImportErr : TypeError := ⟨.badImportName "lib" "Sym", true, "a.go"⟩

/-- Settings of a run without dry-run. -/
def base0 : Base := ⟨false, false, false, false, "/work/wharf_port", "zos", "/work/go.work", true⟩

/-- A package of GOROOT. -/
def rtPkg : Package where
  id := 3
  importPath := "runtime/rt"
  name := "rt"
  dir := "/goroot/src/runtime/rt"
  module := ⟨"", "", false, false, ""⟩
  goroot := true
  standard := true
  files := [("rt.go", [])]
  imports := []
  builds := [oneFile "rt.go"]
  parents := [2]
  included := false
  dirty := true
  depDirty := false
  firstLoad := true
  modified := false

/-- The package `example.com/lib` of the main module, a target itself: one
configuration, one file that imports `runtime/rt`. -/
def libPkg : Package where
  id := 2
  importPath := "example.com/lib"
  name := "lib"
  dir := "/work/lib"
  module := ⟨"example.com/lib", "", true, false, "/work/lib"⟩
  goroot := false
  standard := false
  files := [("l.go", [("rt", "runtime/rt")])]
  imports := [("runtime/rt", 3)]
  builds := [oneFile "l.go"]
  parents := [1]
  included := true
  dirty := true
  depDirty := false
  firstLoad := true
  modified := false

/-- The scenario of an exhausted dependency: `example.com/app` imports
`example.com/lib`, which refers to a name that `runtime/rt` does not have on
the target platform; there is no directive. -/
def extExhausted : Ext :=
  { ext0 with
    check := fun id _ _ _ =>
      if id = 1 then ⟨["example.com/lib"], 11, [⟨.badImportName "lib" "Sym", false, "a.go"⟩]⟩
      else if id = 2 then ⟨["runtime/rt"], 12, [⟨.badImportName "rt" "Sym", false, "l.go"⟩]⟩
      else ⟨[], 13, []⟩
    list := fun _ =>
      ⟨none, [rtPkg, libPkg, { appPkg with dirty := true }], some [[1], [2], [3]], none⟩ }

/-- A fresh machine for the two targets. -/
def mFresh : M := ⟨NewController ["example.com/app", "example.com/lib"], [], []⟩

/-- The machine a call left, or `d` when the call panicked. -/
def machineOf (r : Except String (M × Option String)) (d : M) : M :=
  match r with
  | .ok (m, _) => m
  | .error _ => d

/-- The exhausted-dependency scenario after its first load. -/
def mLoaded : M := machineOf (load extExhausted mFresh) mFresh

/-- The exhausted-dependency scenario after `port` on `example.com/lib`. -/
def mAborted : M := machineOf (port declRanks extExhausted mLoaded libPkg) mLoaded

/-- The package `example.com/dep/pkg` of the module `example.com/dep` at
version `v1.0.0`, from the module cache: two configurations. -/
def depPkg : Package where
  id := 4
  importPath := "example.com/dep/pkg"
  name := "pkg"
  dir := "/modcache/example.com/dep@v1.0.0/pkg"
  module := ⟨"example.com/dep", "v1.0.0", false, false, "/modcache/example.com/dep@v1.0.0"⟩
  goroot := false
  standard := false
  files := [("d.go", []), ("d_linux.go", [])]
  imports := []
  builds := [oneFile "d.go", oneFile "d_linux.go"]
  parents := [1]
  included := false
  dirty := false
  depDirty := false
  firstLoad := true
  modified := false

/-- The update query finds `v1.2.0` for every module. -/
def extUpdate : Ext := { ext0 with goListModUpdate := fun _ => ("v1.2.0", none) }

/-- Machine in which `example.com/dep/pkg` is `Built` with a bad-name diagnostic
cached and the journal is empty. -/
def mDep : M where
  c := { NewController ["example.com/app"] with
          states := [(4, ⟨psBuilt, 0, [⟨.badName "Getpid", false, "d.go"⟩], some 5⟩)] }
  heap := [(4, depPkg)]
  trace := []

/-- The package `example.com/dep/pkg` as the lister hands it out after the
upgrade of its module took effect: the module has a replacement, and its
`Version` is still the one that MVS determined, `v1.0.0`. -/
def depPkgUp : Package :=
  { depPkg with module := { depPkg.module with replace := true } }

/-- Machine of the sweep after the upgrade: the journal has `example.com/dep`
at `Updated` (original `v1.0.0`, version `v1.2.0`), and the package, loaded
under the replacement, comes back as `BrokeParent`. -/
def mDepUp : M where
  c := { NewController ["example.com/app"] with
          states := [(4, ⟨psBrokeParent, 0, [], some 5⟩)]
          workspace := [("example.com/dep", ⟨"v1.0.0", "v1.2.0", modUpdated⟩)] }
  heap := [(4, depPkgUp)]
  trace := []

/-! ## Predicates used in the statements -/

/-- The controller `c'` comes from `c` by changes to the record of one package
that keep its port state and its cached diagnostics and do not lower its
configuration index. -/
def Touches (id : PkgId) (c c' : Controller) : Prop :=
  ∃ f : State → State, c' = c.modify id f ∧
    ∀ s, (f s).ps = s.ps ∧ (f s).errs = s.errs ∧ s.cfi ≤ (f s).cfi

/-- The state table `c'` agrees with `c` on every package other than `id` that
is not below `Exhausted` in `c` (or has no record). -/
def StatesFrame (R : Ranks) (id : PkgId) (c c' : Controller) : Prop :=
  ∀ q, q ≠ id → (∀ s, c.states.get q = some s → ¬ R.ps s.ps < R.ps psExhausted) →
    c'.states.get q = c.states.get q

/-- What the stages of `port` after the module-version step keep: the journal,
and the records of the packages that are neither the package under port nor
below `Exhausted`. -/
def StageFrame (R : Ranks) (id : PkgId) (m m' : M) : Prop :=
  m'.c.workspace = m.c.workspace ∧ StatesFrame R id m.c m'.c

/-- The machine an entry outcome carries. -/
def EntryOut.machine : EntryOut → M
  | .done m _ => m
  | .proceed m _ _ => m

/-- Every entry of the journal `ws` is still in `ws'`, with the same `original`
and an action whose numeric value is not lower. -/
def JournalMono (R : Ranks) (ws ws' : Map String WorkEdit) : Prop :=
  ∀ path e, ws.get path = some e →
    ∃ e', ws'.get path = some e' ∧ e'.original = e.original ∧ R.act e.action ≤ R.act e'.action

/-- The machine a sweep outcome carries. -/
def Sweep.machine : Sweep → M
  | .goOn m _ => m
  | .ret m _ => m

/-- Every package that is `Exhausted` in `c` is `Exhausted` in `c'` at the same
configuration index. -/
def KeepsExhausted (c c' : Controller) : Prop :=
  ∀ q s, c.states.get q = some s → s.ps = psExhausted →
    ∃ s', c'.states.get q = some s' ∧ s'.ps = psExhausted ∧ s'.cfi = s.cfi

/-- The condition under which `portAll` skips a package (line 169). -/
def skipped (R : Ranks) (pkg : Package) (st : State) : Prop :=
  (pkg.included = false ∧ st.ps = psUnknown) ∨ R.ps st.ps ≥ R.ps psExhausted

/-- The machine `mDepUp` after `port` on the package that came back. -/
def mDepRelocked : M := machineOf (port declRanks ext0 mDepUp depPkgUp) mDepUp

/-- The filter passes every diagnostic of the list, one after the other,
taking the accumulator from `acc` to `acc'` (without a filter: every
diagnostic is soft). -/
inductive PassesAll {σ : Type} (filter : Option (Filter σ)) (cfi : Nat) :
    σ → List TypeError → σ → Prop
  | nil (acc : σ) : PassesAll filter cfi acc [] acc
  | soft (acc : σ) (e : TypeError) (es : List TypeError) (acc' : σ) :
      filter = none → e.soft = true → PassesAll filter cfi acc es acc' →
        PassesAll filter cfi acc (e :: es) acc'
  | pass (f : Filter σ) (acc acc₁ : σ) (e : TypeError) (es : List TypeError) (acc' : σ) :
      filter = some f → f acc cfi e = .ok (acc₁, true) → PassesAll filter cfi acc₁ es acc' →
        PassesAll filter cfi acc (e :: es) acc'

/-- No parent of the package, type-checked against the state table `c`, has a
bad-import diagnostic that stands for the package under test. -/
def ParentsClean (x : Ext) (heap : Map PkgId Package) (c : Controller) (pkg : Package) : Prop :=
  ∀ p ∈ pkg.parents, ∃ parent typed errs,
    heap.get p = some parent ∧ typeCheck x c parent false = .ok (typed, errs) ∧
    ∀ e ∈ errs, ∀ pn nm, e.reason = Reason.badImportName pn nm →
      ∃ f ipath, parent.files.get e.filename = some f ∧
        parentImportPath x f pn = some ipath ∧ pkg.importPath ≠ ipath

/-- The run of the filter over the configurations `i`, ..., `k - 1`: `validate`
rejected each of them in turn, the index going up by one after each
rejection; the run starts in `(c, acc)` at index `i` and ends in `(c', acc')`
at index `k`. -/
inductive RejectedFrom {σ : Type} (x : Ext) (heap : Map PkgId Package) (pkg : Package)
    (filter : Option (Filter σ)) : Nat → Nat → Controller → σ → Controller → σ → Prop
  | done (c : Controller) (acc : σ) :
      RejectedFrom x heap pkg filter (c.st pkg.id).cfi (c.st pkg.id).cfi c acc c acc
  | step (k : Nat) (c c₁ c' : Controller) (acc a₁ acc' : σ) :
      (c.st pkg.id).cfi < pkg.builds.length →
      validate x heap c pkg filter acc = .ok (c₁, a₁, false) →
      RejectedFrom x heap pkg filter ((c.st pkg.id).cfi + 1) k
        (c₁.modify pkg.id (fun s => { s with cfi := s.cfi + 1 })) a₁ c' acc' →
      RejectedFrom x heap pkg filter (c.st pkg.id).cfi k c acc c' acc'

/-- The value a call of `filterConfigs` returned, or `d` when it panicked. -/
def filterOut {σ : Type} (r : Except String (Controller × σ)) (d : Controller × σ) :
    Controller × σ :=
  match r with
  | .ok v => v
  | .error _ => d

/-- The checker finds a bad name in configuration 0 of `example.com/dep/pkg`
and nothing in configuration 1. -/
def extRetag : Ext :=
  { ext0 with
    check := fun id cfi _ _ =>
      if id = 4 ∧ cfi = 0 then ⟨[], 20, [⟨.badName "Getpid", false, "d.go"⟩]⟩
      else ⟨[], 21 + cfi, []⟩ }

/-- Machine in which `example.com/dep/pkg` is to be re-tagged from
configuration 0 on; its parent `example.com/app` waits for it. -/
def mRetag : M where
  c := { NewController ["example.com/app"] with
          states := [(1, ⟨psPortingDependencies, 0, [], some 7⟩),
            (4, ⟨psBrokeParent, 0, [], some 5⟩)] }
  heap := [(1, appPkg), (4, depPkg)]
  trace := []

/-- The result of the filter on `mRetag`. -/
def retagOut : Controller × Option (List (Option PkgId)) :=
  filterOut (filterConfigs extRetag mRetag.heap mRetag.c depPkg
    (some (retagFilter extRetag depPkg)) (some [])) (mRetag.c, none)

/-- Settings of a dry run. -/
def baseDry : Base := { base0 with dryRun := true }

/-- Machine after a run in which `example.com/dep/pkg`, of a module that is not
a main module, was patched at configuration 1. -/
def mPatched : M where
  c := { NewController ["example.com/app"] with
          states := [(4, ⟨psPatched, 1, [], some 5⟩)]
          patchable := [4]
          workspace := [("example.com/dep", ⟨"v1.0.0", "v1.0.0", modImported⟩)]
          complete := true }
  heap := [(4, depPkg)]
  trace := []

/-- The package of `example.com/dep` in the variant `porting`, flagged as
having broken a parent. -/
def pDep : Porting.Package :=
  ⟨"example.com/dep/pkg", some depPkg.module, psBrokeParent, 0, [("d.go", [])]⟩

/-- The collaborators of the variant `porting` with an update to `v1.2.0`. -/
def pExtUpdate : Porting.Ext :=
  ⟨none, [], fun _ => ("v1.2.0", none), fun _ => false, fun _ _ => none⟩

/-- A hard bad-import diagnostic on `lib.Sym` in `a.go`. -/
def hardImportErr : TypeError := ⟨.badImportName "lib" "Sym", false, "a.go"⟩

/-- The export-directive scenario: the checker reports the hard bad-import
diagnostic for `example.com/app`, and the registry maps `Sym` of
`example.com/lib` to `GoodSym`. -/
def extDirective : Ext :=
  { ext0 with
    check := fun id _ _ _ => if id = 1 then ⟨[], 8, [hardImportErr]⟩ else ⟨[], 0, []⟩
    inlines := fun path =>
      if path = "example.com/lib" then some ⟨some [("Sym", ⟨"EXPORT", "GoodSym"⟩)], false⟩
      else none }

/-- Machine in which `example.com/app` is `Built` at configuration 0 with the
hard bad-import diagnostic cached, and its dependency `example.com/lib` is
`Exhausted`. -/
def mDirective : M where
  c := { NewController ["example.com/app"] with
          states := [(1, ⟨psBuilt, 0, [hardImportErr], some 7⟩), (2, ⟨psExhausted, 0, [], some 3⟩)] }
  heap := [(1, appPkg)]
  trace := []

/-- The condition that pins a package at its first load (line 116): the
package is in GOROOT, is of the standard library, or is a golang.org/x package
whose module has a replacement. -/
def pinned (x : Ext) (pkg : Package) : Bool :=
  pkg.goroot || pkg.standard || (x.isGolangXPkg pkg && pkg.module.replace)

/-- The package `golang.org/x/sys/unix` of the module `golang.org/x/sys` at
`v0.1.0`, from the module cache. -/
def sysPkg : Package where
  id := 6
  importPath := "golang.org/x/sys/unix"
  name := "unix"
  dir := "/modcache/golang.org/x/sys@v0.1.0/unix"
  module := ⟨"golang.org/x/sys", "v0.1.0", false, false, "/modcache/golang.org/x/sys@v0.1.0"⟩
  goroot := false
  standard := false
  files := [("u.go", [])]
  imports := []
  builds := [oneFile "u.go", oneFile "u_linux.go"]
  parents := [1]
  included := false
  dirty := false
  depDirty := false
  firstLoad := true
  modified := false

/-- The collaborators know `golang.org/x/sys/unix` as a golang.org/x package
and find no other version of its module than `v0.1.0`. -/
def extGolangX : Ext :=
  { ext0 with
    isGolangXPkg := fun p => p.id = 6
    goListModUpdate := fun _ => ("v0.1.0", none) }

/-- Machine in which `golang.org/x/sys/unix` comes back as `BrokeParent`, the
journal is empty and a sweep is under way. -/
def mSys : M where
  c := { NewController ["example.com/app"] with
          states := [(6, ⟨psBrokeParent, 0, [], some 9⟩)] }
  heap := [(6, sysPkg)]
  trace := []

/-- The registry carries a files list, and no export substitution, for
`example.com/app`; the checker reports the hard bad-import diagnostic. -/
def extFiles : Ext :=
  { ext0 with
    check := fun id _ _ _ => if id = 1 then ⟨[], 8, [hardImportErr]⟩ else ⟨[], 0, []⟩
    inlines := fun path => if path = "example.com/app" then some ⟨none, true⟩ else none }

/-- The target package `example.com/tool` of the main module: one file that
imports `example.com/lib` as `lib`, three configurations. -/
def toolPkg : Package where
  id := 7
  importPath := "example.com/tool"
  name := "tool"
  dir := "/work/tool"
  module := ⟨"example.com/tool", "", true, false, "/work/tool"⟩
  goroot := false
  standard := false
  files := [("t.go", [("lib", "example.com/lib")])]
  imports := [("example.com/lib", 2)]
  builds := [oneFile "t.go", oneFile "t.go", oneFile "t.go"]
  parents := []
  included := true
  dirty := false
  depDirty := false
  firstLoad := true
  modified := false

/-- A bad-import diagnostic on `lib.Sym` in `t.go`. -/
def toolImportErr : TypeError := ⟨.badImportName "lib" "Sym", false, "t.go"⟩

/-- Machine in which `example.com/tool` is `Built` at configuration 0 with a
bad name and a bad import on `example.com/lib` cached; `example.com/lib` is
not yet inspected. -/
def mTool : M where
  c := { NewController ["example.com/tool"] with
          states := [(7, ⟨psBuilt, 0, [⟨.badName "Getpid", false, "t.go"⟩, toolImportErr], some 7⟩),
            (2, ⟨psUnknown, 0, [], some 3⟩)] }
  heap := [(7, toolPkg)]
  trace := []

/-- The checker finds nothing in configuration 1 of `example.com/tool`. -/
def extToolClean : Ext :=
  { ext0 with check := fun _ _ _ _ => ⟨[], 40, []⟩ }

/-- The checker finds a hard diagnostic of kind `Other` in configuration 1 of
`example.com/tool`, and in configuration 2 a bad import on `lib.Sym` followed
by a soft diagnostic. -/
def extToolLast : Ext :=
  { ext0 with
    check := fun _ cfi _ _ =>
      if cfi = 1 then ⟨[], 41, [⟨.other "mismatched types", false, "t.go"⟩]⟩
      else ⟨[], 42, [toolImportErr, ⟨.other "declared and not used: x", true, "t.go"⟩]⟩ }

/-- The target package `example.com/solo/cmd` of the module `example.com/solo`
at `v1.0.0`, which is not a main module: two configurations, no imports, no
parents. -/
def soloPkg : Package where
  id := 8
  importPath := "example.com/solo/cmd"
  name := "cmd"
  dir := "/modcache/example.com/solo@v1.0.0/cmd"
  module := ⟨"example.com/solo", "v1.0.0", false, false, "/modcache/example.com/solo@v1.0.0"⟩
  goroot := false
  standard := false
  files := [("s.go", []), ("s_linux.go", [])]
  imports := []
  builds := [oneFile "s.go", oneFile "s_linux.go"]
  parents := []
  included := true
  dirty := true
  depDirty := false
  firstLoad := true
  modified := false

/-- The scenario of one package in need of a tag: configuration 0 of
`example.com/solo/cmd` has a bad name, configuration 1 is clean, the update
query finds `v1.2.0`, and from the second load on the lister reports the
replacement of the module. -/
def extSolo : Ext :=
  { ext0 with
    check := fun _ cfi _ _ =>
      if cfi = 0 then ⟨[], 50, [⟨.badName "Getpid", false, "s.go"⟩]⟩ else ⟨[], 51, []⟩
    goListModUpdate := fun _ => ("v1.2.0", none)
    list := fun n =>
      if n ≤ 1 then ⟨none, [soloPkg], some [[8]], none⟩
      else ⟨none, [{ soloPkg with module := { soloPkg.module with replace := true },
                                  firstLoad := false }], some [[8]], none⟩ }

/-- A fresh machine for the target `example.com/solo/cmd`. -/
def mSolo : M := ⟨NewController ["example.com/solo/cmd"], [], []⟩

/-- The machine a run left, or `d` when it did not return or panicked. -/
def machineOfRun (r : Option (Except String (M × Option String))) (d : M) : M :=
  match r with
  | some (.ok (m, _)) => m
  | _ => d

/-- The go environment of a workspace at `/work/go.work`. -/
def goEnv0 : Map String String := [("GOOS", "zos"), ("GOWORK", "/work/go.work")]

/-- The collaborators of `Port` when the set-up succeeds, the temporary copy of
the workspace file is `/work/go.work.wharf` and the porting run fails. -/
def pxFailing : Porting.PortExt :=
  ⟨none, fun _ => none, fun _ => ("/work/go.work.wharf", none),
    some "unable to load packages: exit status 1", fun _ _ => none⟩

/-- The command `wharf ./...` in a workspace, without flags. -/
def mainIn0 : MainIn where
  help := false
  version := false
  nArg := 1
  configFlag := ""
  readFileErr := none
  parseConfigErr := none
  patches := false
  vcs := false
  test := false
  dryRun := false
  force := false
  importDir := ""
  goEnv := goEnv0
  goEnvErr := none
  lstatExists := false
  isTerminal := false
  confirm := ""

/-- The name `<basename>_<GOOS>.go` for a file name (lines 764 and 789). -/
def goosName (b : Base) (name : String) : String :=
  trimSuffix name ".go" ++ "_" ++ b.goos ++ ".go"

/-- The directory of a package as `Apply` finds it (lines 612-619). -/
def packageDir (b : Base) (x : Ext) (pkg : Package) : String :=
  if (x.goListPkgDir pkg.importPath).2.isSome then joinPath b.importDir pkg.module.path
  else (x.goListPkgDir pkg.importPath).1

/-- The check of the error of the package directory query (lines 613-619). -/
def packageDirCheck (x : Ext) (pkg : Package) : Step :=
  .check ((x.goListPkgDir pkg.importPath).2.filter (fun e => !x.isExcludeGoListError e))

/-- Where the source of a file goes once the GOOS tag is added: to
`<basename>_<GOOS>.go` when the file name carries a constraint, in place
otherwise. -/
def taggedTarget (b : Base) (x : Ext) (name : String) : String :=
  if x.parseFileName name then goosName b name else name

/-- What is done for a file without override that the patched configuration
adds: when the default configuration has no files the file is first copied to
`<basename>_<GOOS>.go`; then its source is formatted, the GOOS tag is added
with `||`, and the result is written to `taggedTarget`. -/
def addedSteps (b : Base) (x : Ext) (dir : String) (dcfg : Build) (name : String) : List Step :=
  (if dcfg.files.length = 0 then
      [Step.eff (.copyFile (joinPath dir (goosName b name)) (joinPath dir name))]
    else []) ++
    writeTagged x name (joinPath dir (taggedTarget b x name)) b.goos "||"

/-- What is done for a file that the patched configuration drops: its source is
formatted, the `!GOOS` tag is added with `&&`, and the result is written in
place. -/
def droppedSteps (b : Base) (x : Ext) (dir : String) (name : String) : List Step :=
  writeTagged x name (joinPath dir name) ("!" ++ b.goos) "&&"

/-- A library package whose default configuration has no files: every file is
excluded by its build constraints; configuration 1 has `lib.go`. -/
def bareLibPkg : Package :=
  { libPkg with
    files := [("lib.go", [])]
    imports := []
    builds := [⟨[], [], []⟩, oneFile "lib.go"] }

/-- Machine after a run in which the library package without default files was
patched at configuration 1. -/
def mBarePatched : M where
  c := { NewController ["example.com/lib"] with
          states := [(2, ⟨psPatched, 1, [], some 5⟩)]
          patchable := [2]
          complete := true }
  heap := [(2, bareLibPkg)]
  trace := []

/-- The collaborators that see the constraint `linux` in the file name
`d_linux.go`. -/
def extNamed : Ext := { ext0 with parseFileName := fun n => n = "d_linux.go" }

/-- The files that the patched configuration has and the default configuration
has not. -/
def addedFiles (dcfg pcfg : Build) : List GoFile :=
  pcfg.files.filter (fun g => g.name ∉ dcfg.files.map (fun g => g.name))

/-- The names of the files that the default configuration has and the patched
configuration has not. -/
def droppedFiles (dcfg pcfg : Build) : List String :=
  (dcfg.files.map (fun g => g.name)).filter (fun n => n ∉ pcfg.files.map (fun g => g.name))

/-- Whether an effect writes or copies to a path. -/
def Effect.writesTo (path : String) : Effect → Bool
  | .writeFile p _ _ _ => p = path
  | .copyFile dst _ => dst = path
  | _ => false

/-- The export substitution that the directive registry supplies for a symbol
of the package imported by a file under an alias (lines 452-455):
`base.Inlines[file.Imports[alias]].Exports[symbol]`. -/
def substitutionFor (x : Ext) (file : Map String String) (al sym : String) :
    Option ExportInline :=
  ((x.inlines (importOf file al)).bind (fun d => d.exports)).bind (fun ex => ex.get sym)

/-- The edit map with a substitution recorded under file name, alias and symbol
(lines 457-464). -/
def recordEdit (ed : FileImportEdits) (fname al sym : String) (d : ExportInline) :
    FileImportEdits :=
  ed.set fname (((ed.get fname).getD []).set al
    ((((ed.get fname).getD []).get al).getD [] |>.set sym d))

/-- A hard bad-import diagnostic on `lib.Sym2` in `a.go`. -/
def hardImportErr2 : TypeError := ⟨.badImportName "lib" "Sym2", false, "a.go"⟩

/-- The checker reports two hard bad-import diagnostics for `example.com/app`,
on `lib.Sym` and on `lib.Sym2`, and the registry has a substitution for each
of the two symbols of `example.com/lib`. -/
def extTwoSyms : Ext :=
  { ext0 with
    check := fun id _ _ _ =>
      if id = 1 then ⟨[], 8, [hardImportErr, hardImportErr2]⟩ else ⟨[], 0, []⟩
    inlines := fun path =>
      if path = "example.com/lib" then
        some ⟨some [("Sym", ⟨"EXPORT", "GoodSym"⟩), ("Sym2", ⟨"EXPORT", "GoodSym2"⟩)], false⟩
      else none }

/-- A hard bad-import diagnostic on `lib.Missing` in `t.go`. -/
def toolMissingErr : TypeError := ⟨.badImportName "lib" "Missing", false, "t.go"⟩

/-- A hard bad-import diagnostic on `lib.Sym2` in `t.go`. -/
def toolImportErr2 : TypeError := ⟨.badImportName "lib" "Sym2", false, "t.go"⟩

/-- A hard diagnostic of kind `Other` in `t.go`. -/
def toolOtherErr : TypeError := ⟨.other "mismatched types", false, "t.go"⟩

/-- Machine in which `example.com/tool` is `Built` at configuration 0 with the
given diagnostics cached, and its dependency `example.com/lib` is
`Exhausted`. -/
def mToolDeps (errs : List TypeError) : M where
  c := { NewController ["example.com/tool"] with
          states := [(7, ⟨psBuilt, 0, errs, some 7⟩), (2, ⟨psExhausted, 0, [], some 3⟩)] }
  heap := [(7, toolPkg)]
  trace := []

/-- The registry maps `Sym` and `Sym2` of `example.com/lib` to `GoodSym` and
`GoodSym2`. -/
def toolInlines : String → Option Directive :=
  fun path =>
    if path = "example.com/lib" then
      some ⟨some [("Sym", ⟨"EXPORT", "GoodSym"⟩), ("Sym2", ⟨"EXPORT", "GoodSym2"⟩)], false⟩
    else none

/-- The checker on `example.com/tool`: configuration 0 has a bad import on
`lib.Missing`, for which the registry has nothing; configuration 1 has a
bad import on `lib.Sym` followed by a hard diagnostic of kind `Other`;
configuration 2 has a hard diagnostic of kind `Other`. -/
def extToolHard : Ext :=
  { ext0 with
    check := fun _ cfi _ _ =>
      if cfi = 0 then ⟨[], 40, [toolMissingErr]⟩
      else if cfi = 1 then ⟨[], 41, [toolImportErr, toolOtherErr]⟩
      else ⟨[], 42, [toolOtherErr]⟩
    inlines := toolInlines }

/-- The checker on `example.com/tool`: configuration 0 has a bad import on
`lib.Sym`, configuration 1 a bad import on `lib.Sym2`, configuration 2 a hard
diagnostic of kind `Other`. -/
def extToolMixed : Ext :=
  { ext0 with
    check := fun _ cfi _ _ =>
      if cfi = 0 then ⟨[], 40, [toolImportErr]⟩
      else if cfi = 1 then ⟨[], 41, [toolImportErr2]⟩
      else ⟨[], 42, [toolOtherErr]⟩
    inlines := toolInlines }

/-- Whether a state is numerically below `psExhausted` (line 422). -/
def belowExhausted (R : Ranks) (ps : PortState) : Bool :=
  decide (R.ps ps < R.ps psExhausted)

/-- The record of a dependency of the bad-import set after the promotion loop
(lines 422-427): a state below `psExhausted` and below `psBrokeParent` becomes
`psBrokeParent`, every other record is kept. -/
def promotedState (R : Ranks) (s : State) : State :=
  if R.ps s.ps < R.ps psExhausted ∧ R.ps s.ps < R.ps psBrokeParent then
    { s with ps := psBrokeParent }
  else s

/-- The number of calls of `validate` that the loop of `filterConfigs` makes:
the loop of `filterConfigsLoop` with a counter. -/
def validateCalls {σ : Type} (x : Ext) (heap : Map PkgId Package) (pkg : Package)
    (filter : Option (Filter σ)) : Nat → Controller → σ → Nat
  | 0, _, _ => 0
  | fuel + 1, c, acc =>
    match c.states.get pkg.id with
    | none => 0
    | some state =>
      match pkg.builds.get? state.cfi with
      | none => 0
      | some cfg =>
        if stxFails x cfg then 0
        else
          match validate x heap c pkg filter acc with
          | .error _ => 1
          | .ok (_, _, true) => 1
          | .ok (c', acc', false) =>
            1 + validateCalls x heap pkg filter fuel
              (c'.modify pkg.id (fun s => { s with cfi := s.cfi + 1 })) acc'

/-- Every record of the state table has its configuration index within the
number of builds `B` of its package. -/
def CfiOk (B : PkgId → Nat) (c : Controller) : Prop :=
  ∀ id s, c.states.get id = some s → s.cfi < B id

/-- Every package of the heap has `B` builds. -/
def HeapOk (B : PkgId → Nat) (heap : Map PkgId Package) : Prop :=
  ∀ k p, heap.get k = some p → p.builds.length = B p.id

/-- Every record other than the one of package `id` has its configuration index
within the number of builds of its package. -/
def CfiOkBut (B : PkgId → Nat) (id : PkgId) (c : Controller) : Prop :=
  ∀ q s, c.states.get q = some s → q ≠ id → s.cfi < B q

/-- A filter does not panic with an index out of range. -/
def FilterInBounds {σ : Type} (f : Filter σ) : Prop :=
  ∀ acc cfi e msg, f acc cfi e = .error msg → msg ≠ "index out of range"

/-- Every package the lister hands out, at any load, has `B` builds, at least
one. -/
def ListOk (B : PkgId → Nat) (x : Ext) : Prop :=
  ∀ n, ∀ p ∈ (x.list n).visit, p.builds.length = B p.id ∧ 1 ≤ B p.id

/-- A stage of `port` does not panic with an index out of range, and when it
returns nil it leaves every configuration index within the builds of its
package and the heap `heap` as it was. -/
def KeepsBounds (B : PkgId → Nat) (heap : Map PkgId Package)
    (r : Except String (M × Option String)) : Prop :=
  r ≠ .error "index out of range" ∧
    ∀ m', r = .ok (m', none) → CfiOk B m'.c ∧ m'.heap = heap

/-- The entry of `port` does not panic with an index out of range, and unless
it returns an error it leaves every configuration index within the builds of
its package and the heap `heap` as it was. -/
def EntryKeepsBounds (B : PkgId → Nat) (heap : Map PkgId Package)
    (r : Except String EntryOut) : Prop :=
  r ≠ .error "index out of range" ∧
    (∀ m', r = .ok (.done m' none) → CfiOk B m'.c ∧ m'.heap = heap) ∧
    (∀ m' needTag imports, r = .ok (.proceed m' needTag imports) →
      CfiOk B m'.c ∧ m'.heap = heap)

/-- A part of a sweep does not panic with an index out of range, and unless it
ends with an error it leaves every configuration index within the builds of
its package and every package of the heap with its `B` builds. -/
def SweepKeepsBounds (B : PkgId → Nat) (r : Except String Sweep) : Prop :=
  r ≠ .error "index out of range" ∧
    (∀ m' valid, r = .ok (.goOn m' valid) → CfiOk B m'.c ∧ HeapOk B m'.heap) ∧
    (∀ m', r = .ok (.ret m' none) → CfiOk B m'.c ∧ HeapOk B m'.heap)

/-- The same for `load` and `portAll`. -/
def StepKeepsBounds (B : PkgId → Nat) (r : Except String (M × Option String)) : Prop :=
  r ≠ .error "index out of range" ∧
    ∀ m', r = .ok (m', none) → CfiOk B m'.c ∧ HeapOk B m'.heap

/-- The scenario of `extSolo` with a hard diagnostic in configuration 1 as
well: the re-tag search of `example.com/solo/cmd` fails. -/
def extSoloFail : Ext :=
  { extSolo with
    check := fun _ cfi _ _ =>
      if cfi = 0 then ⟨[], 50, [⟨.badName "Getpid", false, "s.go"⟩]⟩
      else ⟨[], 51, [⟨.other "mismatched types", false, "s_linux.go"⟩]⟩ }

/-- The number of builds of the packages of the scenario of `extSolo`. -/
def soloBuilds : PkgId → Nat := fun id => if id = 8 then 2 else 1

/-- The controllers have the same journal and the same port state for every
package. -/
def SamePs (c c' : Controller) : Prop :=
  c'.workspace = c.workspace ∧
    ∀ q, (c'.states.get q).map (fun s => s.ps) = (c.states.get q).map (fun s => s.ps)

/-- The package object is one the lister handed to some load, up to the flag
`modified`. -/
def Known (x : Ext) (p : Package) : Prop :=
  ∃ n q, q ∈ (x.list n).visit ∧ p = { q with modified := p.modified }

/-- The lister reports every module at one version: `V` gives `Module.Version`
for a module path, at every load (a workspace replacement is reported apart,
in `Module.Replace`). -/
def ListsVersions (V : String → String) (x : Ext) : Prop :=
  ∀ n q, q ∈ (x.list n).visit → q.module.version = V q.module.path

/-- The journal and the heap agree with the versions `V` of the lister: every
journal entry has the version of its module as `original`, and every package
of the heap carries the version of its module. -/
def VersionsKept (V : String → String) (m : M) : Prop :=
  (∀ path e, m.c.workspace.get path = some e → e.original = V path) ∧
  (∀ k p, m.heap.get k = some p → p.module.version = V p.module.path)

/-! ## Theorems -/

/-! ### Maps and the state table -/

namespace Map

variable {κ α : Type} [DecidableEq κ]

theorem get_set_self (m : Map κ α) (k : κ) (v : α) : (m.set k v).get k = some v := by
  induction m with
  | nil => simp [set, get]
  | cons hd tl ih =>
    obtain ⟨k', v'⟩ := hd
    by_cases h : k' = k
    · simp [set, get, h]
    · simp [set, get, h, ih]

theorem get_set_of_ne (m : Map κ α) {k k' : κ} (v : α) (h : k' ≠ k) :
    (m.set k v).get k' = m.get k' := by
  induction m with
  | nil => simp [set, get, Ne.symm h]
  | cons hd tl ih =>
    obtain ⟨k₀, v₀⟩ := hd
    by_cases h₀ : k₀ = k
    · subst h₀
      simp [set, get, Ne.symm h]
    · by_cases h₁ : k₀ = k'
      · subst h₁
        simp [set, get, h₀]
      · simp [set, get, h₀, h₁, ih]

end Map

theorem Controller.get_modify_self (c : Controller) (id : PkgId) (f : State → State) (s : State)
    (h : c.states.get id = some s) : (c.modify id f).states.get id = some (f s) := by
  simp [Controller.modify, h, Map.get_set_self]

theorem Controller.get_modify_of_ne (c : Controller) {id q : PkgId} (f : State → State)
    (h : q ≠ id) : (c.modify id f).states.get q = c.states.get q := by
  unfold Controller.modify
  split
  · rfl
  · simp [Map.get_set_of_ne _ _ h]

theorem Controller.st_of_get (c : Controller) (id : PkgId) (s : State)
    (h : c.states.get id = some s) : c.st id = s := by
  simp [Controller.st, h]

/-! ### Entry classification -/

theorem classify_other (x : Ext) (pkg : Package) (errs : List TypeError) :
    ∀ en : Entry, (∀ e ∈ errs, ∃ raw, e.reason = Reason.other raw) →
      classify x pkg en errs = .ok { en with illList := en.illList ++ errs } := by
  induction errs with
  | nil => intro en _; simp [classify]
  | cons e es ih =>
    intro en h
    obtain ⟨raw, hraw⟩ := h e (List.mem_cons_self _ _)
    have hes : ∀ e' ∈ es, ∃ raw, e'.reason = Reason.other raw :=
      fun e' he' => h e' (List.mem_cons_of_mem _ he')
    simp [classify, hraw, ih _ hes]

/-- C1 (what the code does instead): in `Controller.port`, a package that enters
in state `Built` and whose cached diagnostics are all of kind `Other` is set to
`Valid` and `port` returns nil: the test "no `needTag` and no bad imports" of
line 270 comes before the test on `illList` of line 276. -/
theorem C1_port_built_other_only_is_valid (R : Ranks) (x : Ext) (m : M) (pkg : Package)
    (st : State) (hst : m.c.states.get pkg.id = some st) (hp : pkg.id ∉ m.c.patchable)
    (hb : st.ps = psBuilt) (hoth : ∀ e ∈ st.errs, ∃ raw, e.reason = Reason.other raw) :
    port R x m pkg = .ok ({ m with c := m.c.setPs pkg.id psValid }, none) := by
  have hst' : m.c.st pkg.id = st := Controller.st_of_get _ _ _ hst
  simp [port, portEntry, hst, hp, hb, portBuilt, hst', classify_other x pkg st.errs _ hoth]

/-- C1, at a concrete input: `example.com/app` is `Built` with one diagnostic of
kind `Other`; `port` returns nil and the package is `Valid`. -/
theorem C1_port_built_other_only_is_valid_witness :
    (mOther.c.st 1).errs = [otherErr] ∧
    (port declRanks ext0 mOther appPkg).toOption.map (fun r => ((r.1.c.st 1).ps, r.2))
      = some (psValid, none) :=
  ⟨by decide, by
    rw [C1_port_built_other_only_is_valid declRanks ext0 mOther appPkg
      ⟨psBuilt, 0, [otherErr], some 7⟩ (by decide) (by decide) rfl
      (by intro e he; simp at he; subst he; exact ⟨_, rfl⟩)]
    decide⟩

/-! ### A port error ends the sweep -/

theorem portLayer_error (R : Ranks) (x : Ext) (m m1 : M) (pkg : Package) (st : State)
    (err : String) (valid : Bool) (ids : List PkgId)
    (hheap : m.heap.get pkg.id = some pkg) (hst : m.c.states.get pkg.id = some st)
    (hskip : ¬ ((pkg.included = false ∧ st.ps = psUnknown) ∨ R.ps st.ps ≥ R.ps psExhausted))
    (hport : port R x m pkg = .ok (m1, some err)) :
    portLayer R x m valid (pkg.id :: ids) = .ok (.ret m1 (some err)) := by
  simp only [portLayer, hheap, hst, hport]
  rw [if_neg hskip]

theorem run_returns_portAll_error (R : Ranks) (x : Ext) (m0 m m1 : M) (err : String)
    (fuel : Nat) (hc : m0.c.complete = false) (hload : load x m0 = .ok (m, none))
    (hall : portAll R x m = .ok (m1, some err)) :
    Run R x (fuel + 1) m0
      = some (.ok ({ m1 with c := { m1.c with complete := true } }, some err)) := by
  simp [Run, hc, runLoop, hload, hall]

theorem portLayer_append (R : Ranks) (x : Ext) (pre rest : List PkgId) :
    ∀ (m : M) (valid : Bool),
      portLayer R x m valid (pre ++ rest) =
        match portLayer R x m valid pre with
        | .ok (.goOn m1 valid1) => portLayer R x m1 valid1 rest
        | other => other := by
  induction pre with
  | nil => intro m valid; simp [portLayer]
  | cons id ids ih =>
    intro m valid
    simp only [List.cons_append, portLayer]
    cases hh : m.heap.get id with
    | none => rfl
    | some pkg =>
      simp only []
      cases hs : m.c.states.get pkg.id with
      | none => rfl
      | some state =>
        simp only []
        split
        · exact ih m valid
        · cases hp : port R x m pkg with
          | error msg => rfl
          | ok r =>
            obtain ⟨m1, e⟩ := r
            cases e with
            | some err => rfl
            | none =>
              simp only []
              split
              · rfl
              · exact ih _ _

theorem portLayers_append (R : Ranks) (x : Ext) (pre rest : List (List PkgId)) :
    ∀ (m : M) (valid : Bool),
      portLayers R x m valid (pre ++ rest) =
        match portLayers R x m valid pre with
        | .ok (.goOn m1 valid1) => portLayers R x m1 valid1 rest
        | other => other := by
  induction pre with
  | nil => intro m valid; simp [portLayers]
  | cons l ls ih =>
    intro m valid
    simp only [List.cons_append, portLayers]
    cases hl : portLayer R x m valid l with
    | error msg => rfl
    | ok r =>
      cases r with
      | ret m1 e => rfl
      | goOn m1 v1 => exact ih m1 v1

/-- C4 (amended): when `Controller.port` returns an error for a package that
`portAll` ports (for one, the error "no applicable options available" that
comes with `Exhausted`), `portAll` returns that error at once, wherever the
package stands in the sweep: the remaining packages `ids` of its layer and the
remaining layers are not ported, whatever they are, and `Run` returns the
error to its caller after marking the controller complete. -/
theorem C4_port_error_ends_sweep_and_run (R : Ranks) (x : Ext) (m0 mL mA m m1 : M)
    (vA valid : Bool) (pkg : Package) (st : State) (err : String)
    (pre ids : List PkgId) (preLayers layers tree : List (List PkgId)) (fuel : Nat)
    (hc : m0.c.complete = false) (hload : load x m0 = .ok (mL, none))
    (htree : mL.c.tree = some tree)
    (hrev : tree.reverse = preLayers ++ (pre ++ pkg.id :: ids) :: layers)
    (hpreLayers : portLayers R x mL true preLayers = .ok (.goOn mA vA))
    (hpre : portLayer R x mA vA pre = .ok (.goOn m valid))
    (hheap : m.heap.get pkg.id = some pkg) (hst : m.c.states.get pkg.id = some st)
    (hskip : ¬ ((pkg.included = false ∧ st.ps = psUnknown) ∨ R.ps st.ps ≥ R.ps psExhausted))
    (hport : port R x m pkg = .ok (m1, some err)) :
    portAll R x mL = .ok (m1, some err) ∧
    Run R x (fuel + 1) m0
      = some (.ok ({ m1 with c := { m1.c with complete := true } }, some err)) := by
  have h1 := portLayer_error R x m m1 pkg st err valid ids hheap hst hskip hport
  have h2 : portLayer R x mA vA (pre ++ pkg.id :: ids) = .ok (.ret m1 (some err)) := by
    rw [portLayer_append, hpre]; exact h1
  have h3 : portAll R x mL = .ok (m1, some err) := by
    simp [portAll, htree, hrev, portLayers_append, hpreLayers, portLayers, h2]
  exact ⟨h3, run_returns_portAll_error R x m0 mL m1 err fuel hc hload h3⟩

/-- C4, at the exhausted-dependency scenario: `port` sets `example.com/lib` to
`Exhausted` with the error "no applicable options available"; `Run` returns
that error after one load, and `example.com/app` was not ported. -/
theorem C4_port_error_ends_sweep_and_run_witness :
    (mAborted.c.st 2).ps = psExhausted ∧
    (portAll declRanks extExhausted mLoaded
        = .ok (mAborted, some "no applicable options available to port package example.com/lib") ∧
      Run declRanks extExhausted 3 mFresh
        = some (.ok ({ mAborted with c := { mAborted.c with complete := true } },
            some "no applicable options available to port package example.com/lib"))) :=
  ⟨by decide,
    C4_port_error_ends_sweep_and_run declRanks extExhausted mFresh mLoaded mLoaded mLoaded
      mAborted true true libPkg ⟨psBuilt, 0, [⟨.badImportName "rt" "Sym", false, "l.go"⟩], some 12⟩
      "no applicable options available to port package example.com/lib"
      [] [] [[3]] [[1]] [[1], [2], [3]] 2
      (by decide) (by rfl) (by rfl) (by rfl) (by rfl) (by rfl) (by rfl) (by rfl) (by decide)
      (by rfl)⟩

/-- C4 (the claim fails): in the exhausted-dependency scenario `Run` returns
the error of `example.com/lib` after a single load, `example.com/lib` is
`Exhausted` and `example.com/app`, which imports it, is still `Built`: it was
never ported and is not `Exhausted`. -/
theorem C4_run_returns_error_counterexample :
    (Run declRanks extExhausted 3 mFresh).map (fun r => r.toOption.map (fun r =>
        ((r.1.c.st 2).ps, (r.1.c.st 1).ps, r.1.c.loadCount, r.2)))
      = some (some (psExhausted, psBuilt, 1,
          some "no applicable options available to port package example.com/lib")) := by
  decide

/-! ### Module-version step -/

namespace Map

variable {κ α : Type} [DecidableEq κ]

theorem set_set (m : Map κ α) (k : κ) (v w : α) : (m.set k v).set k w = m.set k w := by
  induction m with
  | nil => simp [set]
  | cons hd tl ih =>
    obtain ⟨k', v'⟩ := hd
    by_cases h : k' = k
    · simp [set, h]
    · simp [set, h, ih]

end Map

/-- C5: in `Controller.port`, for a package that reaches the module-version step
(it has errors to fix), is not a golang.org/x package, and whose module is
non-main with no replacement and no journal entry: if the update query yields a
version `u` other than the module's version `v` (without a fatal error) and the
workspace edit succeeds, then `port` returns nil and leaves exactly this: the
journal entry `original = v, version = u, action = Updated`, the request of the
workspace replace to `u`, `treeIsDirty = true`, and the package in `Unknown`.
Nothing else of the state table changes: no configuration search ran. -/
theorem C5_module_update_resets_to_unknown (R : Ranks) (x : Ext) (m m1 : M) (pkg : Package)
    (needTag : Bool) (imports : List (Option PkgId)) (u : String)
    (hentry : portEntry x m pkg = .ok (.proceed m1 needTag imports))
    (hmain : pkg.module.main = false) (hrep : pkg.module.replace = false)
    (hnone : m1.c.workspace.get pkg.module.path = none)
    (hx : x.isGolangXPkg pkg = false)
    (hq : (x.goListModUpdate pkg.module.path).1 = u)
    (hqerr : ∀ err, (x.goListModUpdate pkg.module.path).2 = some err →
      x.isExcludeGoListError err = true)
    (hne : u ≠ pkg.module.version)
    (hedit : x.goWorkEditReplaceVersion pkg.module.path u = none) :
    port R x m pkg = .ok
      ({ m1 with
          c := Controller.setPs
            { m1.c with
              workspace := m1.c.workspace.set pkg.module.path
                ⟨pkg.module.version, u, modUpdated⟩
              treeIsDirty := true } pkg.id psUnknown
          trace := m1.trace ++ [.workReplace pkg.module.path u] }, none) := by
  have hfatal : (Option.filter (fun err => !x.isExcludeGoListError err)
      (x.goListModUpdate pkg.module.path).2) = none := by
    cases h : (x.goListModUpdate pkg.module.path).2 with
    | none => rfl
    | some err => simp [Option.filter, hqerr err h]
  have hne' : pkg.module.version ≠ u := fun h => hne h.symm
  simp only [port, hentry, portModule, moduleDecision, moduleStepTaken, hmain, hrep, hnone, hq,
    hfatal]
  simp [hne', hedit, hx, Map.set_set]

/-- C5, at a concrete input: `example.com/dep` at `v1.0.0` with an update to
`v1.2.0`. -/
theorem C5_module_update_resets_to_unknown_witness :
    (port declRanks extUpdate mDep depPkg).toOption.map (fun r =>
        (r.1.c.workspace, r.1.trace, r.1.c.treeIsDirty, r.1.c.states, r.2))
      = some ([("example.com/dep", ⟨"v1.0.0", "v1.2.0", modUpdated⟩)],
          [.workReplace "example.com/dep" "v1.2.0"], true,
          [(4, ⟨psUnknown, 0, [⟨.badName "Getpid", false, "d.go"⟩], some 5⟩)], none) := by
  rw [C5_module_update_resets_to_unknown declRanks extUpdate mDep mDep depPkg true [] "v1.2.0"
    (by rfl) (by rfl) (by rfl) (by rfl) (by rfl) (by rfl) (by intro err h; cases h) (by decide)
    (by rfl)]
  rfl

namespace Map

variable {κ α : Type} [DecidableEq κ]

theorem set_of_get (m : Map κ α) (k : κ) (v : α) (h : m.get k = some v) : m.set k v = m := by
  induction m with
  | nil => simp [get] at h
  | cons hd tl ih =>
    obtain ⟨k', v'⟩ := hd
    by_cases hk : k' = k
    · subst hk
      simp [get] at h
      simp [set, h]
    · simp [get, hk] at h
      simp [set, hk, ih h]

end Map

@[simp] theorem Controller.modify_workspace (c : Controller) (id : PkgId) (f : State → State) :
    (c.modify id f).workspace = c.workspace := by
  unfold Controller.modify; split <;> rfl

@[simp] theorem Controller.modify_treeIsDirty (c : Controller) (id : PkgId) (f : State → State) :
    (c.modify id f).treeIsDirty = c.treeIsDirty := by
  unfold Controller.modify; split <;> rfl

@[simp] theorem Controller.modify_patchable (c : Controller) (id : PkgId) (f : State → State) :
    (c.modify id f).patchable = c.patchable := by
  unfold Controller.modify; split <;> rfl

@[simp] theorem Controller.modify_tree (c : Controller) (id : PkgId) (f : State → State) :
    (c.modify id f).tree = c.tree := by
  unfold Controller.modify; split <;> rfl

@[simp] theorem Controller.modify_complete (c : Controller) (id : PkgId) (f : State → State) :
    (c.modify id f).complete = c.complete := by
  unfold Controller.modify; split <;> rfl

@[simp] theorem Controller.modify_loadCount (c : Controller) (id : PkgId) (f : State → State) :
    (c.modify id f).loadCount = c.loadCount := by
  unfold Controller.modify; split <;> rfl

theorem Controller.modify_modify (c : Controller) (id : PkgId) (f g : State → State) :
    (c.modify id f).modify id g = c.modify id (fun s => g (f s)) := by
  cases h : c.states.get id with
  | none => simp [Controller.modify, h]
  | some s => simp [Controller.modify, h, Map.get_set_self, Map.set_set]

theorem Controller.modify_same (c : Controller) (id : PkgId) : c.modify id (fun s => s) = c := by
  cases h : c.states.get id with
  | none => simp [Controller.modify, h]
  | some s => simp [Controller.modify, h, Map.set_of_get _ _ _ h]

theorem Controller.get_modify (c : Controller) (id q : PkgId) (f : State → State) :
    (c.modify id f).states.get q =
      if q = id then (c.states.get id).map f else c.states.get q := by
  by_cases h : q = id
  · subst h
    cases hs : c.states.get q with
    | none => simp [Controller.modify, hs]
    | some s => simp [Controller.get_modify_self c q f s hs]
  · simp [h, Controller.get_modify_of_ne c f h]

theorem Touches.reflT (id : PkgId) (c : Controller) : Touches id c c :=
  ⟨fun s => s, (Controller.modify_same c id).symm, fun _ => ⟨rfl, rfl, le_refl _⟩⟩

theorem Touches.transT {id : PkgId} {c₁ c₂ c₃ : Controller} (h₁ : Touches id c₁ c₂)
    (h₂ : Touches id c₂ c₃) : Touches id c₁ c₃ := by
  obtain ⟨f, rfl, hf⟩ := h₁
  obtain ⟨g, rfl, hg⟩ := h₂
  refine ⟨fun s => g (f s), Controller.modify_modify c₁ id f g, fun s => ?_⟩
  exact ⟨(hg (f s)).1.trans (hf s).1, (hg (f s)).2.1.trans (hf s).2.1,
    le_trans (hf s).2.2 (hg (f s)).2.2⟩

theorem Touches.modify_types (id : PkgId) (c : Controller) (t : Option Types) :
    Touches id c (c.modify id (fun s => { s with types := t })) :=
  ⟨_, rfl, fun _ => ⟨rfl, rfl, le_refl _⟩⟩

theorem Touches.bump (id : PkgId) (c : Controller) :
    Touches id c (c.modify id (fun s => { s with cfi := s.cfi + 1 })) :=
  ⟨_, rfl, fun _ => ⟨rfl, rfl, Nat.le_succ _⟩⟩

theorem Touches.workspace {id : PkgId} {c c' : Controller} (h : Touches id c c') :
    c'.workspace = c.workspace := by
  obtain ⟨f, rfl, _⟩ := h; simp

theorem Touches.get_of_ne {id q : PkgId} {c c' : Controller} (h : Touches id c c')
    (hq : q ≠ id) : c'.states.get q = c.states.get q := by
  obtain ⟨f, rfl, _⟩ := h; exact Controller.get_modify_of_ne c f hq

theorem validate_touches {σ : Type} (x : Ext) (heap : Map PkgId Package) (c : Controller)
    (pkg : Package) (filter : Option (Filter σ)) (acc : σ) (c' : Controller) (acc' : σ)
    (b : Bool) (h : validate x heap c pkg filter acc = .ok (c', acc', b)) :
    Touches pkg.id c c' := by
  unfold validate at h
  split at h
  · cases h
  · split at h
    · cases h
    · split at h
      · cases h
      · cases h; exact Touches.reflT _ _
      · dsimp only at h
        split at h
        · cases h
        · cases h; exact Touches.modify_types _ _ _

theorem filterConfigsLoop_touches {σ : Type} (x : Ext) (heap : Map PkgId Package)
    (pkg : Package) (filter : Option (Filter σ)) :
    ∀ (fuel : Nat) (c : Controller) (acc : σ) (c' : Controller) (acc' : σ),
      filterConfigsLoop x heap pkg filter fuel c acc = .ok (c', acc') →
        Touches pkg.id c c' := by
  intro fuel
  induction fuel with
  | zero =>
    intro c acc c' acc' h
    simp [filterConfigsLoop] at h
    obtain ⟨rfl, _⟩ := h
    exact Touches.reflT _ _
  | succ n ih =>
    intro c acc c' acc' h
    unfold filterConfigsLoop at h
    split at h
    · cases h
    · split at h
      · cases h; exact Touches.reflT _ _
      · split at h
        · cases h
        · split at h
          · cases h
          · rename_i hv
            cases h
            exact validate_touches x heap c pkg filter acc _ _ _ hv
          · rename_i hv
            exact (validate_touches x heap c pkg filter acc _ _ _ hv).transT
              ((Touches.bump _ _).transT (ih _ _ _ _ h))

theorem filterConfigs_touches {σ : Type} (x : Ext) (heap : Map PkgId Package) (c : Controller)
    (pkg : Package) (filter : Option (Filter σ)) (acc : σ) (c' : Controller) (acc' : σ)
    (h : filterConfigs x heap c pkg filter acc = .ok (c', acc')) : Touches pkg.id c c' := by
  unfold filterConfigs at h
  split at h
  · cases h
  · exact filterConfigsLoop_touches x heap pkg filter _ _ _ _ _ h

theorem StatesFrame.reflS (R : Ranks) (id : PkgId) (c : Controller) : StatesFrame R id c c :=
  fun _ _ _ => rfl

theorem StatesFrame.transS {R : Ranks} {id : PkgId} {c₁ c₂ c₃ : Controller}
    (h₁ : StatesFrame R id c₁ c₂) (h₂ : StatesFrame R id c₂ c₃) : StatesFrame R id c₁ c₃ := by
  intro q hq hs
  have e₁ := h₁ q hq hs
  rw [h₂ q hq (by rw [e₁]; exact hs), e₁]

theorem StatesFrame.of_modify (R : Ranks) (id : PkgId) (c : Controller) (f : State → State) :
    StatesFrame R id c (c.modify id f) :=
  fun _ hq _ => Controller.get_modify_of_ne c f hq

theorem StatesFrame.of_touches {R : Ranks} {id : PkgId} {c c' : Controller}
    (h : Touches id c c') : StatesFrame R id c c' :=
  fun _ hq _ => Touches.get_of_ne h hq

theorem StatesFrame.eqS {R : Ranks} {id : PkgId} {c c' : Controller}
    (h : c'.states = c.states) : StatesFrame R id c c' :=
  fun _ _ _ => by rw [h]

theorem promote_frame (R : Ranks) (id : PkgId) (ks : List (Option PkgId)) :
    ∀ (c : Controller) (can : Bool) (c' : Controller) (can' : Bool),
      promote R c can ks = .ok (c', can') →
        c'.workspace = c.workspace ∧ c'.treeIsDirty = c.treeIsDirty ∧ StatesFrame R id c c' := by
  induction ks with
  | nil =>
    intro c can c' can' h
    simp [promote] at h
    obtain ⟨rfl, _⟩ := h
    exact ⟨rfl, rfl, StatesFrame.reflS _ _ _⟩
  | cons k ks ih =>
    intro c can c' can' h
    unfold promote at h
    split at h
    · cases h
    · rename_i ipkg
      split at h
      · cases h
      · rename_i istate hi
        split at h
        · rename_i hlt
          split at h
          · obtain ⟨hw, hd, hf⟩ := ih _ _ _ _ h
            refine ⟨by simpa [Controller.setPs] using hw, by simpa [Controller.setPs] using hd, ?_⟩
            refine StatesFrame.transS ?_ hf
            intro q _ hs
            have hne : q ≠ ipkg := by
              rintro rfl
              exact hs istate hi hlt
            exact Controller.get_modify_of_ne c _ hne
          · exact ih _ _ _ _ h
        · split at h
          · cases h
          · exact ih _ _ _ _ h

theorem Controller.setPs_workspace (c : Controller) (id : PkgId) (p : PortState) :
    (c.setPs id p).workspace = c.workspace := by simp [Controller.setPs]

theorem Controller.setCfi_workspace (c : Controller) (id : PkgId) (n : Nat) :
    (c.setCfi id n).workspace = c.workspace := by simp [Controller.setCfi]

theorem StatesFrame.setPs (R : Ranks) (id : PkgId) (c : Controller) (p : PortState) :
    StatesFrame R id c (c.setPs id p) := StatesFrame.of_modify R id c _

theorem StatesFrame.setCfi (R : Ranks) (id : PkgId) (c : Controller) (n : Nat) :
    StatesFrame R id c (c.setCfi id n) := StatesFrame.of_modify R id c _

theorem portExport_frame (R : Ranks) (x : Ext) (m : M) (pkg : Package) (m' : M)
    (err : Option String) (h : portExport x m pkg = .ok (m', err)) :
    StageFrame R pkg.id m m' := by
  unfold portExport at h
  split at h
  · cases h
  · rename_i c1 fiEdits expIdx hf
    have ht := filterConfigs_touches x m.heap m.c pkg _ _ _ _ hf
    have hw := ht.workspace
    have hs : StatesFrame R pkg.id m.c c1 := StatesFrame.of_touches ht
    split at h
    · cases h
      exact ⟨by simpa [Controller.setPs] using hw, hs.transS (StatesFrame.setPs _ _ _ _)⟩
    · dsimp only at h
      split at h
      · cases h; exact ⟨hw, hs⟩
      · split at h
        · cases h
          exact ⟨by simpa [Controller.setPs] using hw, hs.transS (StatesFrame.setPs _ _ _ _)⟩
        · split at h
          · cases h
            exact ⟨by simpa [Controller.setPs, Controller.setCfi] using hw,
              hs.transS ((StatesFrame.setCfi _ _ _ _).transS (StatesFrame.setPs _ _ _ _))⟩
          · cases h
            exact ⟨by simpa [Controller.setPs, Controller.setCfi] using hw,
              hs.transS ((StatesFrame.setCfi _ _ _ _).transS (StatesFrame.setPs _ _ _ _))⟩

theorem portDeps_frame (R : Ranks) (x : Ext) (m : M) (pkg : Package)
    (imports : Option (List (Option PkgId))) (m' : M) (err : Option String)
    (h : portDeps R x m pkg imports = .ok (m', err)) : StageFrame R pkg.id m m' := by
  unfold portDeps at h
  dsimp only at h
  split at h
  · cases h
  · split at h
    · split at h
      · cases h
        exact ⟨by simp [Controller.setPs], StatesFrame.setPs _ _ _ _⟩
      · cases h
        exact ⟨by simp [Controller.setPs], StatesFrame.setPs _ _ _ _⟩
    · split at h
      · cases h
      · rename_i c1 can hp
        obtain ⟨hw, _, hs⟩ := promote_frame R pkg.id _ _ _ _ _ hp
        split at h
        · cases h
          exact ⟨by simpa [Controller.setPs] using hw, hs.transS (StatesFrame.setPs _ _ _ _)⟩
        · obtain ⟨hw', hs'⟩ := portExport_frame R x _ pkg _ _ h
          exact ⟨hw'.trans hw, hs.transS hs'⟩

theorem portRetag_frame (R : Ranks) (x : Ext) (m : M) (pkg : Package) (needTag : Bool)
    (imports : List (Option PkgId)) (m' : M) (err : Option String)
    (h : portRetag R x m pkg needTag imports = .ok (m', err)) : StageFrame R pkg.id m m' := by
  unfold portRetag at h
  split at h
  · split at h
    · cases h
    · rename_i c1 imports1 hf
      have ht := filterConfigs_touches x m.heap _ pkg _ _ _ _ hf
      have hw : c1.workspace = m.c.workspace := by
        simpa [Controller.setCfi] using ht.workspace
      have hs : StatesFrame R pkg.id m.c c1 :=
        (StatesFrame.setCfi R _ _ _).transS (StatesFrame.of_touches ht)
      split at h
      · cases h; exact ⟨hw, hs⟩
      · split at h
        · cases h
          exact ⟨by simpa [Controller.setPs] using hw, hs.transS (StatesFrame.setPs _ _ _ _)⟩
        · obtain ⟨hw', hs'⟩ := portDeps_frame R x _ pkg _ _ _ h
          exact ⟨hw'.trans hw, hs.transS hs'⟩
  · exact portDeps_frame R x m pkg _ _ _ h

theorem JournalMono.reflJ (R : Ranks) (ws : Map String WorkEdit) : JournalMono R ws ws :=
  fun _ e h => ⟨e, h, rfl, le_refl _⟩

theorem JournalMono.of_eq {R : Ranks} {ws ws' : Map String WorkEdit} (h : ws' = ws) :
    JournalMono R ws ws' := h ▸ JournalMono.reflJ R ws

theorem JournalMono.transJ {R : Ranks} {w₁ w₂ w₃ : Map String WorkEdit}
    (h₁ : JournalMono R w₁ w₂) (h₂ : JournalMono R w₂ w₃) : JournalMono R w₁ w₃ := by
  intro path e he
  obtain ⟨e₂, he₂, ho₂, ha₂⟩ := h₁ path e he
  obtain ⟨e₃, he₃, ho₃, ha₃⟩ := h₂ path e₂ he₂
  exact ⟨e₃, he₃, ho₃.trans ho₂, le_trans ha₂ ha₃⟩

/-- Assigning an entry under a key that is new, or that held an entry with the
same `original` and an action that is not higher, keeps the journal monotone. -/
theorem JournalMono.set (R : Ranks) (ws : Map String WorkEdit) (path : String) (e' : WorkEdit)
    (h : ∀ e, ws.get path = some e → e'.original = e.original ∧ R.act e.action ≤ R.act e'.action) :
    JournalMono R ws (ws.set path e') := by
  intro p e he
  by_cases hp : p = path
  · subst hp
    exact ⟨e', Map.get_set_self _ _ _, (h e he).1, (h e he).2⟩
  · exact ⟨e, by rw [Map.get_set_of_ne _ _ hp]; exact he, rfl, le_refl _⟩

theorem portEntry_frame (x : Ext) (m : M) (pkg : Package) (out : EntryOut)
    (h : portEntry x m pkg = .ok out) :
    out.machine.c.workspace = m.c.workspace ∧ out.machine.trace = m.trace ∧
      out.machine.heap = m.heap ∧
      (∀ q, q ≠ pkg.id → out.machine.c.states.get q = m.c.states.get q) := by
  have key : ∀ (m1 : M) (nt : Bool) (out : EntryOut), portBuilt x m1 pkg nt = .ok out →
      out.machine.c.workspace = m1.c.workspace ∧ out.machine.trace = m1.trace ∧
      out.machine.heap = m1.heap ∧
      (∀ q, q ≠ pkg.id → out.machine.c.states.get q = m1.c.states.get q) := by
    intro m1 nt out hb
    unfold portBuilt at hb
    split at hb
    · split at hb
      · cases hb
      · split at hb
        · cases hb
          exact ⟨by simp [EntryOut.machine, Controller.setPs], rfl, rfl,
            fun q hq => Controller.get_modify_of_ne _ _ hq⟩
        · split at hb
          · cases hb; exact ⟨rfl, rfl, rfl, fun _ _ => rfl⟩
          · cases hb; exact ⟨rfl, rfl, rfl, fun _ _ => rfl⟩
    · cases hb; exact ⟨rfl, rfl, rfl, fun _ _ => rfl⟩
  unfold portEntry at h
  split at h
  · cases h
  · split at h
    · cases h
    · dsimp only at h
      split at h
      · split at h
        · cases h
        · obtain ⟨h1, h2, h3, h4⟩ := key _ _ _ h
          refine ⟨by simpa using h1, h2, h3, fun q hq => ?_⟩
          rw [h4 q hq]
          exact Controller.get_modify_of_ne _ _ hq
      · exact key _ _ _ h

theorem moduleDecision_frame (R : Ranks) (x : Ext) (c : Controller) (pkg : Package)
    (htaken : moduleStepTaken R c pkg = true) :
    JournalMono R c.workspace (moduleDecision x c pkg).1.workspace ∧
      (moduleDecision x c pkg).1.states = c.states := by
  unfold moduleDecision
  dsimp only
  split
  · rename_i hget
    have hnew : ∀ e' : WorkEdit, JournalMono R c.workspace (c.workspace.set pkg.module.path e') :=
      fun e' => JournalMono.set R _ _ _ (fun e he => by rw [hget] at he; cases he)
    split
    · exact ⟨hnew _, rfl⟩
    · split
      · refine ⟨?_, rfl⟩
        dsimp only
        rw [Map.set_set]
        exact hnew _
      · exact ⟨hnew _, rfl⟩
  · rename_i mptc hget
    refine ⟨JournalMono.set R _ _ _ (fun e he => ?_), rfl⟩
    rw [hget] at he
    cases he
    refine ⟨rfl, ?_⟩
    simp [moduleStepTaken, hget] at htaken
    exact le_of_lt htaken.2

theorem portModule_frame (R : Ranks) (x : Ext) (m : M) (pkg : Package) (needTag : Bool)
    (imports : List (Option PkgId)) (m' : M) (err : Option String)
    (h : portModule R x m pkg needTag imports = .ok (m', err)) :
    JournalMono R m.c.workspace m'.c.workspace ∧ StatesFrame R pkg.id m.c m'.c := by
  unfold portModule at h
  split at h
  · rename_i htaken
    obtain ⟨hj, hst⟩ := moduleDecision_frame R x m.c pkg htaken
    dsimp only at h
    split at h
    · rename_i c1 v u e hdec
      cases h
      rw [hdec] at hj hst
      exact ⟨hj, StatesFrame.eqS hst⟩
    · rename_i c1 version updated hdec
      rw [hdec] at hj hst
      dsimp only at hj hst
      have hs2 : StatesFrame R pkg.id m.c { c1 with treeIsDirty := updated } :=
        StatesFrame.eqS hst
      split at h
      · cases h; exact ⟨hj, StatesFrame.eqS hst⟩
      · split at h
        · cases h
          exact ⟨by simpa [Controller.setPs] using hj, hs2.transS (StatesFrame.setPs _ _ _ _)⟩
        · split at h
          · cases h
            exact ⟨by simpa [Controller.setPs] using hj, hs2.transS (StatesFrame.setPs _ _ _ _)⟩
          · obtain ⟨hw, hs⟩ := portRetag_frame R x _ pkg _ _ _ _ h
            exact ⟨hj.transJ (JournalMono.of_eq hw), hs2.transS hs⟩
  · obtain ⟨hw, hs⟩ := portRetag_frame R x m pkg _ _ _ _ h
    exact ⟨JournalMono.of_eq hw, hs⟩

theorem port_frame (R : Ranks) (x : Ext) (m : M) (pkg : Package) (m' : M)
    (err : Option String) (h : port R x m pkg = .ok (m', err)) :
    JournalMono R m.c.workspace m'.c.workspace ∧ StatesFrame R pkg.id m.c m'.c := by
  unfold port at h
  split at h
  · cases h
  · rename_i m1 e he
    cases h
    obtain ⟨hw, _, _, hs⟩ := portEntry_frame x m pkg _ he
    exact ⟨JournalMono.of_eq hw, fun q hq _ => hs q hq⟩
  · rename_i m1 nt imps he
    obtain ⟨hw, _, _, hs⟩ := portEntry_frame x m pkg _ he
    obtain ⟨hj, hf⟩ := portModule_frame R x m1 pkg nt imps m' err h
    refine ⟨(JournalMono.of_eq hw).transJ hj, ?_⟩
    exact StatesFrame.transS (fun q hq _ => hs q hq) hf

/-! ### Invariants of a sweep -/

section SweepInvariant

variable (R : Ranks) (x : Ext) (Rel : Controller → Controller → Prop)
  (hrefl : ∀ c, Rel c c) (htrans : ∀ c₁ c₂ c₃, Rel c₁ c₂ → Rel c₂ c₃ → Rel c₁ c₃)
  (hport : ∀ (m : M) (pkg : Package) (st : State) (m' : M) (err : Option String),
    m.c.states.get pkg.id = some st → ¬ skipped R pkg st → port R x m pkg = .ok (m', err) →
      Rel m.c m'.c)
  (hafter : ∀ (m : M) (pkg : Package) (valid : Bool), Rel m.c (afterPort R m pkg valid).1.c)

include hrefl htrans hport hafter

theorem portLayer_rel (ids : List PkgId) :
    ∀ (m : M) (valid : Bool) (sw : Sweep), portLayer R x m valid ids = .ok sw →
      Rel m.c sw.machine.c := by
  induction ids with
  | nil =>
    intro m valid sw h
    simp [portLayer] at h
    subst h
    exact hrefl _
  | cons id ids ih =>
    intro m valid sw h
    unfold portLayer at h
    split at h
    · cases h
    · rename_i pkg hheap
      split at h
      · cases h
      · rename_i st hst
        split at h
        · exact ih _ _ _ h
        · rename_i hskip
          split at h
          · cases h
          · rename_i m1 err hp
            cases h
            exact hport m pkg st m1 (some err) hst hskip hp
          · rename_i m1 hp
            have h1 := hport m pkg st m1 none hst hskip hp
            have h2 := hafter m1 pkg valid
            dsimp only at h
            split at h
            · cases h
              exact htrans _ _ _ h1 h2
            · exact htrans _ _ _ (htrans _ _ _ h1 h2) (ih _ _ _ h)

theorem portLayers_rel (layers : List (List PkgId)) :
    ∀ (m : M) (valid : Bool) (sw : Sweep), portLayers R x m valid layers = .ok sw →
      Rel m.c sw.machine.c := by
  induction layers with
  | nil =>
    intro m valid sw h
    simp [portLayers] at h
    subst h
    exact hrefl _
  | cons l ls ih =>
    intro m valid sw h
    unfold portLayers at h
    split at h
    · cases h
    · rename_i m1 err hl
      cases h
      exact portLayer_rel R x Rel hrefl htrans hport hafter l _ _ _ hl
    · rename_i m1 v1 hl
      exact htrans _ _ _ (portLayer_rel R x Rel hrefl htrans hport hafter l _ _ _ hl)
        (ih _ _ _ h)

theorem portAll_rel (hdirty : ∀ (c : Controller) (b : Bool), Rel c { c with treeIsDirty := b })
    (m m' : M) (err : Option String) (h : portAll R x m = .ok (m', err)) : Rel m.c m'.c := by
  unfold portAll at h
  split at h
  · cases h
  · split at h
    · cases h
    · rename_i m1 e hl
      cases h
      exact portLayers_rel R x Rel hrefl htrans hport hafter _ _ _ _ hl
    · rename_i m1 valid hl
      have h1 := portLayers_rel R x Rel hrefl htrans hport hafter _ _ _ _ hl
      split at h
      · cases h
        exact htrans _ _ _ h1 (hdirty _ _)
      · cases h
        exact h1

theorem runLoop_rel (hdirty : ∀ (c : Controller) (b : Bool), Rel c { c with treeIsDirty := b })
    (hload : ∀ (m m' : M) (err : Option String), load x m = .ok (m', err) → Rel m.c m'.c)
    (fuel : Nat) :
    ∀ (m m' : M) (err : Option String), runLoop R x fuel m = some (.ok (m', err)) →
      Rel m.c m'.c := by
  induction fuel with
  | zero => intro m m' err h; simp [runLoop] at h
  | succ n ih =>
    intro m m' err h
    unfold runLoop at h
    split at h
    · cases h
    · rename_i m1 e hl
      cases h
      exact hload _ _ _ hl
    · rename_i m1 hl
      have h1 := hload _ _ _ hl
      split at h
      · cases h
      · rename_i m2 e hp
        cases h
        exact htrans _ _ _ h1 (portAll_rel R x Rel hrefl htrans hport hafter hdirty _ _ _ hp)
      · rename_i m2 hp
        have h2 := portAll_rel R x Rel hrefl htrans hport hafter hdirty _ _ _ hp
        split at h
        · cases h
          exact htrans _ _ _ h1 h2
        · exact htrans _ _ _ (htrans _ _ _ h1 h2) (ih _ _ _ h)

end SweepInvariant

theorem KeepsExhausted.reflK (c : Controller) : KeepsExhausted c c :=
  fun _ s h hp => ⟨s, h, hp, rfl⟩

theorem KeepsExhausted.transK {c₁ c₂ c₃ : Controller} (h₁ : KeepsExhausted c₁ c₂)
    (h₂ : KeepsExhausted c₂ c₃) : KeepsExhausted c₁ c₃ := by
  intro q s hs hp
  obtain ⟨s₂, hs₂, hp₂, hc₂⟩ := h₁ q s hs hp
  obtain ⟨s₃, hs₃, hp₃, hc₃⟩ := h₂ q s₂ hs₂ hp₂
  exact ⟨s₃, hs₃, hp₃, hc₃.trans hc₂⟩

theorem KeepsExhausted.eqK {c c' : Controller} (h : c'.states = c.states) :
    KeepsExhausted c c' := by
  intro q s hs hp
  exact ⟨s, by rw [h]; exact hs, hp, rfl⟩

theorem KeepsExhausted.modify (c : Controller) (id : PkgId) (f : State → State)
    (hf : ∀ s, c.states.get id = some s → s.ps = psExhausted →
      (f s).ps = psExhausted ∧ (f s).cfi = s.cfi) :
    KeepsExhausted c (c.modify id f) := by
  intro q s hs hp
  by_cases hq : q = id
  · subst hq
    exact ⟨f s, Controller.get_modify_self c q f s hs, (hf s hs hp).1, (hf s hs hp).2⟩
  · exact ⟨s, by rw [Controller.get_modify_of_ne c f hq]; exact hs, hp, rfl⟩

/-- A package that `portAll` ports is not `Exhausted`, so `port` on it leaves
the exhausted packages as they are. -/
theorem port_keepsExhausted (R : Ranks) (x : Ext) (m : M) (pkg : Package) (st : State)
    (m' : M) (err : Option String) (hst : m.c.states.get pkg.id = some st)
    (hskip : ¬ skipped R pkg st) (h : port R x m pkg = .ok (m', err)) :
    KeepsExhausted m.c m'.c := by
  intro q s hs hp
  have hne : q ≠ pkg.id := by
    rintro rfl
    rw [hst] at hs
    cases hs
    exact hskip (Or.inr (by rw [hp]))
  have hfr := (port_frame R x m pkg m' err h).2 q hne
    (fun s' hs' => by rw [hs] at hs'; cases hs'; rw [hp]; exact lt_irrefl _)
  exact ⟨s, by rw [hfr]; exact hs, hp, rfl⟩

theorem afterPort_states (R : Ranks) (m : M) (pkg : Package) (valid : Bool) :
    (afterPort R m pkg valid).1.c.states = m.c.states := by
  unfold afterPort
  dsimp only
  split
  · rfl
  · split <;> rfl

theorem afterPort_journal (R : Ranks) (hmax : ∀ a, R.act a ≤ R.act modImported) (m : M)
    (pkg : Package) (valid : Bool) :
    JournalMono R m.c.workspace (afterPort R m pkg valid).1.c.workspace := by
  unfold afterPort
  dsimp only
  split
  · split
    · exact JournalMono.reflJ _ _
    · rename_i e he
      refine JournalMono.set R _ _ _ (fun e' he' => ?_)
      rw [he] at he'
      cases he'
      exact ⟨rfl, hmax _⟩
  · split
    · exact JournalMono.reflJ _ _
    · exact JournalMono.reflJ _ _

theorem loadPackage_frame (x : Ext) (c : Controller) (pkg : Package) (c' : Controller)
    (h : loadPackage x c pkg = .ok c') :
    c'.workspace = c.workspace ∧ KeepsExhausted c c' := by
  unfold loadPackage at h
  dsimp only at h
  split at h
  · cases h
  · rename_i c1 hfound
    have h1 : c1.workspace = c.workspace ∧ KeepsExhausted c c1 := by
      revert hfound
      split
      · rename_i hnone
        intro hf; cases hf
        refine ⟨rfl, fun q s hs hp => ?_⟩
        have hq : q ≠ pkg.id := by
          rintro rfl
          rw [hnone] at hs; cases hs
        exact ⟨s, by simp only []; rw [Map.get_set_of_ne _ _ hq]; exact hs, hp, rfl⟩
      · split
        · intro hf; cases hf
        · intro hf; cases hf
          exact ⟨rfl, KeepsExhausted.reflK _⟩
    have h2 : ∀ c2 : Controller,
        c2 = (if (c1.st pkg.id).ps = psUnknown ∧ pkg.included = true
          then c1.setPs pkg.id psBuilt else c1) →
        c2.workspace = c1.workspace ∧ KeepsExhausted c1 c2 := by
      intro c2 hc2
      subst hc2
      split
      · rename_i hu
        refine ⟨by simp [Controller.setPs], KeepsExhausted.modify _ _ _ (fun s hs hp => ?_)⟩
        rw [Controller.st_of_get _ _ _ hs, hp] at hu
        exact absurd hu.1 (by decide)
      · exact ⟨rfl, KeepsExhausted.reflK _⟩
    obtain ⟨hw2, hk2⟩ := h2 _ rfl
    split at h
    · split at h
      · cases h
      · split at h
        · cases h
          exact ⟨by simp [hw2, h1.1], h1.2.transK (hk2.transK
            (KeepsExhausted.modify _ _ _ (fun s _ hp => ⟨hp, rfl⟩)))⟩
        · split at h
          · cases h
          · cases h
            exact ⟨by simp [hw2, h1.1], h1.2.transK (hk2.transK
              (KeepsExhausted.modify _ _ _ (fun s _ hp => ⟨hp, rfl⟩)))⟩
    · cases h
      exact ⟨hw2.trans h1.1, h1.2.transK hk2⟩

theorem loadVisit_frame (x : Ext) (pkgs : List Package) :
    ∀ (m m' : M), loadVisit x m pkgs = .ok m' →
      m'.c.workspace = m.c.workspace ∧ KeepsExhausted m.c m'.c := by
  induction pkgs with
  | nil =>
    intro m m' h
    simp [loadVisit] at h
    subst h
    exact ⟨rfl, KeepsExhausted.reflK _⟩
  | cons p ps ih =>
    intro m m' h
    unfold loadVisit at h
    split at h
    · cases h
    · rename_i c1 hp
      obtain ⟨hw, hk⟩ := loadPackage_frame x _ _ _ hp
      obtain ⟨hw', hk'⟩ := ih _ _ h
      exact ⟨hw'.trans hw, hk.transK hk'⟩

theorem load_frame (x : Ext) (m m' : M) (err : Option String)
    (h : load x m = .ok (m', err)) :
    m'.c.workspace = m.c.workspace ∧ KeepsExhausted m.c m'.c := by
  unfold load at h
  dsimp only at h
  split at h
  · cases h
    exact ⟨rfl, KeepsExhausted.eqK rfl⟩
  · split at h
    · cases h
    · rename_i m1 hv
      obtain ⟨hw, hk⟩ := loadVisit_frame x _ _ _ hv
      have hk0 : KeepsExhausted m.c m1.c :=
        (@KeepsExhausted.eqK m.c _ rfl).transK hk
      split at h
      · cases h
        exact ⟨hw, hk0.transK (KeepsExhausted.eqK rfl)⟩
      · cases h
        exact ⟨hw, hk0.transK (KeepsExhausted.eqK rfl)⟩

/-- C8 (amended): under a numbering of the actions in which `Imported` is the
greatest, no step of a controller lowers the numeric value of the action of an
existing journal entry or changes its `original`: `load` leaves the journal as
it is, and `port`, `portAll` and any number of sweeps of `Run` only raise the
action. With the numbering `Updated < Locked < Imported` the action moves along
Updated → Locked → Imported. -/
theorem C8_journal_action_never_decreases (R : Ranks) (x : Ext)
    (hmax : ∀ a, R.act a ≤ R.act modImported) :
    (∀ (m m' : M) (err : Option String), load x m = .ok (m', err) →
      m'.c.workspace = m.c.workspace) ∧
    (∀ (m : M) (pkg : Package) (m' : M) (err : Option String),
      port R x m pkg = .ok (m', err) → JournalMono R m.c.workspace m'.c.workspace) ∧
    (∀ (m m' : M) (err : Option String), portAll R x m = .ok (m', err) →
      JournalMono R m.c.workspace m'.c.workspace) ∧
    (∀ (fuel : Nat) (m m' : M) (err : Option String),
      runLoop R x fuel m = some (.ok (m', err)) →
        JournalMono R m.c.workspace m'.c.workspace) := by
  have hrefl : ∀ c : Controller, JournalMono R c.workspace c.workspace :=
    fun c => JournalMono.reflJ R _
  have htrans : ∀ c₁ c₂ c₃ : Controller, JournalMono R c₁.workspace c₂.workspace →
      JournalMono R c₂.workspace c₃.workspace → JournalMono R c₁.workspace c₃.workspace :=
    fun _ _ _ h₁ h₂ => h₁.transJ h₂
  have hport : ∀ (m : M) (pkg : Package) (st : State) (m' : M) (err : Option String),
      m.c.states.get pkg.id = some st → ¬ skipped R pkg st → port R x m pkg = .ok (m', err) →
        JournalMono R m.c.workspace m'.c.workspace :=
    fun m pkg _ m' err _ _ h => (port_frame R x m pkg m' err h).1
  have hafter := afterPort_journal R hmax
  have hdirty : ∀ (c : Controller) (b : Bool),
      JournalMono R c.workspace ({ c with treeIsDirty := b } : Controller).workspace :=
    fun c _ => JournalMono.reflJ R _
  have hload : ∀ (m m' : M) (err : Option String), load x m = .ok (m', err) →
      JournalMono R m.c.workspace m'.c.workspace :=
    fun m m' err h => JournalMono.of_eq (load_frame x m m' err h).1
  refine ⟨fun m m' err h => (load_frame x m m' err h).1,
    fun m pkg m' err h => (port_frame R x m pkg m' err h).1, ?_, ?_⟩
  · exact portAll_rel R x (fun c c' => JournalMono R c.workspace c'.workspace)
      hrefl htrans hport hafter hdirty
  · exact runLoop_rel R x (fun c c' => JournalMono R c.workspace c'.workspace)
      hrefl htrans hport hafter hdirty hload

/-- C8, at a concrete input: with the numbering `declRanks`, `port` on the
package whose module is in the journal at `Updated` keeps the journal
monotone. -/
theorem C8_journal_action_never_decreases_witness :
    (∀ a, declRanks.act a ≤ declRanks.act modImported) ∧
    JournalMono declRanks mDepUp.c.workspace mDepRelocked.c.workspace :=
  ⟨by intro a; cases a <;> decide,
    (C8_journal_action_never_decreases declRanks ext0 (by intro a; cases a <;> decide)).2.1
      mDepUp depPkgUp mDepRelocked none (by rfl)⟩

/-- C8 (the claim fails): the journal has `example.com/dep` at `Updated`; the
module-version step of `port` changes this existing entry to `Locked`. -/
theorem C8_updated_becomes_locked_counterexample :
    (mDepUp.c.workspace.get "example.com/dep").map (fun e => e.action) = some modUpdated ∧
    ((port declRanks ext0 mDepUp depPkgUp).toOption.bind
        (fun r => r.1.c.workspace.get "example.com/dep")).map (fun e => e.action)
      = some modLocked := by
  constructor <;> decide

/-- C10: a package whose state is `Exhausted` keeps its state and its
configuration index. `portAll` skips it; `port` on any other package leaves its
record as it is; `portAll`, `load` and any number of sweeps of `Run` leave it
`Exhausted` at the same configuration index. A package of GOROOT or of the
standard library is `Exhausted` from its first load on. -/
theorem C10_exhausted_is_final (R : Ranks) (x : Ext) :
    (∀ (pkg : Package) (st : State), st.ps = psExhausted → skipped R pkg st) ∧
    (∀ (m : M) (pkg : Package) (m' : M) (err : Option String) (q : PkgId) (s : State),
      port R x m pkg = .ok (m', err) → q ≠ pkg.id → m.c.states.get q = some s →
        s.ps = psExhausted → m'.c.states.get q = some s) ∧
    (∀ (m m' : M) (err : Option String), portAll R x m = .ok (m', err) →
      KeepsExhausted m.c m'.c) ∧
    (∀ (m m' : M) (err : Option String), load x m = .ok (m', err) →
      KeepsExhausted m.c m'.c) ∧
    (∀ (fuel : Nat) (m m' : M) (err : Option String),
      runLoop R x fuel m = some (.ok (m', err)) → KeepsExhausted m.c m'.c) ∧
    (∀ (c c' : Controller) (pkg : Package), c.states.get pkg.id = none →
      (pkg.goroot = true ∨ pkg.standard = true) → loadPackage x c pkg = .ok c' →
        ∃ s, c'.states.get pkg.id = some s ∧ s.ps = psExhausted ∧ s.cfi = 0) := by
  have hrefl := KeepsExhausted.reflK
  have htrans : ∀ c₁ c₂ c₃ : Controller, KeepsExhausted c₁ c₂ → KeepsExhausted c₂ c₃ →
      KeepsExhausted c₁ c₃ := fun _ _ _ h₁ h₂ => h₁.transK h₂
  have hport := port_keepsExhausted R x
  have hafter : ∀ (m : M) (pkg : Package) (valid : Bool),
      KeepsExhausted m.c (afterPort R m pkg valid).1.c :=
    fun m pkg valid => KeepsExhausted.eqK (afterPort_states R m pkg valid)
  have hdirty : ∀ (c : Controller) (b : Bool), KeepsExhausted c { c with treeIsDirty := b } :=
    fun _ _ => KeepsExhausted.eqK rfl
  have hload : ∀ (m m' : M) (err : Option String), load x m = .ok (m', err) →
      KeepsExhausted m.c m'.c := fun m m' err h => (load_frame x m m' err h).2
  refine ⟨fun pkg st h => Or.inr (by rw [h]), ?_, ?_, hload, ?_, ?_⟩
  · intro m pkg m' err q s h hq hs hp
    have := (port_frame R x m pkg m' err h).2 q hq
      (fun s' hs' => by rw [hs] at hs'; cases hs'; rw [hp]; exact lt_irrefl _)
    rw [this]; exact hs
  · exact portAll_rel R x KeepsExhausted hrefl htrans hport hafter hdirty
  · exact runLoop_rel R x KeepsExhausted hrefl htrans hport hafter hdirty hload
  · intro c c' pkg hnone hpin h
    have hpinned : (pkg.goroot || pkg.standard ||
        (x.isGolangXPkg pkg && pkg.module.replace)) = true := by
      rcases hpin with h1 | h1 <;> simp [h1]
    unfold loadPackage at h
    simp only [hnone, hpinned, if_true] at h
    have hst : (Controller.st { c with states := c.states.set pkg.id ⟨psExhausted, 0, [], none⟩ }
        pkg.id) = ⟨psExhausted, 0, [], none⟩ :=
      Controller.st_of_get _ _ _ (Map.get_set_self _ _ _)
    simp only [hst] at h
    simp only [reduceCtorEq, false_and, if_false] at h
    split at h
    · split at h
      · cases h
      · split at h
        · cases h
          exact ⟨_, Controller.get_modify_self _ _ _ _ (Map.get_set_self _ _ _), rfl, rfl⟩
        · split at h
          · cases h
          · cases h
            exact ⟨_, Controller.get_modify_self _ _ _ _ (Map.get_set_self _ _ _), rfl, rfl⟩
    · cases h
      exact ⟨_, Map.get_set_self _ _ _, rfl, rfl⟩

/-! ### Configuration filter -/

theorem feed_passesAll {σ : Type} (filter : Option (Filter σ)) (cfi : Nat)
    (errs : List TypeError) :
    ∀ (acc acc' : σ), feed filter cfi acc errs = .ok (acc', true) →
      PassesAll filter cfi acc errs acc' := by
  induction errs with
  | nil =>
    intro acc acc' h
    simp [feed] at h
    subst h
    exact PassesAll.nil _
  | cons e es ih =>
    intro acc acc' h
    cases filter with
    | none =>
      simp only [feed] at h
      split at h
      · rename_i hsoft
        exact PassesAll.soft _ _ _ _ rfl hsoft (ih _ _ h)
      · cases h
    | some f =>
      simp only [feed] at h
      split at h
      · cases h
      · rename_i a₁ hf
        exact PassesAll.pass f _ a₁ _ _ _ rfl hf (ih _ _ h)
      · cases h

theorem parentRefers_clean (x : Ext) (pkg parent : Package) (errs : List TypeError)
    (h : parentRefers x pkg parent errs = .ok false) :
    ∀ e ∈ errs, ∀ pn nm, e.reason = Reason.badImportName pn nm →
      ∃ f ipath, parent.files.get e.filename = some f ∧
        parentImportPath x f pn = some ipath ∧ pkg.importPath ≠ ipath := by
  induction errs with
  | nil => intro e he; cases he
  | cons e₀ es ih =>
    unfold parentRefers at h
    intro e he pn nm hr
    split at h
    · rename_i pn₀ nm₀ hr₀
      split at h
      · cases h
      · rename_i f hf
        split at h
        · cases h
        · rename_i ipath hip
          split at h
          · cases h
          · rename_i hne
            rcases List.mem_cons.1 he with rfl | hmem
            · rw [hr₀] at hr
              cases hr
              exact ⟨f, ipath, hf, hip, hne⟩
            · exact ih h e hmem pn nm hr
    · rename_i hother
      rcases List.mem_cons.1 he with rfl | hmem
      · exact absurd hr (hother pn nm)
      · exact ih h e hmem pn nm hr

theorem validateParents_clean (x : Ext) (heap : Map PkgId Package) (c : Controller)
    (pkg : Package) (ps : List PkgId) (h : validateParents x heap c pkg ps = .ok true) :
    ∀ p ∈ ps, ∃ parent typed errs,
      heap.get p = some parent ∧ typeCheck x c parent false = .ok (typed, errs) ∧
      ∀ e ∈ errs, ∀ pn nm, e.reason = Reason.badImportName pn nm →
        ∃ f ipath, parent.files.get e.filename = some f ∧
          parentImportPath x f pn = some ipath ∧ pkg.importPath ≠ ipath := by
  induction ps with
  | nil => intro p hp; cases hp
  | cons p₀ ps ih =>
    unfold validateParents at h
    intro p hp
    split at h
    · cases h
    · rename_i parent hparent
      split at h
      · cases h
      · rename_i typed errs htc
        split at h
        · cases h
        · cases h
        · rename_i hclean
          rcases List.mem_cons.1 hp with rfl | hmem
          · exact ⟨parent, typed, errs, hparent, htc, parentRefers_clean x pkg parent errs hclean⟩
          · exact ih h p hmem

/-- What `validate` did when it accepted. -/
theorem validate_accepts {σ : Type} (x : Ext) (heap : Map PkgId Package) (c : Controller)
    (pkg : Package) (filter : Option (Filter σ)) (acc : σ) (c' : Controller) (acc' : σ)
    (h : validate x heap c pkg filter acc = .ok (c', acc', true)) :
    ∃ typed errs, typeCheck x c pkg false = .ok (typed, errs) ∧
      PassesAll filter (c.st pkg.id).cfi acc errs acc' ∧
      c' = c.modify pkg.id (fun s => { s with types := some typed }) ∧
      ParentsClean x heap c' pkg := by
  unfold validate at h
  split at h
  · cases h
  · rename_i st hst
    split at h
    · cases h
    · rename_i typed errs htc
      split at h
      · cases h
      · cases h
      · rename_i a₁ hfeed
        dsimp only at h
        split at h
        · cases h
        · rename_i b hvp
          cases h
          refine ⟨typed, errs, htc, ?_, rfl, validateParents_clean x heap _ pkg _ hvp⟩
          rw [Controller.st_of_get _ _ _ hst]
          exact feed_passesAll filter _ errs _ _ hfeed

theorem validate_cfi {σ : Type} (x : Ext) (heap : Map PkgId Package) (c : Controller)
    (pkg : Package) (filter : Option (Filter σ)) (acc : σ) (c' : Controller) (acc' : σ)
    (b : Bool) (st : State) (hst : c.states.get pkg.id = some st)
    (h : validate x heap c pkg filter acc = .ok (c', acc', b)) :
    ∃ st', c'.states.get pkg.id = some st' ∧ st'.cfi = st.cfi := by
  unfold validate at h
  rw [hst] at h
  dsimp only at h
  split at h
  · cases h
  · split at h
    · cases h
    · cases h; exact ⟨st, hst, rfl⟩
    · split at h
      · cases h
      · cases h
        exact ⟨_, Controller.get_modify_self _ _ _ _ hst, rfl⟩

theorem filterConfigsLoop_spec {σ : Type} (x : Ext) (heap : Map PkgId Package)
    (pkg : Package) (filter : Option (Filter σ)) :
    ∀ (fuel : Nat) (c : Controller) (acc : σ) (st : State) (c' : Controller) (acc' : σ),
      c.states.get pkg.id = some st → pkg.builds.length < st.cfi + fuel →
      filterConfigsLoop x heap pkg filter fuel c acc = .ok (c', acc') →
      ∃ k ck ak, RejectedFrom x heap pkg filter st.cfi k c acc ck ak ∧
        st.cfi ≤ k ∧ (ck.st pkg.id).cfi = k ∧ (c'.st pkg.id).cfi = k ∧
        ((pkg.builds.length ≤ k ∧ c' = ck ∧ acc' = ak) ∨
          (k < pkg.builds.length ∧ validate x heap ck pkg filter ak = .ok (c', acc', true))) := by
  intro fuel
  induction fuel with
  | zero =>
    intro c acc st c' acc' hst hfuel h
    simp [filterConfigsLoop] at h
    obtain ⟨rfl, rfl⟩ := h
    have hcfi := Controller.st_of_get _ _ _ hst
    refine ⟨st.cfi, c, acc, ?_, le_refl _, by rw [hcfi], by rw [hcfi], Or.inl ⟨?_, rfl, rfl⟩⟩
    · have := @RejectedFrom.done σ x heap pkg filter c acc
      rwa [hcfi] at this
    · omega
  | succ n ih =>
    intro c acc st c' acc' hst hfuel h
    have hcfi := Controller.st_of_get _ _ _ hst
    have hdone := @RejectedFrom.done σ x heap pkg filter c acc
    rw [hcfi] at hdone
    unfold filterConfigsLoop at h
    rw [hst] at h
    dsimp only at h
    split at h
    · rename_i hget
      cases h
      refine ⟨st.cfi, c, acc, hdone, le_refl _, by rw [hcfi], by rw [hcfi], Or.inl ⟨?_, rfl, rfl⟩⟩
      exact List.get?_eq_none.1 hget
    · rename_i cfg hget
      have hlt : st.cfi < pkg.builds.length := by
        by_contra hge
        rw [List.get?_eq_none.2 (not_lt.1 hge)] at hget
        cases hget
      split at h
      · cases h
      · split at h
        · cases h
        · rename_i hv
          cases h
          obtain ⟨st', hst', hc'⟩ := validate_cfi x heap c pkg filter acc _ _ _ st hst hv
          refine ⟨st.cfi, c, acc, hdone, le_refl _, by rw [hcfi], ?_, Or.inr ⟨hlt, hv⟩⟩
          rw [Controller.st_of_get _ _ _ hst', hc']
        · rename_i c₁ a₁ hv
          obtain ⟨st₁, hst₁, hc₁⟩ := validate_cfi x heap c pkg filter acc _ _ _ st hst hv
          have hst₂ : (c₁.modify pkg.id (fun s => { s with cfi := s.cfi + 1 })).states.get pkg.id
              = some { st₁ with cfi := st₁.cfi + 1 } :=
            Controller.get_modify_self _ _ _ _ hst₁
          obtain ⟨k, ck, ak, hrun, hle, hck, hc'k, hend⟩ :=
            ih _ _ _ _ _ hst₂ (by simp only [hc₁]; omega) h
          simp only [hc₁] at hrun hle
          refine ⟨k, ck, ak, ?_, by omega, hck, hc'k, hend⟩
          have := @RejectedFrom.step σ x heap pkg filter
            k c c₁ ck acc a₁ ak (by rw [hcfi]; exact hlt) hv (by rw [hcfi]; exact hrun)
          rwa [hcfi] at this

/-- C9: for every package, filter and entry index `i0 ≤ len(Builds)`, when
`filterConfigs` returns, the configuration index `k` it leaves is at least
`i0`, `validate` rejected each configuration `i0`, ..., `k - 1` in turn, and
either `k = len(Builds)` and nothing else happened, or `k < len(Builds)` and
`validate` accepted configuration `k`: the filter passed every diagnostic of
the type check of configuration `k`, and no parent, checked again with the new
types of the package, has a bad-import diagnostic that stands for the package
under test. -/
theorem C9_filterConfigs_first_accepted {σ : Type} (x : Ext) (heap : Map PkgId Package)
    (c : Controller) (pkg : Package) (filter : Option (Filter σ)) (acc : σ) (st : State)
    (c' : Controller) (acc' : σ)
    (hst : c.states.get pkg.id = some st) (hi0 : st.cfi ≤ pkg.builds.length)
    (hret : filterConfigs x heap c pkg filter acc = .ok (c', acc')) :
    ∃ k ck ak, (c'.st pkg.id).cfi = k ∧ st.cfi ≤ k ∧
      RejectedFrom x heap pkg filter st.cfi k c acc ck ak ∧
      ((k = pkg.builds.length ∧ c' = ck ∧ acc' = ak) ∨
        (k < pkg.builds.length ∧
          validate x heap ck pkg filter ak = .ok (c', acc', true) ∧
          ∃ typed errs, typeCheck x ck pkg false = .ok (typed, errs) ∧
            PassesAll filter k ak errs acc' ∧ ParentsClean x heap c' pkg)) := by
  unfold filterConfigs at hret
  rw [hst] at hret
  dsimp only at hret
  obtain ⟨k, ck, ak, hrun, hle, hck, hc'k, hend⟩ :=
    filterConfigsLoop_spec x heap pkg filter _ c acc st c' acc' hst (by omega) hret
  refine ⟨k, ck, ak, hc'k, hle, hrun, ?_⟩
  rcases hend with ⟨hge, h1, h2⟩ | ⟨hlt, hv⟩
  · left
    refine ⟨?_, h1, h2⟩
    subst h1
    -- the index never passes the number of configurations
    have hbound : ∀ (i k : Nat) (c ck : Controller) (a ak : σ),
        RejectedFrom x heap pkg filter i k c a ck ak → i ≤ pkg.builds.length →
          k ≤ pkg.builds.length := by
      intro i k c ck a ak hr
      induction hr with
      | done c a => exact fun h => h
      | step k c c₁ c' a a₁ a' hlt _ _ ih => exact fun _ => ih hlt
    exact le_antisymm (hbound _ _ _ _ _ _ hrun hi0) hge
  · right
    obtain ⟨typed, errs, htc, hpass, _, hclean⟩ := validate_accepts x heap ck pkg filter ak _ _ hv
    exact ⟨hlt, hv, typed, errs, htc, by rw [hck] at hpass; exact hpass, hclean⟩

/-- C9, at a concrete input: the filter of the re-tag search on
`example.com/dep/pkg` from configuration 0; configuration 0 is rejected for its
bad name and configuration 1 is accepted. -/
theorem C9_filterConfigs_first_accepted_witness :
    (retagOut.1.st 4).cfi = 1 ∧
    ∃ k ck ak, (retagOut.1.st depPkg.id).cfi = k ∧ 0 ≤ k ∧
      RejectedFrom extRetag mRetag.heap depPkg (some (retagFilter extRetag depPkg)) 0 k
        mRetag.c (some []) ck ak ∧
      ((k = depPkg.builds.length ∧ retagOut.1 = ck ∧ retagOut.2 = ak) ∨
        (k < depPkg.builds.length ∧
          validate extRetag mRetag.heap ck depPkg (some (retagFilter extRetag depPkg)) ak
            = .ok (retagOut.1, retagOut.2, true) ∧
          ∃ typed errs, typeCheck extRetag ck depPkg false = .ok (typed, errs) ∧
            PassesAll (some (retagFilter extRetag depPkg)) k ak errs retagOut.2 ∧
            ParentsClean extRetag mRetag.heap retagOut.1 depPkg)) :=
  ⟨by decide,
    C9_filterConfigs_first_accepted extRetag mRetag.heap mRetag.c depPkg
      (some (retagFilter extRetag depPkg)) (some []) ⟨psBrokeParent, 0, [], some 5⟩
      retagOut.1 retagOut.2 (by rfl) (by decide) (by rfl)⟩

/-- C3 (what the code does instead): with dry-run enabled, `Apply` on a journal
with one imported module and one patchable package of that module clones the
module from the module cache, drops its replace directive, adds the clone to
the workspace and writes the two tagged files: only the branch of overridden
files looks at the dry-run setting. -/
theorem C3_dry_run_apply_changes_the_world :
    baseDry.dryRun = true ∧
    (Apply baseDry ext0 mPatched).toOption.map (fun r => (r.m.trace, r.err))
      = some ([.cloneCache "/modcache/example.com/dep@v1.0.0" "/work/wharf_port/example.com/dep"
                "example.com/dep",
              .dropReplace "example.com/dep",
              .workUse "/work/wharf_port/example.com/dep",
              .writeFile "example.com/dep/pkg/d_linux.go" "d_linux.go" "zos" "||",
              .writeFile "example.com/dep/pkg/d.go" "d.go" "!zos" "&&"], none) := by
  constructor <;> decide

/-- C6 (what the code does instead): in the variant `porting`, for a package
that is not golang.org/x and whose module is non-main with no replacement and
no module-cache entry, when the update query yields a version `u` other than
the module's version and the workspace edit succeeds, the module-version step
records `Updated` at `u` and requests the replace to `u`, but sets `forceLoad`
to false, leaves the state of the package as it is and does not return: `port`
goes on to the re-tag stage. The `updated` that lines 298 and 306 read is not
the one line 277 declares. -/
theorem C6_porting_update_does_not_reload (R : Ranks) (x : Porting.Ext) (g : Porting.Globals)
    (pkg : Porting.Package) (mod : Module) (needTag : Bool) (imports : List String)
    (u : String)
    (hmod : pkg.module = some mod) (hmain : mod.main = false) (hrep : mod.replace = false)
    (hnone : g.modcache.get mod.path = none)
    (hx : Porting.isGolangX pkg.module = false)
    (hq : (x.goListModUpdate mod.path).1 = u)
    (hqerr : ∀ err, (x.goListModUpdate mod.path).2 = some err →
      x.isExcludeGoListError err = true)
    (hne : u ≠ mod.version)
    (hedit : x.goWorkEditReplaceVersion mod.path u = none) :
    Porting.moduleStep R x g pkg needTag imports = .ok (.retag
      { g with
        forceLoad := false
        modcache := g.modcache.set mod.path ⟨u, modUpdated⟩
        trace := g.trace ++ [.workReplace mod.path u] } pkg needTag imports) := by
  have hfatal : (Option.filter (fun err => !x.isExcludeGoListError err)
      (x.goListModUpdate mod.path).2) = none := by
    cases h : (x.goListModUpdate mod.path).2 with
    | none => rfl
    | some err => simp [Option.filter, hqerr err h]
  have hne' : mod.version ≠ u := fun h => hne h.symm
  rw [hmod] at hx
  simp only [Porting.moduleStep, hmod, hmain, hrep, hnone, hq, hfatal]
  simp [hne', hedit, hx, Map.set_set]

/-- C6, at a concrete input: `example.com/dep` at `v1.0.0` with an update to
`v1.2.0`, the package flagged as having broken a parent. The whole prefix of
`port` ends at the re-tag stage with `forceLoad` false and the package still
flagged, not `Unknown`. -/
theorem C6_porting_update_does_not_reload_witness :
    Porting.portPrefix declRanks pExtUpdate ⟨true, [], []⟩ pDep
      = .ok (.retag ⟨false, [("example.com/dep", ⟨"v1.2.0", modUpdated⟩)],
          [.workReplace "example.com/dep" "v1.2.0"]⟩ pDep true []) :=
  (show Porting.portPrefix declRanks pExtUpdate ⟨true, [], []⟩ pDep
      = Porting.moduleStep declRanks pExtUpdate ⟨true, [], []⟩ pDep true [] from rfl).trans
    (C6_porting_update_does_not_reload declRanks pExtUpdate ⟨true, [], []⟩ pDep depPkg.module
      true [] "v1.2.0" (by rfl) (by rfl) (by rfl) (by rfl) (by decide) (by rfl)
      (by intro err h; cases h) (by decide) (by rfl))

/-! ### First load -/

/-- C11: on the first load of a package (the controller has no state for it),
the callback of `load` either panics, which only the re-check of a dirty
package can do, or leaves a state at configuration index 0 that is `Exhausted`
if and only if the package is in GOROOT, or of the standard library, or a
golang.org/x package whose module has a replacement; a package that is not
pinned this way is `Built` when it is included and `Unknown` when it is not. -/
theorem C11_first_load_state (x : Ext) (c : Controller) (pkg : Package)
    (hnone : c.states.get pkg.id = none) :
    match loadPackage x c pkg with
    | .error _ => pkg.dirty = true ∨ pkg.depDirty = true
    | .ok c' => ∃ s, c'.states.get pkg.id = some s ∧ s.cfi = 0 ∧
        (s.ps = psExhausted ↔ pinned x pkg = true) ∧
        (pinned x pkg = false →
          s.ps = if pkg.included then psBuilt else psUnknown) := by
  have hps : ∀ p : PortState, p = (if pinned x pkg = true then psExhausted
        else if pkg.included = true then psBuilt else psUnknown) →
      (p = psExhausted ↔ pinned x pkg = true) ∧
      (pinned x pkg = false → p = if pkg.included then psBuilt else psUnknown) := by
    intro p hp
    subst hp
    by_cases h1 : pinned x pkg = true
    · simp [h1]
    · by_cases h2 : pkg.included = true <;> simp [h1, h2]
  -- the state after lines 112-131
  obtain ⟨c2, hc2, hget2⟩ : ∃ c2 : Controller,
      (∀ r, loadPackage x c pkg = r →
        r = (if pkg.dirty = true ∨ pkg.depDirty = true then
          match pkg.builds.get? (c2.st pkg.id).cfi with
          | none => .error "index out of range"
          | some b =>
            if b.stx.length = 0 then
              .ok (c2.modify pkg.id (fun s => { s with types := some (x.emptyTypes pkg.id) }))
            else
              match typeCheck x c2 pkg (!pkg.included || x.isStdlibPkg pkg) with
              | .error msg => .error msg
              | .ok (typed, errs) =>
                .ok (c2.modify pkg.id (fun s => { s with types := some typed, errs := errs }))
        else .ok c2)) ∧
      (∃ s, c2.states.get pkg.id = some s ∧ s.cfi = 0 ∧
        s.ps = (if pinned x pkg = true then psExhausted
          else if pkg.included = true then psBuilt else psUnknown)) := by
    by_cases h1 : pinned x pkg = true
    · refine ⟨{ c with states := c.states.set pkg.id ⟨psExhausted, 0, [], none⟩ }, ?_, ?_⟩
      · intro r hr
        subst hr
        have h1' : (pkg.goroot || pkg.standard ||
            (x.isGolangXPkg pkg && pkg.module.replace)) = true := h1
        have hst : (Controller.st
            { c with states := c.states.set pkg.id ⟨psExhausted, 0, [], none⟩ } pkg.id)
            = ⟨psExhausted, 0, [], none⟩ :=
          Controller.st_of_get _ _ _ (Map.get_set_self _ _ _)
        unfold loadPackage
        simp only [hnone, h1', if_true, hst, reduceCtorEq, false_and, if_false]
      · exact ⟨_, Map.get_set_self _ _ _, rfl, by simp [h1]⟩
    · have h1' : (pkg.goroot || pkg.standard ||
          (x.isGolangXPkg pkg && pkg.module.replace)) = false := by
        simpa [pinned] using h1
      have hst : (Controller.st
          { c with states := c.states.set pkg.id ⟨psUnknown, 0, [], none⟩ } pkg.id)
          = ⟨psUnknown, 0, [], none⟩ :=
        Controller.st_of_get _ _ _ (Map.get_set_self _ _ _)
      by_cases h2 : pkg.included = true
      · refine ⟨Controller.setPs
          { c with states := c.states.set pkg.id ⟨psUnknown, 0, [], none⟩ } pkg.id psBuilt,
          ?_, ?_⟩
        · intro r hr
          subst hr
          unfold loadPackage
          simp only [hnone, h1', Bool.false_eq_true, if_false, hst, h2, and_self, if_true]
        · exact ⟨_, Controller.get_modify_self _ _ _ _ (Map.get_set_self _ _ _), rfl,
            by simp [h1, h2]⟩
      · refine ⟨{ c with states := c.states.set pkg.id ⟨psUnknown, 0, [], none⟩ }, ?_, ?_⟩
        · intro r hr
          subst hr
          unfold loadPackage
          simp only [hnone, h1', Bool.false_eq_true, if_false, hst, h2, and_false]
        · exact ⟨_, Map.get_set_self _ _ _, rfl, by simp [h1, h2]⟩
  obtain ⟨s, hs, hcfi, hp⟩ := hget2
  rw [hc2 _ rfl]
  have hmod : ∀ f : State → State, (∀ t, (f t).ps = t.ps ∧ (f t).cfi = t.cfi) →
      ∃ s', (c2.modify pkg.id f).states.get pkg.id = some s' ∧ s'.cfi = 0 ∧
        (s'.ps = psExhausted ↔ pinned x pkg = true) ∧
        (pinned x pkg = false → s'.ps = if pkg.included then psBuilt else psUnknown) := by
    intro f hf
    refine ⟨f s, Controller.get_modify_self _ _ _ _ hs, by rw [(hf s).2, hcfi], ?_⟩
    rw [(hf s).1]
    exact hps _ hp
  by_cases hd : pkg.dirty = true ∨ pkg.depDirty = true
  · rw [if_pos hd]
    cases pkg.builds.get? (c2.st pkg.id).cfi with
    | none => exact hd
    | some b =>
      dsimp only
      by_cases hb : b.stx.length = 0
      · rw [if_pos hb]
        exact hmod _ (fun _ => ⟨rfl, rfl⟩)
      · rw [if_neg hb]
        cases typeCheck x c2 pkg (!pkg.included || x.isStdlibPkg pkg) with
        | error msg => exact hd
        | ok r => exact hmod _ (fun _ => ⟨rfl, rfl⟩)
  · rw [if_neg hd]
    exact ⟨s, hs, hcfi, hps _ hp⟩

/-- C11, at concrete inputs: the first load of the GOROOT package `runtime/rt`
leaves it `Exhausted`, the first load of the target `example.com/app` leaves
it `Built`. -/
theorem C11_first_load_state_witness :
    (NewController []).states.get rtPkg.id = none ∧
    (match loadPackage ext0 (NewController []) rtPkg with
      | .error _ => rtPkg.dirty = true ∨ rtPkg.depDirty = true
      | .ok c' => ∃ s, c'.states.get rtPkg.id = some s ∧ s.cfi = 0 ∧
          (s.ps = psExhausted ↔ pinned ext0 rtPkg = true) ∧
          (pinned ext0 rtPkg = false →
            s.ps = if rtPkg.included then psBuilt else psUnknown)) ∧
    ((loadPackage ext0 (NewController []) rtPkg).toOption.map (fun c => (c.st 3).ps),
      (loadPackage ext0 (NewController []) appPkg).toOption.map (fun c => (c.st 1).ps))
      = (some psExhausted, some psBuilt) :=
  ⟨by decide, C11_first_load_state ext0 (NewController []) rtPkg (by decide), by decide⟩

/-! ### More on the stages of `port` -/

/-- C19: a golang.org/x package that reaches the module-version step of
`Controller.port` with a non-main module, no replacement and no journal entry
(the update query without fatal error, the workspace edit succeeding): `port`
returns nil and leaves exactly this: a journal entry for the module with the
current version `v` as `original` and the version `u` of the update query,
`Locked` when `u = v` and `Updated` otherwise, the request of the workspace
replace to `u`, `treeIsDirty` false when `u = v`, and the package `Exhausted`.
Nothing else of the state table changes: no re-tag search ran, and the
configuration index is as before. -/
theorem C19_golangx_lock_exhausts (R : Ranks) (x : Ext) (m m1 : M) (pkg : Package)
    (needTag : Bool) (imports : List (Option PkgId)) (u : String)
    (hentry : portEntry x m pkg = .ok (.proceed m1 needTag imports))
    (hmain : pkg.module.main = false) (hrep : pkg.module.replace = false)
    (hnone : m1.c.workspace.get pkg.module.path = none)
    (hx : x.isGolangXPkg pkg = true)
    (hq : (x.goListModUpdate pkg.module.path).1 = u)
    (hqerr : ∀ err, (x.goListModUpdate pkg.module.path).2 = some err →
      x.isExcludeGoListError err = true)
    (hedit : x.goWorkEditReplaceVersion pkg.module.path u = none) :
    port R x m pkg = .ok
      ({ m1 with
          c := Controller.setPs
            { m1.c with
              workspace := m1.c.workspace.set pkg.module.path
                ⟨pkg.module.version, u, if pkg.module.version = u then modLocked else modUpdated⟩
              treeIsDirty := decide (pkg.module.version ≠ u) } pkg.id psExhausted
          trace := m1.trace ++ [.workReplace pkg.module.path u] }, none) := by
  have hfatal : (Option.filter (fun err => !x.isExcludeGoListError err)
      (x.goListModUpdate pkg.module.path).2) = none := by
    cases h : (x.goListModUpdate pkg.module.path).2 with
    | none => rfl
    | some err => simp [Option.filter, hqerr err h]
  simp only [port, hentry, portModule, moduleDecision, moduleStepTaken, hmain, hrep, hnone, hq,
    hfatal]
  by_cases hv : pkg.module.version = u
  · rw [← hv] at hedit
    simp [hv.symm, hedit, hx]
  · simp [hv, hedit, hx, Map.set_set]

/-- C19, at a concrete input: `golang.org/x/sys` at `v0.1.0` without another
version; the journal records `Locked`, `treeIsDirty` stays false, and the
package is `Exhausted` at configuration index 0. -/
theorem C19_golangx_lock_exhausts_witness :
    (port declRanks extGolangX mSys sysPkg).toOption.map (fun r =>
        (r.1.c.workspace, r.1.trace, r.1.c.treeIsDirty, r.1.c.states, r.2))
      = some ([("golang.org/x/sys", ⟨"v0.1.0", "v0.1.0", modLocked⟩)],
          [.workReplace "golang.org/x/sys" "v0.1.0"], false,
          [(6, ⟨psExhausted, 0, [], some 9⟩)], none) := by
  rw [C19_golangx_lock_exhausts declRanks extGolangX mSys mSys sysPkg true [] "v0.1.0"
    (by rfl) (by rfl) (by rfl) (by rfl) (by rfl) (by rfl) (by intro err h; cases h) (by rfl)]
  rfl

/-- C17 (what the code does instead): in `Controller.port`, when the
export-directive search accepts no configuration and there is no export
rewrite or it fails, `port` sets the package to `Exhausted` and returns the
error "no applicable options available", also when the registry carries a
files list for the import path of the package: the files list is not looked
at (lines 499-509 are commented out). -/
theorem C17_files_directive_is_not_applied (x : Ext) (m : M) (pkg : Package) (c1 : Controller)
    (fiEdits : Option FileImportEdits) (expIdx : Nat)
    (_hfiles : (x.inlines pkg.importPath).map (fun d => d.hasFiles) = some true)
    (hf : filterConfigs x m.heap m.c pkg (some (exportFilter x pkg))
      (some [], (m.c.st pkg.id).cfi) = .ok (c1, fiEdits, expIdx))
    (hlen : ¬ (c1.st pkg.id).cfi < pkg.builds.length)
    (hmk : x.mkdirAll (joinPath x.cache pkg.importPath) = none)
    (hrw : ∀ ed, fiEdits = some ed →
      ∃ err, x.applyExportDirective pkg.id expIdx (joinPath x.cache pkg.importPath) ed
        = some err) :
    ∃ m', portExport x m pkg = .ok (m',
        some ("no applicable options available to port package " ++ pkg.importPath)) ∧
      (m'.c.st pkg.id).ps = psExhausted := by
  have hst : ∃ s, c1.states.get pkg.id = some s := by
    obtain ⟨f, rfl, _⟩ := filterConfigs_touches x m.heap m.c pkg _ _ _ _ hf
    unfold filterConfigs at hf
    cases hs : m.c.states.get pkg.id with
    | none => rw [hs] at hf; cases hf
    | some s => exact ⟨f s, Controller.get_modify_self _ _ _ _ hs⟩
  obtain ⟨s, hs⟩ := hst
  have hps : ∀ c : Controller, (∃ s, c.states.get pkg.id = some s) →
      ((c.setPs pkg.id psExhausted).st pkg.id).ps = psExhausted := by
    intro c ⟨s, hs⟩
    unfold Controller.setPs
    rw [Controller.st_of_get _ _ _ (Controller.get_modify_self c pkg.id _ s hs)]
  unfold portExport
  rw [hf]
  simp only [hlen, if_false, hmk]
  cases fiEdits with
  | none => exact ⟨_, rfl, hps _ ⟨s, hs⟩⟩
  | some ed =>
    obtain ⟨err, herr⟩ := hrw ed rfl
    simp only [herr]
    exact ⟨_, rfl, hps _ ⟨_, Controller.get_modify_self c1 pkg.id _ s hs⟩⟩

/-- C17, at a concrete input: the registry carries a files list for
`example.com/app`, whose only configuration has a bad import on its exhausted
dependency; `port` ends with the package `Exhausted` and returns the error. -/
theorem C17_files_directive_is_not_applied_witness :
    (extFiles.inlines appPkg.importPath).map (fun d => d.hasFiles) = some true ∧
    (port declRanks extFiles mDirective appPkg).toOption.map
        (fun r => ((r.1.c.st 1).ps, r.2, r.1.trace))
      = some (psExhausted,
          some "no applicable options available to port package example.com/app",
          [.mkdirAll ".wharf_cache/example.com/app"]) ∧
    ∃ m', portExport extFiles mDirective appPkg = .ok (m',
        some ("no applicable options available to port package " ++ appPkg.importPath)) ∧
      (m'.c.st appPkg.id).ps = psExhausted :=
  ⟨by decide, by decide,
    C17_files_directive_is_not_applied extFiles mDirective appPkg
      (filterOut (filterConfigs extFiles mDirective.heap mDirective.c appPkg
        (some (exportFilter extFiles appPkg)) (some [], 0)) (mDirective.c, none, 0)).1
      none 0 (by decide) (by rfl) (by decide) (by rfl) (by intro ed h; cases h)⟩

/-- C20 (what the code does instead): the accumulator of the re-tag search is
not reset when the filter moves to a new configuration. `errIdx` stays 1, so
at configuration 1 the set still holds the entries of configuration 0, and at
a configuration from 2 on it is emptied before every diagnostic.

First input: configuration 0 of `example.com/tool` has a bad name and a
bad import on `example.com/lib`, configuration 1 has no diagnostic at all; the
search accepts configuration 1 with the set still holding `example.com/lib`,
so the package is not `Patched`: it goes to `PortingDependencies` and
`example.com/lib` is promoted to `BrokeParent`.

Second input: configuration 1 is rejected, configuration 2 has a bad import
on `example.com/lib` followed by a soft diagnostic; the search accepts
configuration 2 with an empty set and the package is `Patched`, although
configuration 2 has a bad-import diagnostic. -/
theorem C20_retag_accumulator_is_not_per_configuration :
    (port declRanks extToolClean mTool toolPkg).toOption.map
        (fun r => ((r.1.c.st 7).ps, (r.1.c.st 7).cfi, (r.1.c.st 2).ps, r.2))
      = some (psPortingDependencies, 1, psBrokeParent, none) ∧
    (port declRanks extToolLast mTool toolPkg).toOption.map
        (fun r => ((r.1.c.st 7).ps, (r.1.c.st 7).cfi, (r.1.c.st 2).ps, r.2))
      = some (psPatched, 2, psUnknown, none) := by
  constructor <;> decide

/-! ### Sweeps of `Run` -/

theorem runLoop_clean (R : Ranks) (x : Ext) (fuel : Nat) :
    ∀ (m m' : M), runLoop R x fuel m = some (.ok (m', none)) → m'.c.treeIsDirty = false := by
  induction fuel with
  | zero => intro m m' h; simp [runLoop] at h
  | succ n ih =>
    intro m m' h
    unfold runLoop at h
    split at h
    · cases h
    · cases h
    · split at h
      · cases h
      · cases h
      · rename_i m2 hp
        split at h
        · rename_i hd
          cases h
          exact hd
        · exact ih _ _ h

/-- C13 (amended): once the set-up of `porting.Port` succeeded, what happens to
the user's workspace file depends on dry-run and on the temporary copy, not on
the result of the porting run. With dry-run on, `Port` makes no call on the
workspace file: no backup, no replacement. With dry-run off and a temporary
copy at hand, `Port` backs the original up to `<GOWORK>.backup`, copies the
temporary over the original and removes the temporary and its `.sum` sidecar,
whether the run returned an error or not; `Port` returns the error of the
run. -/
theorem C13_teardown_ignores_the_result_of_the_run (x : Porting.PortExt) (cfg : Porting.Config)
    (env : Map String String) (tmp : String)
    (henv : cfg.goEnv = some env) (hne : env.length ≠ 0)
    (hparse : x.parseGoEnvTagsErr = none) (hcache : ∀ dir, x.setupCacheErr dir = none)
    (htmp : x.setupTempGoWork ((env.get "GOWORK").getD "") = (tmp, none))
    (hcopy : ∀ dst src, x.copyFileErr dst src = none) :
    (cfg.dryRun = true → Porting.Port x (some cfg) = .ok ([], x.runErr)) ∧
    (cfg.dryRun = false → tmp.length > 0 →
      Porting.Port x (some cfg) = .ok
        ([.copyFile ((env.get "GOWORK").getD "" ++ ".backup") ((env.get "GOWORK").getD ""),
          .copyFile ((env.get "GOWORK").getD "") tmp,
          .remove (tmp ++ ".sum"), .remove tmp], x.runErr)) := by
  constructor
  · intro hdry
    simp [Porting.Port, henv, hne, hparse, hcache, htmp, Porting.teardown, hdry]
  · intro hdry hlen
    simp [Porting.Port, henv, hne, hparse, hcache, htmp, Porting.teardown, hdry, hlen, hcopy]

/-- C13, at a concrete input: a porting run that fails, dry-run off. -/
theorem C13_teardown_ignores_the_result_of_the_run_witness :
    (Porting.Port pxFailing (some ⟨some goEnv0, "", true⟩) = .ok ([], pxFailing.runErr)) ∧
    (Porting.Port pxFailing (some ⟨some goEnv0, "", false⟩) = .ok
        ([.copyFile ((goEnv0.get "GOWORK").getD "" ++ ".backup") ((goEnv0.get "GOWORK").getD ""),
          .copyFile ((goEnv0.get "GOWORK").getD "") "/work/go.work.wharf",
          .remove ("/work/go.work.wharf" ++ ".sum"), .remove "/work/go.work.wharf"],
          pxFailing.runErr)) :=
  ⟨(C13_teardown_ignores_the_result_of_the_run pxFailing ⟨some goEnv0, "", true⟩ goEnv0
      "/work/go.work.wharf" rfl (by decide) rfl (fun _ => rfl) (by rfl) (fun _ _ => rfl)).1 rfl,
    (C13_teardown_ignores_the_result_of_the_run pxFailing ⟨some goEnv0, "", false⟩ goEnv0
      "/work/go.work.wharf" rfl (by decide) rfl (fun _ => rfl) (by rfl) (fun _ _ => rfl)).2 rfl
      (by decide)⟩

/-- C13 (the claim fails): the porting run returns an error and dry-run is
off; `Port` still writes the backup `/work/go.work.backup` and replaces
`/work/go.work` with the temporary copy, then returns the error. -/
theorem C13_failed_run_replaces_workspace_counterexample :
    (Porting.Port pxFailing (some ⟨some goEnv0, "", false⟩)).toOption
      = some ([.copyFile "/work/go.work.backup" "/work/go.work",
          .copyFile "/work/go.work" "/work/go.work.wharf",
          .remove "/work/go.work.wharf.sum", .remove "/work/go.work.wharf"],
          some "unable to load packages: exit status 1") := by
  decide

/-- C14 (what the code does instead): when the command gets as far as calling
`porting.Port` and `Port` returns an error, `main1` returns that error and
`main` prints it and returns: the exit status is 0, as it is when porting
succeeds. -/
theorem C14_failed_porting_exits_zero (x : Porting.PortExt) (i : MainIn) (t : List Effect)
    (err : String)
    (hhelp : i.help = false) (hversion : i.version = false) (harg : 1 ≤ i.nArg)
    (hconfig : i.configFlag = "") (hpatches : i.patches = false)
    (henv : i.goEnvErr = none) (hwork : (i.goEnv.get "GOWORK").getD "" ≠ "")
    (hdir : i.force = true ∨ i.lstatExists = false)
    (hport : Porting.Port x (some ⟨some i.goEnv, "", i.dryRun⟩) = .ok (t, some err)) :
    main1 x i = .ret (some err) ∧ main x i = 0 := by
  have h1 : main1 x i = .ret (some err) := by
    unfold main1
    rw [henv]
    dsimp only
    rw [if_neg hwork]
    have hd : ¬ (i.force = false ∧ i.lstatExists = true) := by
      rintro ⟨hf, hl⟩
      rcases hdir with h | h
      · rw [h] at hf; cases hf
      · rw [h] at hl; cases hl
    rw [if_neg hd, hport]
  refine ⟨h1, ?_⟩
  unfold main
  have harg' : ¬ i.nArg < 1 := by omega
  simp [hhelp, hversion, harg', hconfig, hpatches, h1]

/-- C14, at a concrete input: `wharf ./...` in a workspace, the porting run
fails; the exit status is 0. -/
theorem C14_failed_porting_exits_zero_witness :
    main1 pxFailing mainIn0 = .ret (some "unable to load packages: exit status 1") ∧
    main pxFailing mainIn0 = 0 :=
  C14_failed_porting_exits_zero pxFailing mainIn0
    [.copyFile "/work/go.work.backup" "/work/go.work",
      .copyFile "/work/go.work" "/work/go.work.wharf",
      .remove "/work/go.work.wharf.sum", .remove "/work/go.work.wharf"]
    "unable to load packages: exit status 1"
    rfl rfl (by decide) rfl rfl rfl (by decide) (Or.inr rfl) (by rfl)

/-! ### The tag branch of `Apply` -/

theorem tagFile_plain (b : Base) (x : Ext) (dir : String) (dcfg : Build) (w : TagWalk)
    (g : GoFile) (hg : g.replaced = none) :
    tagFile b x dir dcfg w g =
      { current := w.current.filter (fun n => n ≠ g.name)
        steps := w.steps ++ (if g.name ∈ w.current then [] else addedSteps b x dir dcfg g.name)
        files := w.files ++ (if g.name ∈ w.current then [] else [⟨g.name, "", true⟩])
        tokens := w.tokens } := by
  unfold tagFile
  rw [hg]
  by_cases h : g.name ∈ w.current
  · simp [h]
  · simp [h, addedSteps, taggedTarget, goosName, List.append_assoc]

/-- The loop over the files of the patched configuration when none of them has
an override and no file is listed twice. -/
theorem foldl_tagFile_plain (b : Base) (x : Ext) (dir : String) (dcfg : Build)
    (gs : List GoFile) :
    ∀ (w : TagWalk), (∀ g ∈ gs, g.replaced = none) → (gs.map (fun g => g.name)).Nodup →
      gs.foldl (tagFile b x dir dcfg) w =
        { current := w.current.filter (fun n => n ∉ gs.map (fun g => g.name))
          steps := w.steps ++
            (gs.filter (fun g => g.name ∉ w.current)).flatMap
              (fun g => addedSteps b x dir dcfg g.name)
          files := w.files ++
            (gs.filter (fun g => g.name ∉ w.current)).map (fun g => ⟨g.name, "", true⟩)
          tokens := w.tokens } := by
  induction gs with
  | nil => intro w _ _; simp
  | cons g gs ih =>
    intro w hplain hnodup
    have hg : g.replaced = none := hplain g (List.mem_cons_self _ _)
    have hrest : ∀ g' ∈ gs, g'.replaced = none :=
      fun g' h => hplain g' (List.mem_cons_of_mem _ h)
    rw [List.map_cons, List.nodup_cons] at hnodup
    rw [List.foldl_cons, ih _ hrest hnodup.2, tagFile_plain b x dir dcfg w g hg]
    have hfilter : gs.filter (fun g' => g'.name ∉ w.current.filter (fun n => n ≠ g.name))
        = gs.filter (fun g' => g'.name ∉ w.current) := by
      apply List.filter_congr
      intro g' hg'
      have hne : g'.name ≠ g.name := by
        intro he
        exact hnodup.1 (he ▸ List.mem_map_of_mem (fun g => g.name) hg')
      simp [List.mem_filter, hne]
    have hcur : (w.current.filter (fun n => n ≠ g.name)).filter
          (fun n => n ∉ gs.map (fun g => g.name))
        = w.current.filter (fun n => n ∉ (g :: gs).map (fun g => g.name)) := by
      rw [List.filter_filter]
      apply List.filter_congr
      intro n _
      by_cases h1 : n = g.name <;> by_cases h2 : n ∈ gs.map (fun g => g.name) <;>
        simp [h1, h2]
    simp only [hfilter, hcur]
    by_cases h : g.name ∈ w.current
    · simp [h, List.filter_cons]
    · simp [h, List.filter_cons, List.append_assoc]

theorem foldl_excludeRest (b : Base) (x : Ext) (dir : String) (l : List String) :
    ∀ (acc : TagWalk),
      l.foldl (fun acc n =>
        { acc with
          files := acc.files ++ [⟨n, "", false⟩]
          steps := acc.steps ++ writeTagged x n (joinPath dir n) ("!" ++ b.goos) "&&" }) acc =
        { acc with
          files := acc.files ++ l.map (fun n => ⟨n, "", false⟩)
          steps := acc.steps ++ l.flatMap (fun n => droppedSteps b x dir n) } := by
  induction l with
  | nil => intro acc; simp
  | cons n l ih =>
    intro acc
    rw [List.foldl_cons, ih]
    simp [droppedSteps, List.append_assoc]

/-- The loop over the files of the patched configuration when none of them has
an override and the default configuration has no files. -/
theorem foldl_tagFile_bare (b : Base) (x : Ext) (dir : String) (dcfg : Build)
    (gs : List GoFile) :
    ∀ (w : TagWalk), w.current = [] → (∀ g ∈ gs, g.replaced = none) →
      gs.foldl (tagFile b x dir dcfg) w =
        { current := []
          steps := w.steps ++ gs.flatMap (fun g => addedSteps b x dir dcfg g.name)
          files := w.files ++ gs.map (fun g => ⟨g.name, "", true⟩)
          tokens := w.tokens } := by
  induction gs with
  | nil => intro w hw _; cases w; simp at hw; simp [hw]
  | cons g gs ih =>
    intro w hw hplain
    have hg : g.replaced = none := hplain g (List.mem_cons_self _ _)
    have hrest : ∀ g' ∈ gs, g'.replaced = none :=
      fun g' h => hplain g' (List.mem_cons_of_mem _ h)
    rw [List.foldl_cons, tagFile_plain b x dir dcfg w g hg, ih _ (by simp [hw]) hrest]
    simp [hw, List.append_assoc]

/-- The tag branch of `Apply` for one package when no file of the patched
configuration has an override and no file is listed twice. -/
theorem applyPackage_tag (b : Base) (x : Ext) (pkg : Package) (dcfg pcfg : Build)
    (htag : pcfg.platforms.length ≠ 0)
    (hplain : ∀ g ∈ pcfg.files, g.replaced = none)
    (hnodup : (pcfg.files.map (fun g => g.name)).Nodup) :
    applyPackage b x pkg dcfg pcfg =
      (packageDirCheck x pkg ::
        ((addedFiles dcfg pcfg).flatMap
            (fun g => addedSteps b x (packageDir b x pkg) dcfg g.name) ++
          (droppedFiles dcfg pcfg).flatMap
            (fun n => droppedSteps b x (packageDir b x pkg) n)),
        ⟨pkg.importPath, pkg.module.path,
          if pkg.module.main then pkg.dir else joinPath b.importDir pkg.module.path,
          pcfg.platforms,
          (addedFiles dcfg pcfg).map (fun g => ⟨g.name, "", true⟩) ++
            (droppedFiles dcfg pcfg).map (fun n => ⟨n, "", false⟩),
          []⟩) := by
  unfold applyPackage excludeRest
  simp only [if_neg htag]
  rw [foldl_tagFile_plain b x _ dcfg pcfg.files _ hplain hnodup]
  simp only [foldl_excludeRest]
  simp [packageDirCheck, packageDir, addedFiles, droppedFiles]

/-- C15 (amended): in the tag branch of `Apply`, when the default configuration
has no files and no file of the patched configuration has an override, every
file of the patched configuration gets a file action with Build = true and
these steps, in order: the original `<basename>.go` is copied to
`<basename>_<GOOS>.go`; the source is formatted and the GOOS tag is added with
`||`; the tagged source is written to `<basename>_<GOOS>.go` only when the file
name itself carries a build constraint (`tags.ParseFileName`), and otherwise in
place to `<basename>.go`, so that `<basename>_<GOOS>.go` keeps the untagged
copy. -/
theorem C15_bare_default_copies_then_tags (b : Base) (x : Ext) (pkg : Package)
    (dcfg pcfg : Build)
    (hbare : dcfg.files.length = 0)
    (htag : pcfg.platforms.length ≠ 0)
    (hplain : ∀ g ∈ pcfg.files, g.replaced = none) :
    (applyPackage b x pkg dcfg pcfg).1 =
      packageDirCheck x pkg ::
        pcfg.files.flatMap (fun g =>
          [Step.eff (.copyFile (joinPath (packageDir b x pkg) (goosName b g.name))
              (joinPath (packageDir b x pkg) g.name)),
            Step.check (x.formatErr g.name),
            Step.check (x.appendTagErr g.name b.goos "||"),
            Step.eff (.writeFile
              (joinPath (packageDir b x pkg)
                (if x.parseFileName g.name then goosName b g.name else g.name))
              g.name b.goos "||")]) ∧
    (applyPackage b x pkg dcfg pcfg).2.files =
      pcfg.files.map (fun g => ⟨g.name, "", true⟩) := by
  have hnil : dcfg.files = [] := List.length_eq_zero.mp hbare
  unfold applyPackage excludeRest
  simp only [if_neg htag]
  rw [foldl_tagFile_bare b x _ dcfg pcfg.files _ (by simp [hnil]) hplain]
  simp [packageDirCheck, packageDir, addedSteps, taggedTarget, writeTagged, hnil]

theorem C15_bare_default_copies_then_tags_witness :
    (applyPackage base0 ext0 bareLibPkg ⟨[], [], []⟩ (oneFile "lib.go")).1 =
      [Step.check none,
        Step.eff (.copyFile "example.com/lib/lib_zos.go" "example.com/lib/lib.go"),
        Step.check none, Step.check none,
        Step.eff (.writeFile "example.com/lib/lib.go" "lib.go" "zos" "||")] ∧
    (applyPackage base0 ext0 bareLibPkg ⟨[], [], []⟩ (oneFile "lib.go")).2.files =
      [⟨"lib.go", "", true⟩] :=
  C15_bare_default_copies_then_tags base0 ext0 bareLibPkg ⟨[], [], []⟩ (oneFile "lib.go")
    (by decide) (by decide) (by decide)

/-- C15 (the claim fails): `example.com/lib` has no files in its default
configuration and `lib.go` in configuration 1, at which it was patched. `Apply`
copies `lib.go` to `lib_zos.go` and then writes the source with the `zos` tag
to `lib.go` itself: the original file is written in place, and `lib_zos.go`
holds the copy without the tag. -/
theorem C15_original_is_tagged_in_place_counterexample :
    (bareLibPkg.builds.get? 0).map (fun d => d.files) = some [] ∧
    (Apply base0 ext0 mBarePatched).toOption.map (fun r => (r.m.trace, r.err))
      = some ([.copyFile "example.com/lib/lib_zos.go" "example.com/lib/lib.go",
               .writeFile "example.com/lib/lib.go" "lib.go" "zos" "||"], none) ∧
    ((Apply base0 ext0 mBarePatched).toOption.map
      (fun r => r.m.trace.any (Effect.writesTo "example.com/lib/lib.go"))) = some true := by
  refine ⟨by decide, by decide, by decide⟩

/-- C16 (amended): in the tag branch of `Apply` (the patched configuration has
at least one platform tag), when no file of the patched configuration has an
override and none is listed twice: the file actions are one action with
Build = true for every file of the patched configuration that the default one
has not, followed by one action with Build = false for every file of the
default configuration that the patched one has not; a file of both gets no
action. The steps are, for every added file, `addedSteps`: a copy to
`<basename>_<GOOS>.go` when the default configuration is empty, then the source
with the GOOS tag added (`||`) written to the file itself, or to
`<basename>_<GOOS>.go` when the file name carries a build constraint; and for
every dropped file, `droppedSteps`: the source with the `!GOOS` tag added
(`&&`) written in place. -/
theorem C16_tag_branch_actions_and_writes (b : Base) (x : Ext) (pkg : Package)
    (dcfg pcfg : Build)
    (htag : pcfg.platforms.length ≠ 0)
    (hplain : ∀ g ∈ pcfg.files, g.replaced = none)
    (hnodup : (pcfg.files.map (fun g => g.name)).Nodup) :
    (applyPackage b x pkg dcfg pcfg).2.files =
      (addedFiles dcfg pcfg).map (fun g => ⟨g.name, "", true⟩) ++
        (droppedFiles dcfg pcfg).map (fun n => ⟨n, "", false⟩) ∧
    (applyPackage b x pkg dcfg pcfg).1 =
      packageDirCheck x pkg ::
        ((addedFiles dcfg pcfg).flatMap
            (fun g => addedSteps b x (packageDir b x pkg) dcfg g.name) ++
          (droppedFiles dcfg pcfg).flatMap
            (fun n => droppedSteps b x (packageDir b x pkg) n)) ∧
    (∀ g ∈ pcfg.files, g.name ∈ dcfg.files.map (fun g => g.name) →
      ∀ a ∈ (applyPackage b x pkg dcfg pcfg).2.files, a.name ≠ g.name) := by
  rw [applyPackage_tag b x pkg dcfg pcfg htag hplain hnodup]
  refine ⟨rfl, rfl, ?_⟩
  intro g hg hd a ha
  simp only [List.mem_append, List.mem_map] at ha
  rcases ha with ⟨g', hg', rfl⟩ | ⟨n, hn, rfl⟩
  · intro he
    simp only [addedFiles, List.mem_filter, decide_eq_true_eq] at hg'
    have he' : g'.name = g.name := he
    exact hg'.2 (he' ▸ hd)
  · intro he
    simp only [droppedFiles, List.mem_filter, decide_eq_true_eq] at hn
    have he' : n = g.name := he
    exact hn.2 (he' ▸ List.mem_map_of_mem (fun g => g.name) hg)

theorem C16_tag_branch_actions_and_writes_witness :
    (applyPackage base0 extNamed depPkg (oneFile "d.go") (oneFile "d_linux.go")).2.files =
      [⟨"d_linux.go", "", true⟩, ⟨"d.go", "", false⟩] ∧
    (applyPackage base0 extNamed depPkg (oneFile "d.go") (oneFile "d_linux.go")).1 =
      [Step.check none,
        Step.check none, Step.check none,
        Step.eff (.writeFile "example.com/dep/pkg/d_linux_zos.go" "d_linux.go" "zos" "||"),
        Step.check none, Step.check none,
        Step.eff (.writeFile "example.com/dep/pkg/d.go" "d.go" "!zos" "&&")] ∧
    (∀ g ∈ (oneFile "d_linux.go").files,
      g.name ∈ (oneFile "d.go").files.map (fun g => g.name) →
      ∀ a ∈ (applyPackage base0 extNamed depPkg (oneFile "d.go")
          (oneFile "d_linux.go")).2.files, a.name ≠ g.name) :=
  C16_tag_branch_actions_and_writes base0 extNamed depPkg (oneFile "d.go")
    (oneFile "d_linux.go") (by decide) (by decide) (by decide)

/-- C16 (the claim fails): `example.com/dep/pkg` has `d.go` in its default
configuration and `d_linux.go` in configuration 1, at which it was patched, and
the file name `d_linux.go` carries the constraint `linux`. `Apply` records the
action with Build = true for `d_linux.go`, but writes the source with the `zos`
tag to `d_linux_zos.go`: nothing is written to `d_linux.go`. -/
theorem C16_added_file_is_not_rewritten_counterexample :
    extNamed.parseFileName "d_linux.go" = true ∧
    (Apply base0 extNamed mPatched).toOption.map (fun r => (r.m.trace, r.err))
      = some ([.cloneCache "/modcache/example.com/dep@v1.0.0" "/work/wharf_port/example.com/dep"
                "example.com/dep",
              .dropReplace "example.com/dep",
              .workUse "/work/wharf_port/example.com/dep",
              .writeFile "example.com/dep/pkg/d_linux_zos.go" "d_linux.go" "zos" "||",
              .writeFile "example.com/dep/pkg/d.go" "d.go" "!zos" "&&"], none) ∧
    (Apply base0 extNamed mPatched).toOption.map
      (fun r => (r.packageActions.map (fun a => a.files),
        r.m.trace.any (Effect.writesTo "example.com/dep/pkg/d_linux.go")))
      = some ([[⟨"d_linux.go", "", true⟩, ⟨"d.go", "", false⟩]], false) := by
  refine ⟨by decide, by decide, by decide⟩

/-! ### The filter of the export-directive search -/

/-- C21 (amended): the filter of the export-directive search of
`Controller.port`, on a bad-import diagnostic of a file the package has, with
the edit map not nil. When the directive registry supplies an export
substitution for the (import path, symbol) of the diagnostic, the filter
records it in the edit map under file name, alias and symbol and returns
false: the configuration is rejected as it stands. When the registry supplies
none, a non-soft diagnostic at the index `expIdx` drops the edit map and
returns false, and any other returns its `Soft` flag with the edit map as it
was. So the filter returns true for a bad-import diagnostic exactly when the
registry supplies no substitution and the diagnostic is soft. -/
theorem C21_export_filter_on_bad_import (x : Ext) (pkg : Package) (te : TypeError)
    (pn nm : String) (file : Map String String) (ed : FileImportEdits) (expIdx cfi : Nat)
    (hr : te.reason = .badImportName pn nm) (hf : pkg.files.get te.filename = some file) :
    (∀ d, substitutionFor x file pn nm = some d →
      exportFilter x pkg (some ed, expIdx) cfi te
        = .ok ((some (recordEdit ed te.filename pn nm d), expIdx), false)) ∧
    (substitutionFor x file pn nm = none →
      exportFilter x pkg (some ed, expIdx) cfi te
        = if te.soft = false ∧ expIdx = cfi then .ok ((none, expIdx), false)
          else .ok ((some ed, expIdx), te.soft)) ∧
    ((∃ acc, exportFilter x pkg (some ed, expIdx) cfi te = .ok (acc, true)) ↔
      (substitutionFor x file pn nm = none ∧ te.soft = true)) := by
  have hsome : ∀ d, substitutionFor x file pn nm = some d →
      exportFilter x pkg (some ed, expIdx) cfi te
        = .ok ((some (recordEdit ed te.filename pn nm d), expIdx), false) := by
    intro d hd
    unfold substitutionFor at hd
    simp [exportFilter, hr, hf, hd, recordEdit]
  have hnone : substitutionFor x file pn nm = none →
      exportFilter x pkg (some ed, expIdx) cfi te
        = if te.soft = false ∧ expIdx = cfi then .ok ((none, expIdx), false)
          else .ok ((some ed, expIdx), te.soft) := by
    intro hd
    unfold substitutionFor at hd
    simp [exportFilter, hr, hf, hd]
  refine ⟨hsome, hnone, ?_⟩
  constructor
  · rintro ⟨acc, h⟩
    cases hs : substitutionFor x file pn nm with
    | some d => rw [hsome d hs] at h; cases h
    | none =>
      rw [hnone hs] at h
      split at h
      · cases h
      · simp only [Except.ok.injEq, Prod.mk.injEq] at h
        exact ⟨rfl, h.2⟩
  · rintro ⟨hs, hsoft⟩
    refine ⟨(some ed, expIdx), ?_⟩
    rw [hnone hs]
    simp [hsoft]

/-- C21, at a concrete input: the hard bad-import diagnostic on `lib.Sym` of
`example.com/app`, for which the registry has the substitution `GoodSym`. -/
theorem C21_export_filter_on_bad_import_witness :
    (∀ d, substitutionFor extDirective [("lib", "example.com/lib")] "lib" "Sym" = some d →
      exportFilter extDirective appPkg (some [], 0) 0 hardImportErr
        = .ok ((some (recordEdit [] hardImportErr.filename "lib" "Sym" d), 0), false)) ∧
    (substitutionFor extDirective [("lib", "example.com/lib")] "lib" "Sym" = none →
      exportFilter extDirective appPkg (some [], 0) 0 hardImportErr
        = if hardImportErr.soft = false ∧ 0 = 0 then .ok ((none, 0), false)
          else .ok ((some [], 0), hardImportErr.soft)) ∧
    ((∃ acc, exportFilter extDirective appPkg (some [], 0) 0 hardImportErr = .ok (acc, true)) ↔
      (substitutionFor extDirective [("lib", "example.com/lib")] "lib" "Sym" = none ∧
        hardImportErr.soft = true)) :=
  C21_export_filter_on_bad_import extDirective appPkg hardImportErr "lib" "Sym"
    [("lib", "example.com/lib")] [] 0 0 rfl (by rfl)

/-- C21 (the claim fails): for the bad-import diagnostic on `lib.Sym` the
registry supplies the substitution `GoodSym`; the filter records it under
`a.go`, `lib`, `Sym` and returns false. For the soft bad-import diagnostic on
`lib.Sym` with an empty registry the filter returns true. -/
theorem C21_substitution_returns_false_counterexample :
    substitutionFor extDirective [("lib", "example.com/lib")] "lib" "Sym"
      = some ⟨"EXPORT", "GoodSym"⟩ ∧
    (exportFilter extDirective appPkg (some [], 0) 0 hardImportErr).toOption
      = some ((some [("a.go", [("lib", [("Sym", ⟨"EXPORT", "GoodSym"⟩)])])], 0), false) ∧
    substitutionFor ext0 [("lib", "example.com/lib")] "lib" "Sym" = none ∧
    (exportFilter ext0 appPkg (some [], 0) 0 softImportErr).toOption
      = some ((some [], 0), true) := by
  refine ⟨by decide, by rfl, by decide, by rfl⟩

/-! ### Step 1 of `validate` -/

theorem feed_append_of_passes {σ : Type} (filter : Option (Filter σ)) (cfi : Nat)
    (acc : σ) (pre : List TypeError) (acc₁ : σ) (rest : List TypeError)
    (h : PassesAll filter cfi acc pre acc₁) :
    feed filter cfi acc (pre ++ rest) = feed filter cfi acc₁ rest := by
  induction h with
  | nil acc => rfl
  | soft acc e es acc' hf hsoft _ ih =>
    subst hf
    simp only [List.cons_append, feed, hsoft, if_true]
    exact ih
  | pass f acc a₁ e es acc' hf hfe _ ih =>
    subst hf
    simp only [List.cons_append, feed, hfe]
    exact ih

/-- C24 (what the code does instead): `validate` stops at the first diagnostic
that the filter does not pass. When the filter passes the diagnostics `pre`
and rejects the next one, `validate` returns false with the accumulator as the
filter left it at that diagnostic and the cached types as they were: the
diagnostics `post` that follow are not fed to the filter. -/
theorem C24_validate_stops_at_first_rejection {σ : Type} (x : Ext)
    (heap : Map PkgId Package) (c : Controller) (pkg : Package) (f : Filter σ)
    (acc a₁ acc' : σ) (st : State) (typed : Types) (pre post : List TypeError)
    (e : TypeError)
    (hst : c.states.get pkg.id = some st)
    (htc : typeCheck x c pkg false = .ok (typed, pre ++ e :: post))
    (hpre : PassesAll (some f) st.cfi acc pre a₁)
    (hrej : f a₁ st.cfi e = .ok (acc', false)) :
    validate x heap c pkg (some f) acc = .ok (c, acc', false) := by
  unfold validate
  rw [hst]
  dsimp only
  rw [htc]
  dsimp only
  rw [feed_append_of_passes (some f) st.cfi acc pre a₁ (e :: post) hpre]
  simp only [feed, hrej]

/-- C24, at a concrete input: the type check of `example.com/app` reports the
bad imports `lib.Sym` and `lib.Sym2`, both with a substitution in the registry;
the filter of the export-directive search records `Sym` and rejects the
diagnostic, and `validate` returns with an edit map that holds `Sym` only. -/
theorem C24_validate_stops_at_first_rejection_witness :
    typeCheck extTwoSyms mDirective.c appPkg false = .ok (8, [hardImportErr, hardImportErr2]) ∧
    validate extTwoSyms mDirective.heap mDirective.c appPkg
        (some (exportFilter extTwoSyms appPkg)) (some [], 0)
      = .ok (mDirective.c,
          (some [("a.go", [("lib", [("Sym", ⟨"EXPORT", "GoodSym"⟩)])])], 0), false) :=
  ⟨by rfl,
    C24_validate_stops_at_first_rejection extTwoSyms mDirective.heap mDirective.c appPkg
      (exportFilter extTwoSyms appPkg) (some [], 0) (some [], 0)
      (some [("a.go", [("lib", [("Sym", ⟨"EXPORT", "GoodSym"⟩)])])], 0)
      ⟨psBuilt, 0, [hardImportErr], some 7⟩ 8 [] [hardImportErr2] hardImportErr
      (by rfl) (by rfl) (PassesAll.nil _) (by rfl)⟩

/-- C26: `validate` replaces the cached types of the package exactly when
step 1 passes, whatever the parents say. With the type check of the package
yielding `typed` and the diagnostics `errs`: when the filter rejects one of the
diagnostics, `validate` returns false and the controller is as it was; when
the filter passes them all, the record of the package gets `typed` as its
types before the parents are checked, and `validate` returns the controller
with that record together with the verdict of the parents, also when the
verdict is false. -/
theorem C26_validate_types_follow_step_one {σ : Type} (x : Ext) (heap : Map PkgId Package)
    (c : Controller) (pkg : Package) (filter : Option (Filter σ)) (acc acc₁ : σ)
    (st : State) (typed : Types) (errs : List TypeError) (pass : Bool)
    (hst : c.states.get pkg.id = some st)
    (htc : typeCheck x c pkg false = .ok (typed, errs))
    (hfeed : feed filter st.cfi acc errs = .ok (acc₁, pass)) :
    (pass = false → validate x heap c pkg filter acc = .ok (c, acc₁, false)) ∧
    (pass = true → ∀ b,
      validateParents x heap (c.modify pkg.id (fun s => { s with types := some typed }))
          pkg pkg.parents = .ok b →
        validate x heap c pkg filter acc
          = .ok (c.modify pkg.id (fun s => { s with types := some typed }), acc₁, b)) ∧
    (c.modify pkg.id (fun s => { s with types := some typed })).states.get pkg.id
      = some { st with types := some typed } := by
  refine ⟨?_, ?_, Controller.get_modify_self _ _ _ _ hst⟩
  · intro hp
    subst hp
    unfold validate
    rw [hst]
    dsimp only
    rw [htc]
    dsimp only
    rw [hfeed]
  · intro hp b hb
    subst hp
    unfold validate
    rw [hst]
    dsimp only
    rw [htc]
    dsimp only
    rw [hfeed]
    dsimp only
    rw [hb]

/-- C26, at a concrete input: `example.com/lib` checks without diagnostics, and
its parent `example.com/app`, checked again, has a bad import on `lib.Sym`:
`validate` returns false and the cached types of `example.com/lib` are the new
ones (0 instead of 3). -/
theorem C26_validate_types_follow_step_one_witness :
    ((mDirective.c.st 2).types = some 3) ∧
    validate extDirective mDirective.heap mDirective.c libPkg (none : Option (Filter Unit)) ()
      = .ok (mDirective.c.modify libPkg.id (fun s => { s with types := some 0 }), (), false) ∧
    (mDirective.c.modify libPkg.id (fun s => { s with types := some 0 })).states.get libPkg.id
      = some { (⟨psExhausted, 0, [], some 3⟩ : State) with types := some 0 } :=
  ⟨by rfl,
    (C26_validate_types_follow_step_one extDirective mDirective.heap mDirective.c libPkg
      (none : Option (Filter Unit)) () () ⟨psExhausted, 0, [], some 3⟩ 0 [] true
      (by rfl) (by rfl) (by rfl)).2.1 rfl false (by rfl),
    (C26_validate_types_follow_step_one extDirective mDirective.heap mDirective.c libPkg
      (none : Option (Filter Unit)) () () ⟨psExhausted, 0, [], some 3⟩ 0 [] true
      (by rfl) (by rfl) (by rfl)).2.2⟩

/-- C22 (what the code does instead): the export directive is applied to a
configuration that has a hard diagnostic without substitution, and with
substitutions of another configuration.

First input: configuration 0 of `example.com/tool` is dropped for its
bad import on `lib.Missing`; configuration 1 has the bad import on `lib.Sym`,
which the registry can substitute, followed by a hard diagnostic of kind
`Other`.
The filter rejects the first diagnostic of configuration 1 after recording
`Sym`, `validate` returns at once, and the hard diagnostic is never seen: the
edit map is kept, the export directive is applied to configuration 1 and the
package is `Patched`.

Second input: configuration 0 has the bad import on `lib.Sym`, configuration 1
the bad import on `lib.Sym2`; the edit map of configuration 0 is still at hand
when configuration 1 is checked, `Sym2` is recorded in it, and the export
directive is applied to configuration 0 with both substitutions. -/
theorem C22_export_directive_on_unfixable_configuration :
    (extToolHard.check 7 1 false []).errs = [toolImportErr, toolOtherErr] ∧
    (port declRanks extToolHard (mToolDeps [toolMissingErr]) toolPkg).toOption.map
        (fun r => ((r.1.c.st 7).ps, (r.1.c.st 7).cfi, r.1.trace, r.2))
      = some (psPatched, 1,
          [.mkdirAll ".wharf_cache/example.com/tool",
            .exportDirective 7 1 ".wharf_cache/example.com/tool"
              [("t.go", [("lib", [("Sym", ⟨"EXPORT", "GoodSym"⟩)])])]], none) ∧
    (extToolMixed.check 7 0 false []).errs = [toolImportErr] ∧
    (extToolMixed.check 7 1 false []).errs = [toolImportErr2] ∧
    (port declRanks extToolMixed (mToolDeps [toolImportErr]) toolPkg).toOption.map
        (fun r => ((r.1.c.st 7).ps, (r.1.c.st 7).cfi, r.1.trace, r.2))
      = some (psPatched, 0,
          [.mkdirAll ".wharf_cache/example.com/tool",
            .exportDirective 7 0 ".wharf_cache/example.com/tool"
              [("t.go", [("lib", [("Sym", ⟨"EXPORT", "GoodSym"⟩),
                ("Sym2", ⟨"EXPORT", "GoodSym2"⟩)])])]], none) := by
  refine ⟨by rfl, by rfl, by rfl, by rfl, by rfl⟩

/-! ### The promotion of the dependencies -/

theorem Controller.modify_eq_states (c : Controller) (id : PkgId) (f : State → State) :
    ∃ sts, c.modify id f = { c with states := sts } := by
  unfold Controller.modify
  split
  · exact ⟨c.states, rfl⟩
  · exact ⟨_, rfl⟩

theorem promotedState_brokeParent (R : Ranks) (s : State) :
    promotedState R { s with ps := psBrokeParent } = { s with ps := psBrokeParent } := by
  simp [promotedState]

/-- The promotion loop when every key of the set is a package with a record and
none of them is `Patched` at or above `psExhausted`. -/
theorem promote_spec (R : Ranks) (l : List (Option PkgId)) :
    ∀ (c : Controller) (can : Bool),
      (∀ k ∈ l, ∃ id s, k = some id ∧ c.states.get id = some s ∧
        (belowExhausted R s.ps = true ∨ s.ps ≠ psPatched)) →
      ∃ sts, promote R c can l
          = .ok ({ c with states := sts },
              can || l.any (fun k => match k with
                | some id => belowExhausted R (c.st id).ps
                | none => false)) ∧
        ∀ id, sts.get id
          = (c.states.get id).map (fun s => if some id ∈ l then promotedState R s else s) := by
  induction l with
  | nil =>
    intro c can _
    exact ⟨c.states, by simp [promote], by intro id; simp⟩
  | cons k ks ih =>
    intro c can hwf
    obtain ⟨id0, s0, rfl, hs0, hok⟩ := hwf _ (List.mem_cons_self _ _)
    have hst0 : c.st id0 = s0 := Controller.st_of_get _ _ _ hs0
    have htail : ∀ (c' : Controller), (∀ q, q ≠ id0 → c'.states.get q = c.states.get q) →
        (∃ s', c'.states.get id0 = some s' ∧
          (belowExhausted R s'.ps = true ∨ s'.ps ≠ psPatched)) →
        ∀ k ∈ ks, ∃ id s, k = some id ∧ c'.states.get id = some s ∧
          (belowExhausted R s.ps = true ∨ s.ps ≠ psPatched) := by
      intro c' hne hself k hk
      obtain ⟨id, s, rfl, hs, hk'⟩ := hwf _ (List.mem_cons_of_mem _ hk)
      by_cases hid : id = id0
      · subst hid
        obtain ⟨s', hs', hk''⟩ := hself
        exact ⟨id, s', rfl, hs', hk''⟩
      · exact ⟨id, s, rfl, by rw [hne id hid]; exact hs, hk'⟩
    unfold promote
    simp only [hs0]
    by_cases hb : R.ps s0.ps < R.ps psExhausted
    · rw [if_pos hb]
      by_cases hl : R.ps s0.ps < R.ps psBrokeParent
      · rw [if_pos hl]
        obtain ⟨sts', hc'⟩ := Controller.modify_eq_states c id0
          (fun s => { s with ps := psBrokeParent })
        have hget : ∀ q, (c.setPs id0 psBrokeParent).states.get q
            = if q = id0 then some { s0 with ps := psBrokeParent } else c.states.get q := by
          intro q
          rw [Controller.setPs, Controller.get_modify, hs0]
          rfl
        obtain ⟨sts, hrun, hpt⟩ := ih (c.setPs id0 psBrokeParent) true
          (htail _ (fun q hq => by rw [hget q, if_neg hq])
            ⟨_, by rw [hget id0, if_pos rfl], Or.inr (by simp)⟩)
        refine ⟨sts, ?_, ?_⟩
        · rw [hrun]
          simp only [Controller.setPs, hc']
          simp [belowExhausted, hst0, hb]
        · intro id
          rw [hpt id, hget id]
          by_cases hid : id = id0
          · subst hid
            simp [hs0, promotedState_brokeParent, promotedState, hb, hl]
          · simp [hid]
      · rw [if_neg hl]
        obtain ⟨sts, hrun, hpt⟩ := ih c true
          (htail c (fun _ _ => rfl) ⟨s0, hs0, Or.inl (by simp [belowExhausted, hb])⟩)
        refine ⟨sts, ?_, ?_⟩
        · rw [hrun]
          simp [belowExhausted, hst0, hb]
        · intro id
          rw [hpt id]
          by_cases hid : id = id0
          · subst hid
            simp [hs0, promotedState, hl]
          · simp [hid]
    · rw [if_neg hb]
      have hnp : s0.ps ≠ psPatched := by
        rcases hok with h | h
        · simp [belowExhausted, hb] at h
        · exact h
      rw [if_neg hnp]
      obtain ⟨sts, hrun, hpt⟩ := ih c can (htail c (fun _ _ => rfl) ⟨s0, hs0, Or.inr hnp⟩)
      refine ⟨sts, ?_, ?_⟩
      · rw [hrun]
        simp [belowExhausted, hst0, hb]
      · intro id
        rw [hpt id]
        by_cases hid : id = id0
        · subst hid
          simp [hs0, promotedState, hb]
        · simp [hid]

/-- The promotion loop panics when a key of the set is a package that is
`Patched` and not below `psExhausted`, every key being a package with a
record. -/
theorem promote_patched (R : Ranks) (l : List (Option PkgId)) :
    ∀ (c : Controller) (can : Bool),
      (∀ k ∈ l, ∃ id s, k = some id ∧ c.states.get id = some s) →
      (∃ id s, some id ∈ l ∧ c.states.get id = some s ∧
        belowExhausted R s.ps = false ∧ s.ps = psPatched) →
      promote R c can l = .error "package is claimed to be patchable but has bad parent" := by
  induction l with
  | nil =>
    intro c can _ h
    obtain ⟨_, _, hmem, _⟩ := h
    cases hmem
  | cons k ks ih =>
    intro c can hwf hpat
    obtain ⟨id0, s0, rfl, hs0⟩ := hwf _ (List.mem_cons_self _ _)
    obtain ⟨id, s, hmem, hs, hnb, hp⟩ := hpat
    have hnb' : ¬ R.ps s.ps < R.ps psExhausted := by simpa [belowExhausted] using hnb
    unfold promote
    simp only [hs0]
    by_cases hb : R.ps s0.ps < R.ps psExhausted
    · have hne : id ≠ id0 := by
        rintro rfl
        rw [hs0] at hs
        cases hs
        exact hnb' hb
      have hmem' : some id ∈ ks := by
        rcases List.mem_cons.1 hmem with h | h
        · exact absurd (Option.some.inj h) hne
        · exact h
      have hget : ∀ q, q ≠ id0 →
          (c.setPs id0 psBrokeParent).states.get q = c.states.get q :=
        fun q hq => Controller.get_modify_of_ne c _ hq
      have hwf' : ∀ (c' : Controller), (∀ q, q ≠ id0 → c'.states.get q = c.states.get q) →
          (∃ s', c'.states.get id0 = some s') →
          ∀ k ∈ ks, ∃ id s, k = some id ∧ c'.states.get id = some s := by
        intro c' hq hself k hk
        obtain ⟨i, si, rfl, hi⟩ := hwf _ (List.mem_cons_of_mem _ hk)
        by_cases hi0 : i = id0
        · subst hi0
          obtain ⟨s', hs'⟩ := hself
          exact ⟨i, s', rfl, hs'⟩
        · exact ⟨i, si, rfl, by rw [hq i hi0]; exact hi⟩
      rw [if_pos hb]
      split
      · exact ih _ true
          (hwf' _ hget ⟨_, Controller.get_modify_self c id0 _ s0 hs0⟩)
          ⟨id, s, hmem', by rw [hget id hne]; exact hs, hnb, hp⟩
      · exact ih c true (hwf' c (fun _ _ => rfl) ⟨s0, hs0⟩) ⟨id, s, hmem', hs, hnb, hp⟩
    · rw [if_neg hb]
      by_cases hp0 : s0.ps = psPatched
      · rw [if_pos hp0]
      · rw [if_neg hp0]
        have hmem' : some id ∈ ks := by
          rcases List.mem_cons.1 hmem with h | h
          · have : id = id0 := Option.some.inj h
            subst this
            rw [hs0] at hs
            cases hs
            exact absurd hp hp0
          · exact h
        exact ih c can (fun k hk => hwf k (List.mem_cons_of_mem _ hk))
          ⟨id, s, hmem', hs, hnb, hp⟩

/-- C23: the dependency stage of `Controller.port` with a non-empty bad-import
set `l` (the set of the earlier stages, or the one rebuilt from the cached
diagnostics for a package in `PortingDependencies`), every key of the set being
a package with a record.

If a dependency of the set is `Patched` (and not below `psExhausted`), `port`
panics. Otherwise the record of every dependency of the set is its
`promotedState` (a state below `psExhausted` and below `psBrokeParent` becomes
`psBrokeParent`, every other one is kept), the other records are kept; and if
a dependency of the set was below `psExhausted`, the package is set to
`PortingDependencies` and `port` returns nil with the trace as it was: the
export-directive search does not run. If none was, `port` goes on to the
export-directive search with the state table unchanged.

Under the numbering `declRanks` the states below `psExhausted` are `Unknown`,
`Built`, `BrokeParent` and `PortingDependencies`, and `Unknown` and `Built` are
the ones that become `BrokeParent`. -/
theorem C23_dependencies_promoted (R : Ranks) (x : Ext) (m : M) (pkg : Package)
    (imports : Option (List (Option PkgId))) (l : List (Option PkgId))
    (hset : ((m.c.st pkg.id).ps = psPortingDependencies ∧
        recheck x pkg imports (m.c.st pkg.id).errs = .ok (some l)) ∨
      ((m.c.st pkg.id).ps ≠ psPortingDependencies ∧ imports = some l))
    (hne : l.length ≠ 0)
    (hwf : ∀ k ∈ l, ∃ id s, k = some id ∧ m.c.states.get id = some s) :
    ((∃ id s, some id ∈ l ∧ m.c.states.get id = some s ∧
        belowExhausted R s.ps = false ∧ s.ps = psPatched) →
      portDeps R x m pkg imports
        = .error "package is claimed to be patchable but has bad parent") ∧
    ((∀ id s, some id ∈ l → m.c.states.get id = some s →
        belowExhausted R s.ps = true ∨ s.ps ≠ psPatched) →
      ∃ sts,
        (∀ id, sts.get id
          = (m.c.states.get id).map (fun s => if some id ∈ l then promotedState R s else s)) ∧
        ((∃ id s, some id ∈ l ∧ m.c.states.get id = some s ∧ belowExhausted R s.ps = true) →
          portDeps R x m pkg imports
            = .ok ({ m with
                c := Controller.setPs { m.c with states := sts } pkg.id psPortingDependencies },
                none)) ∧
        ((∀ id s, some id ∈ l → m.c.states.get id = some s →
            belowExhausted R s.ps = false) →
          sts = m.c.states ∧
          portDeps R x m pkg imports = portExport x m pkg)) ∧
    (∀ ps, belowExhausted declRanks ps = true ↔
      (ps = psUnknown ∨ ps = psBuilt ∨ ps = psBrokeParent ∨ ps = psPortingDependencies)) ∧
    (∀ s, promotedState declRanks s
      = if s.ps = psUnknown ∨ s.ps = psBuilt then { s with ps := psBrokeParent } else s) := by
  have hre : (if (m.c.st pkg.id).ps = psPortingDependencies then
        recheck x pkg imports (m.c.st pkg.id).errs
      else if (imports.getD []).length = 0 then
        .error "advancing to dependency porting but no bad dependencies found"
      else .ok imports) = .ok (some l) := by
    rcases hset with ⟨hp, hr⟩ | ⟨hp, hi⟩
    · rw [if_pos hp, hr]
    · subst hi
      rw [if_neg hp]
      simp [hne]
  have hlen : ¬ ((some l : Option (List (Option PkgId))).getD []).length = 0 := by
    simpa using hne
  have hany : ∀ (b : Bool), (false || l.any (fun k => match k with
        | some id => belowExhausted R (m.c.st id).ps
        | none => false)) = b →
      (b = true ↔ ∃ id s, some id ∈ l ∧ m.c.states.get id = some s ∧
        belowExhausted R s.ps = true) := by
    intro b hb
    subst hb
    simp only [Bool.false_or, List.any_eq_true]
    constructor
    · rintro ⟨k, hk, hbk⟩
      obtain ⟨id, s, rfl, hs⟩ := hwf k hk
      have hst := Controller.st_of_get _ _ _ hs
      exact ⟨id, s, hk, hs, by simpa only [hst] using hbk⟩
    · rintro ⟨id, s, hk, hs, hbk⟩
      have hst := Controller.st_of_get _ _ _ hs
      exact ⟨some id, hk, by simpa only [hst] using hbk⟩
  refine ⟨?_, ?_, ?_, ?_⟩
  · intro hpat
    unfold portDeps
    simp only [hre, if_neg hlen]
    simp only [Option.getD_some]
    rw [promote_patched R l m.c false hwf hpat]
  · intro hok
    obtain ⟨sts, hrun, hpt⟩ := promote_spec R l m.c false (by
      intro k hk
      obtain ⟨id, s, rfl, hs⟩ := hwf k hk
      exact ⟨id, s, rfl, hs, hok id s hk hs⟩)
    refine ⟨sts, hpt, ?_, ?_⟩
    · intro hex
      have hcan := (hany _ rfl).2 hex
      unfold portDeps
      simp only [hre, if_neg hlen]
      simp only [Option.getD_some]
      rw [hrun]
      simp only [hcan, if_true]
    · intro hnone
      have hcan : (false || l.any (fun k => match k with
          | some id => belowExhausted R (m.c.st id).ps
          | none => false)) = false := by
        cases hb : (false || l.any (fun k => match k with
          | some id => belowExhausted R (m.c.st id).ps
          | none => false)) with
        | false => rfl
        | true =>
          obtain ⟨id, s, hk, hs, hbk⟩ := (hany true hb).1 rfl
          rw [hnone id s hk hs] at hbk
          cases hbk
      have hsts : { m.c with states := sts } = m.c := by
        -- every record is kept, so every step of the loop left the table as it was
        have hkeep : ∀ (ks : List (Option PkgId)) (c : Controller) (can : Bool),
            (∀ k ∈ ks, ∃ id s, k = some id ∧ c.states.get id = some s ∧
              belowExhausted R s.ps = false ∧ s.ps ≠ psPatched) →
            promote R c can ks = .ok (c, can) := by
          intro ks
          induction ks with
          | nil => intro c can _; simp [promote]
          | cons k ks ih =>
            intro c can h
            obtain ⟨id, s, rfl, hs, hb, hp⟩ := h _ (List.mem_cons_self _ _)
            have hb' : ¬ R.ps s.ps < R.ps psExhausted := by simpa [belowExhausted] using hb
            unfold promote
            simp only [hs, if_neg hb', if_neg hp]
            exact ih c can (fun k hk => h k (List.mem_cons_of_mem _ hk))
        have hk := hkeep l m.c false (by
          intro k hk
          obtain ⟨id, s, rfl, hs⟩ := hwf k hk
          refine ⟨id, s, rfl, hs, hnone id s hk hs, ?_⟩
          rcases hok id s hk hs with h | h
          · rw [hnone id s hk hs] at h; cases h
          · exact h)
        rw [hrun] at hk
        simp only [Except.ok.injEq, Prod.mk.injEq] at hk
        exact hk.1
      have hsts' : sts = m.c.states := by
        have := congrArg Controller.states hsts
        simpa using this
      refine ⟨hsts', ?_⟩
      unfold portDeps
      simp only [hre, if_neg hlen]
      simp only [Option.getD_some]
      rw [hrun]
      simp only [hcan, hsts]
      rfl
  · intro ps
    cases ps <;> simp [belowExhausted, declRanks]
  · intro s
    obtain ⟨ps, cfi, errs, types⟩ := s
    cases ps <;> simp [promotedState, declRanks]

/-- C23, at a concrete input: `example.com/tool` with the bad-import set
holding `example.com/lib`, which is `Unknown`: the dependency becomes
`BrokeParent` and the package `PortingDependencies`. -/
theorem C23_dependencies_promoted_witness :
    (mTool.c.st 2).ps = psUnknown ∧
    (∃ sts,
      (∀ id, sts.get id = (mTool.c.states.get id).map
        (fun s => if some id ∈ [some 2] then promotedState declRanks s else s)) ∧
      portDeps declRanks ext0 mTool toolPkg (some [some 2])
        = .ok ({ mTool with
            c := Controller.setPs { mTool.c with states := sts } 7 psPortingDependencies },
            none)) ∧
    (portDeps declRanks ext0 mTool toolPkg (some [some 2])).toOption.map
        (fun r => ((r.1.c.st 2).ps, (r.1.c.st 7).ps, r.1.trace, r.2))
      = some (psBrokeParent, psPortingDependencies, [], none) := by
  have hget : mTool.c.states.get 2 = some ⟨psUnknown, 0, [], some 3⟩ := by rfl
  refine ⟨by decide, ?_, by rfl⟩
  obtain ⟨sts, hpt, hgo, _⟩ :=
    (C23_dependencies_promoted declRanks ext0 mTool toolPkg (some [some 2]) [some 2]
      (Or.inr ⟨by decide, rfl⟩) (by decide)
      (by
        intro k hk
        simp only [List.mem_singleton] at hk
        exact ⟨2, _, hk, hget⟩)).2.1
      (by
        intro id s hk hs
        simp only [List.mem_singleton, Option.some.injEq] at hk
        subst hk
        rw [hget] at hs
        cases hs
        exact Or.inl (by decide))
  exact ⟨sts, hpt, hgo ⟨2, _, by simp, hget, by decide⟩⟩

/-! ### Termination of the configuration filter -/

theorem validateCalls_le {σ : Type} (x : Ext) (heap : Map PkgId Package) (pkg : Package)
    (filter : Option (Filter σ)) :
    ∀ (fuel : Nat) (c : Controller) (acc : σ) (st : State),
      c.states.get pkg.id = some st →
      validateCalls x heap pkg filter fuel c acc ≤ pkg.builds.length - st.cfi := by
  intro fuel
  induction fuel with
  | zero => intro c acc st _; simp [validateCalls]
  | succ n ih =>
    intro c acc st hst
    unfold validateCalls
    simp only [hst]
    cases hb : pkg.builds.get? st.cfi with
    | none => simp
    | some cfg =>
      have hlt : st.cfi < pkg.builds.length := by
        obtain ⟨h, _⟩ := List.get?_eq_some.1 hb
        exact h
      dsimp only
      split
      · omega
      · split
        · omega
        · omega
        · rename_i c' acc' hv
          obtain ⟨st', hst', hcfi⟩ := validate_cfi x heap c pkg filter acc c' acc' false st hst hv
          have := ih (c'.modify pkg.id (fun s => { s with cfi := s.cfi + 1 })) acc'
            { st' with cfi := st'.cfi + 1 } (Controller.get_modify_self c' pkg.id _ st' hst')
          simp only [hcfi] at this
          omega

theorem filterConfigsLoop_fuel_succ {σ : Type} (x : Ext) (heap : Map PkgId Package)
    (pkg : Package) (filter : Option (Filter σ)) :
    ∀ (fuel : Nat) (c : Controller) (acc : σ) (st : State),
      c.states.get pkg.id = some st → pkg.builds.length - st.cfi ≤ fuel →
      filterConfigsLoop x heap pkg filter (fuel + 1) c acc
        = filterConfigsLoop x heap pkg filter fuel c acc := by
  intro fuel
  induction fuel with
  | zero =>
    intro c acc st hst hle
    have hnone : pkg.builds.get? st.cfi = none := List.get?_eq_none.2 (by omega)
    simp only [filterConfigsLoop, hst, hnone]
  | succ n ih =>
    intro c acc st hst hle
    rw [filterConfigsLoop]
    conv => rhs; rw [filterConfigsLoop]
    simp only [hst]
    cases hb : pkg.builds.get? st.cfi with
    | none => rfl
    | some cfg =>
      have hlt : st.cfi < pkg.builds.length := by
        obtain ⟨h, _⟩ := List.get?_eq_some.1 hb
        exact h
      dsimp only
      split
      · rfl
      · split
        · rfl
        · rfl
        · rename_i c' acc' hv
          obtain ⟨st', hst', hcfi⟩ := validate_cfi x heap c pkg filter acc c' acc' false st hst hv
          exact ih (c'.modify pkg.id (fun s => { s with cfi := s.cfi + 1 })) acc'
            { st' with cfi := st'.cfi + 1 } (Controller.get_modify_self c' pkg.id _ st' hst')
            (by simp only [hcfi]; omega)

theorem filterConfigsLoop_fuel_stable {σ : Type} (x : Ext) (heap : Map PkgId Package)
    (pkg : Package) (filter : Option (Filter σ)) (c : Controller) (acc : σ) (st : State)
    (hst : c.states.get pkg.id = some st) (b : Nat) (hb : pkg.builds.length - st.cfi ≤ b) :
    ∀ fuel, b ≤ fuel →
      filterConfigsLoop x heap pkg filter fuel c acc
        = filterConfigsLoop x heap pkg filter b c acc := by
  intro fuel hle
  induction fuel, hle using Nat.le_induction with
  | base => rfl
  | succ k hk ih =>
    rw [filterConfigsLoop_fuel_succ x heap pkg filter k c acc st hst (by omega), ih]

/-- C25: `filterConfigs` terminates. For a package with a record at index
`i0`, the loop calls `validate` at most `len(Builds) - i0` times whatever the
number of iterations it is allowed; it ends by its own condition, a return or a
panic within `len(Builds) - i0` iterations, so that any larger allowance gives
the result of `filterConfigs`; when `i0 ≥ len(Builds)` it returns at once with
nothing changed and no call of `validate`; and when it returns, the
configuration index of the package is not below `i0`. The filter reads the
index and cannot assign it. -/
theorem C25_filterConfigs_terminates {σ : Type} (x : Ext) (heap : Map PkgId Package)
    (c : Controller) (pkg : Package) (filter : Option (Filter σ)) (acc : σ) (st : State)
    (hst : c.states.get pkg.id = some st) :
    (∀ fuel, validateCalls x heap pkg filter fuel c acc ≤ pkg.builds.length - st.cfi) ∧
    (∀ fuel, pkg.builds.length - st.cfi ≤ fuel →
      filterConfigsLoop x heap pkg filter fuel c acc = filterConfigs x heap c pkg filter acc) ∧
    (pkg.builds.length ≤ st.cfi →
      filterConfigs x heap c pkg filter acc = .ok (c, acc) ∧
      ∀ fuel, validateCalls x heap pkg filter fuel c acc = 0) ∧
    (∀ c' acc', filterConfigs x heap c pkg filter acc = .ok (c', acc') →
      ∃ st', c'.states.get pkg.id = some st' ∧ st.cfi ≤ st'.cfi) := by
  have hfc : filterConfigs x heap c pkg filter acc
      = filterConfigsLoop x heap pkg filter (pkg.builds.length - st.cfi + 1) c acc := by
    simp only [filterConfigs, hst]
  have hstable := filterConfigsLoop_fuel_stable x heap pkg filter c acc st hst
    (pkg.builds.length - st.cfi) (le_refl _)
  refine ⟨fun fuel => validateCalls_le x heap pkg filter fuel c acc st hst, ?_, ?_, ?_⟩
  · intro fuel hle
    rw [hfc, hstable fuel hle, hstable _ (Nat.le_succ _)]
  · intro hge
    constructor
    · rw [hfc, hstable _ (Nat.le_succ _)]
      have h0 : pkg.builds.length - st.cfi = 0 := by omega
      rw [h0]
      simp only [filterConfigsLoop]
    · intro fuel
      have := validateCalls_le x heap pkg filter fuel c acc st hst
      omega
  · intro c' acc' h
    obtain ⟨f, rfl, hf⟩ := filterConfigs_touches x heap c pkg filter acc c' acc' h
    exact ⟨f st, Controller.get_modify_self c pkg.id f st hst, (hf st).2.2⟩

/-- C25, at a concrete input: the re-tag search on `example.com/dep/pkg`, which
has two configurations, from configuration 0. -/
theorem C25_filterConfigs_terminates_witness :
    (∀ fuel, validateCalls extRetag mRetag.heap depPkg (some (retagFilter extRetag depPkg))
        fuel mRetag.c (some []) ≤ depPkg.builds.length - 0) ∧
    (∀ fuel, depPkg.builds.length - 0 ≤ fuel →
      filterConfigsLoop extRetag mRetag.heap depPkg (some (retagFilter extRetag depPkg))
          fuel mRetag.c (some [])
        = filterConfigs extRetag mRetag.heap mRetag.c depPkg
            (some (retagFilter extRetag depPkg)) (some [])) ∧
    (depPkg.builds.length ≤ 0 →
      filterConfigs extRetag mRetag.heap mRetag.c depPkg
          (some (retagFilter extRetag depPkg)) (some []) = .ok (mRetag.c, some []) ∧
      ∀ fuel, validateCalls extRetag mRetag.heap depPkg (some (retagFilter extRetag depPkg))
        fuel mRetag.c (some []) = 0) ∧
    (∀ c' acc', filterConfigs extRetag mRetag.heap mRetag.c depPkg
        (some (retagFilter extRetag depPkg)) (some []) = .ok (c', acc') →
      ∃ st', c'.states.get depPkg.id = some st' ∧ 0 ≤ st'.cfi) :=
  C25_filterConfigs_terminates extRetag mRetag.heap mRetag.c depPkg
    (some (retagFilter extRetag depPkg)) (some []) ⟨psBrokeParent, 0, [], some 5⟩ (by rfl)

/-! ### The index of `pkg.Builds[state.cfi]` -/

theorem importerPanic_ne (x : Ext) (c : Controller) (pkg : Package) (path msg : String)
    (h : importerPanic x c pkg path = some msg) : msg ≠ "index out of range" := by
  unfold importerPanic at h
  split at h
  · cases h
  · split at h
    · cases h; decide
    · split at h
      · cases h; decide
      · split at h
        · cases h; decide
        · cases h

theorem findSome_importerPanic_ne (x : Ext) (c : Controller) (pkg : Package) (msg : String) :
    ∀ (reqs : List String), reqs.findSome? (importerPanic x c pkg) = some msg →
      msg ≠ "index out of range" := by
  intro reqs
  induction reqs with
  | nil => intro h; cases h
  | cons r rs ih =>
    intro h
    rw [List.findSome?_cons] at h
    split at h
    · rename_i b hb
      cases h
      exact importerPanic_ne x c pkg r _ hb
    · exact ih h

theorem typeCheck_inBounds (x : Ext) (c : Controller) (pkg : Package) (ign : Bool)
    (h : ∀ s, c.states.get pkg.id = some s → s.cfi < pkg.builds.length) :
    typeCheck x c pkg ign ≠ .error "index out of range" := by
  intro he
  unfold typeCheck at he
  split at he
  · simp at he
  · rename_i s hs
    rw [if_pos (h s hs)] at he
    dsimp only at he
    split at he
    · rename_i msg hm
      simp only [Except.error.injEq] at he
      exact findSome_importerPanic_ne x c pkg msg _ hm he
    · cases he

theorem parentRefers_inBounds (x : Ext) (pkg parent : Package) :
    ∀ (errs : List TypeError), parentRefers x pkg parent errs ≠ .error "index out of range" := by
  intro errs
  induction errs with
  | nil => intro h; cases h
  | cons e es ih =>
    intro h
    unfold parentRefers at h
    split at h
    · split at h
      · simp at h
      · split at h
        · simp at h
        · split at h
          · cases h
          · exact ih h
    · exact ih h

theorem validateParents_inBounds (B : PkgId → Nat) (x : Ext) (heap : Map PkgId Package)
    (c : Controller) (pkg : Package) (hc : CfiOk B c) (hh : HeapOk B heap) :
    ∀ (ps : List PkgId), validateParents x heap c pkg ps ≠ .error "index out of range" := by
  intro ps
  induction ps with
  | nil => intro h; cases h
  | cons p ps ih =>
    intro h
    unfold validateParents at h
    split at h
    · simp at h
    · rename_i parent hp
      split at h
      · rename_i msg hm
        simp only [Except.error.injEq] at h
        subst h
        exact typeCheck_inBounds x c parent false
          (fun s hs => by rw [hh p parent hp]; exact hc _ s hs) hm
      · split at h
        · rename_i msg hm
          simp only [Except.error.injEq] at h
          subst h
          exact parentRefers_inBounds x pkg parent _ hm
        · cases h
        · exact ih h

theorem CfiOk.modifyC (B : PkgId → Nat) (c : Controller) (id : PkgId) (f : State → State)
    (hf : ∀ s, (f s).cfi = s.cfi) (hc : CfiOk B c) : CfiOk B (c.modify id f) := by
  intro q s hs
  rw [Controller.get_modify] at hs
  split at hs
  · rename_i hq
    subst hq
    cases hg : c.states.get q with
    | none => rw [hg] at hs; cases hs
    | some s0 =>
      rw [hg] at hs
      simp only [Option.map_some', Option.some.injEq] at hs
      subst hs
      rw [hf]
      exact hc q s0 hg
  · exact hc q s hs

theorem feed_inBounds {σ : Type} (f : Filter σ) (hsafe : FilterInBounds f) (cfi : Nat) :
    ∀ (errs : List TypeError) (acc : σ),
      feed (some f) cfi acc errs ≠ .error "index out of range" := by
  intro errs
  induction errs with
  | nil => intro acc h; cases h
  | cons e es ih =>
    intro acc h
    simp only [feed] at h
    split at h
    · rename_i msg hm
      simp only [Except.error.injEq] at h
      exact hsafe _ _ _ _ hm h
    · exact ih _ h
    · cases h

theorem feed_inv {σ : Type} (f : Filter σ) (P : σ → Prop) (cfi : Nat)
    (hP : ∀ acc e acc' b, P acc → f acc cfi e = .ok (acc', b) → P acc') :
    ∀ (errs : List TypeError) (acc acc' : σ) (b : Bool), P acc →
      feed (some f) cfi acc errs = .ok (acc', b) → P acc' := by
  intro errs
  induction errs with
  | nil =>
    intro acc acc' b hacc h
    simp only [feed, Except.ok.injEq, Prod.mk.injEq] at h
    rw [← h.1]
    exact hacc
  | cons e es ih =>
    intro acc acc' b hacc h
    simp only [feed] at h
    split at h
    · cases h
    · rename_i a₁ hm
      exact ih _ _ _ (hP _ _ _ _ hacc hm) h
    · rename_i a₁ hm
      simp only [Except.ok.injEq, Prod.mk.injEq] at h
      rw [← h.1]
      exact hP _ _ _ _ hacc hm

theorem validate_inBounds {σ : Type} (B : PkgId → Nat) (x : Ext) (heap : Map PkgId Package)
    (c : Controller) (pkg : Package) (f : Filter σ) (acc : σ)
    (hsafe : FilterInBounds f) (hc : CfiOk B c) (hh : HeapOk B heap)
    (hpkg : pkg.builds.length = B pkg.id) :
    validate x heap c pkg (some f) acc ≠ .error "index out of range" := by
  intro h
  unfold validate at h
  split at h
  · simp at h
  · rename_i st hst
    split at h
    · rename_i msg hm
      simp only [Except.error.injEq] at h
      subst h
      exact typeCheck_inBounds x c pkg false (fun s hs => by rw [hpkg]; exact hc _ s hs) hm
    · split at h
      · rename_i msg hm
        simp only [Except.error.injEq] at h
        subst h
        exact feed_inBounds f hsafe _ _ _ hm
      · cases h
      · dsimp only at h
        split at h
        · rename_i msg hm
          simp only [Except.error.injEq] at h
          subst h
          refine validateParents_inBounds B x heap _ pkg ?_ hh _ hm
          exact CfiOk.modifyC B c pkg.id _ (fun _ => rfl) hc
        · cases h

theorem validate_inv {σ : Type} (x : Ext) (heap : Map PkgId Package)
    (c : Controller) (pkg : Package) (f : Filter σ) (P : σ → Prop) (st : State)
    (hst : c.states.get pkg.id = some st)
    (hP : ∀ acc e acc' b, P acc → f acc st.cfi e = .ok (acc', b) → P acc')
    (acc : σ) (c' : Controller) (acc' : σ) (b : Bool) (hacc : P acc)
    (h : validate x heap c pkg (some f) acc = .ok (c', acc', b)) : P acc' := by
  unfold validate at h
  rw [hst] at h
  dsimp only at h
  split at h
  · cases h
  · split at h
    · cases h
    · rename_i a₁ hfeed
      simp only [Except.ok.injEq, Prod.mk.injEq] at h
      rw [← h.2.1]
      exact feed_inv f P st.cfi hP _ _ _ _ hacc hfeed
    · rename_i a₁ hfeed
      split at h
      · cases h
      · simp only [Except.ok.injEq, Prod.mk.injEq] at h
        rw [← h.2.1]
        exact feed_inv f P st.cfi hP _ _ _ _ hacc hfeed

theorem CfiOkBut.of_touchesC {B : PkgId → Nat} {id : PkgId} {c c' : Controller}
    (ht : Touches id c c') (hc : CfiOkBut B id c) : CfiOkBut B id c' := by
  intro q s hs hq
  rw [ht.get_of_ne hq] at hs
  exact hc q s hs hq

theorem CfiOk.of_but {B : PkgId → Nat} {id : PkgId} {c : Controller}
    (hc : CfiOkBut B id c) (hself : ∀ s, c.states.get id = some s → s.cfi < B id) :
    CfiOk B c := by
  intro q s hs
  by_cases hq : q = id
  · subst hq; exact hself s hs
  · exact hc q s hs hq

theorem CfiOk.but {B : PkgId → Nat} {c : Controller} (hc : CfiOk B c) (id : PkgId) :
    CfiOkBut B id c := fun q s hs _ => hc q s hs

theorem filterConfigsLoop_inBounds {σ : Type} (B : PkgId → Nat) (x : Ext)
    (heap : Map PkgId Package) (pkg : Package) (f : Filter σ) (P : σ → Prop)
    (hsafe : FilterInBounds f)
    (hP : ∀ cfi, cfi < pkg.builds.length →
      ∀ acc e acc' b, P acc → f acc cfi e = .ok (acc', b) → P acc')
    (hh : HeapOk B heap) (hpkg : pkg.builds.length = B pkg.id) :
    ∀ (fuel : Nat) (c : Controller) (acc : σ), CfiOkBut B pkg.id c → P acc →
      filterConfigsLoop x heap pkg (some f) fuel c acc ≠ .error "index out of range" ∧
      ∀ c' acc', filterConfigsLoop x heap pkg (some f) fuel c acc = .ok (c', acc') →
        CfiOkBut B pkg.id c' ∧ P acc' := by
  intro fuel
  induction fuel with
  | zero =>
    intro c acc hc hacc
    refine ⟨by simp [filterConfigsLoop], ?_⟩
    intro c' acc' h
    simp only [filterConfigsLoop, Except.ok.injEq, Prod.mk.injEq] at h
    rw [← h.1, ← h.2]
    exact ⟨hc, hacc⟩
  | succ n ih =>
    intro c acc hc hacc
    unfold filterConfigsLoop
    cases hst : c.states.get pkg.id with
    | none => simp
    | some st =>
      dsimp only
      cases hb : pkg.builds.get? st.cfi with
      | none =>
        dsimp only
        refine ⟨by simp, ?_⟩
        intro c' acc' h
        simp only [Except.ok.injEq, Prod.mk.injEq] at h
        rw [← h.1, ← h.2]
        exact ⟨hc, hacc⟩
      | some cfg =>
        have hlt : st.cfi < pkg.builds.length := (List.get?_eq_some.1 hb).1
        have hfull : CfiOk B c := CfiOk.of_but hc (fun s hs => by
          rw [hst] at hs
          cases hs
          rw [← hpkg]
          exact hlt)
        dsimp only
        split
        · simp
        · cases hv : validate x heap c pkg (some f) acc with
          | error msg =>
            dsimp only
            refine ⟨?_, by intro c' acc' h; cases h⟩
            intro h
            simp only [Except.error.injEq] at h
            subst h
            exact validate_inBounds B x heap c pkg f acc hsafe hfull hh hpkg hv
          | ok r =>
            obtain ⟨c₁, a₁, b⟩ := r
            have ha₁ : P a₁ := validate_inv x heap c pkg f P st hst (hP st.cfi hlt) acc c₁ a₁ b
              hacc hv
            have hc₁ : CfiOkBut B pkg.id c₁ :=
              CfiOkBut.of_touchesC (validate_touches x heap c pkg (some f) acc c₁ a₁ b hv) hc
            cases b with
            | true =>
              dsimp only
              refine ⟨by simp, ?_⟩
              intro c' acc' h
              simp only [Except.ok.injEq, Prod.mk.injEq] at h
              rw [← h.1, ← h.2]
              exact ⟨hc₁, ha₁⟩
            | false =>
              dsimp only
              exact ih _ a₁ (fun q s hs hq => by
                rw [Controller.get_modify_of_ne c₁ _ hq] at hs
                exact hc₁ q s hs hq) ha₁

theorem badImportTarget_ne (x : Ext) (pkg : Package) (e : TypeError) (pn msg : String)
    (h : badImportTarget x pkg e pn = .error msg) : msg ≠ "index out of range" := by
  unfold badImportTarget at h
  split at h
  · simp only [Except.error.injEq] at h
    subst h; decide
  · split at h
    · cases h
    · split at h
      · cases h
      · simp only [Except.error.injEq] at h
        subst h; decide

theorem retagFilter_inBounds (x : Ext) (pkg : Package) : FilterInBounds (retagFilter x pkg) := by
  intro acc cfi e msg h
  unfold retagFilter at h
  generalize (if 1 < cfi then (some [] : Option (List (Option PkgId))) else acc) = imports1 at h
  cases hr : e.reason with
  | badImportName pn nm =>
    cases imports1 with
    | none =>
      simp only [hr] at h
      split at h <;> cases h
    | some l =>
      simp only [hr] at h
      split at h
      · rename_i m' hm
        simp only [Except.error.injEq] at h
        subst h
        exact badImportTarget_ne x pkg e _ _ hm
      · cases h
  | badName nm =>
    simp only [hr] at h
    split at h <;> cases h
  | other raw =>
    simp only [hr] at h
    split at h <;> cases h

theorem exportFilter_inBounds (x : Ext) (pkg : Package) :
    FilterInBounds (exportFilter x pkg) := by
  intro acc cfi e msg h
  unfold exportFilter at h
  generalize (if acc.2 < cfi ∧ acc.1.isNone then
      ((some [], cfi) : Option FileImportEdits × Nat) else acc) = acc1 at h
  obtain ⟨ed1, idx1⟩ := acc1
  cases hr : e.reason with
  | badImportName pn nm =>
    cases ed1 with
    | none =>
      simp only [hr] at h
      split at h <;> cases h
    | some ed =>
      simp only [hr] at h
      split at h
      · simp only [Except.error.injEq] at h
        subst h; decide
      · split at h
        · cases h
        · split at h <;> cases h
  | badName nm =>
    simp only [hr] at h
    split at h <;> cases h
  | other raw =>
    simp only [hr] at h
    split at h <;> cases h

theorem exportFilter_idx (x : Ext) (pkg : Package) (n cfi : Nat) (hcfi : cfi < n)
    (acc : Option FileImportEdits × Nat) (e : TypeError)
    (acc' : Option FileImportEdits × Nat) (b : Bool) (hacc : acc.2 < n)
    (h : exportFilter x pkg acc cfi e = .ok (acc', b)) : acc'.2 < n := by
  have h1 : (if acc.2 < cfi ∧ acc.1.isNone then
      ((some [], cfi) : Option FileImportEdits × Nat) else acc).2 < n := by
    split
    · exact hcfi
    · exact hacc
  unfold exportFilter at h
  generalize (if acc.2 < cfi ∧ acc.1.isNone then
      ((some [], cfi) : Option FileImportEdits × Nat) else acc) = acc1 at h h1
  obtain ⟨ed1, idx1⟩ := acc1
  have hrest : ∀ (ed0 : Option FileImportEdits),
      (if e.soft = false ∧ idx1 = cfi then
        (Except.ok ((none, idx1), false) : Except String ((Option FileImportEdits × Nat) × Bool))
      else .ok ((ed0, idx1), e.soft)) = .ok (acc', b) → acc'.2 < n := by
    intro ed0 hh
    split at hh
    · simp only [Except.ok.injEq, Prod.mk.injEq] at hh
      rw [← hh.1]; exact h1
    · simp only [Except.ok.injEq, Prod.mk.injEq] at hh
      rw [← hh.1]; exact h1
  cases hr : e.reason with
  | badImportName pn nm =>
    cases ed1 with
    | none =>
      simp only [hr] at h
      exact hrest _ h
    | some ed =>
      simp only [hr] at h
      split at h
      · cases h
      · split at h
        · simp only [Except.ok.injEq, Prod.mk.injEq] at h
          rw [← h.1]; exact h1
        · exact hrest _ h
  | badName nm =>
    simp only [hr] at h
    exact hrest _ h
  | other raw =>
    simp only [hr] at h
    exact hrest _ h

theorem filterConfigs_inBounds {σ : Type} (B : PkgId → Nat) (x : Ext)
    (heap : Map PkgId Package) (pkg : Package) (f : Filter σ) (P : σ → Prop)
    (hsafe : FilterInBounds f)
    (hP : ∀ cfi, cfi < pkg.builds.length →
      ∀ acc e acc' b, P acc → f acc cfi e = .ok (acc', b) → P acc')
    (hh : HeapOk B heap) (hpkg : pkg.builds.length = B pkg.id)
    (c : Controller) (acc : σ) (hc : CfiOkBut B pkg.id c) (hacc : P acc) :
    filterConfigs x heap c pkg (some f) acc ≠ .error "index out of range" ∧
    ∀ c' acc', filterConfigs x heap c pkg (some f) acc = .ok (c', acc') →
      CfiOkBut B pkg.id c' ∧ P acc' := by
  unfold filterConfigs
  split
  · exact ⟨by simp, by intro c' acc' h; cases h⟩
  · exact filterConfigsLoop_inBounds B x heap pkg f P hsafe hP hh hpkg _ c acc hc hacc

theorem CfiOk.of_states {B : PkgId → Nat} {c c' : Controller} (h : c'.states = c.states)
    (hc : CfiOk B c) : CfiOk B c' := by
  intro q s hs
  rw [h] at hs
  exact hc q s hs

theorem CfiOk.setPsC {B : PkgId → Nat} {c : Controller} (hc : CfiOk B c) (id : PkgId)
    (p : PortState) : CfiOk B (c.setPs id p) :=
  CfiOk.modifyC B c id _ (fun _ => rfl) hc

theorem CfiOk.setCfiC {B : PkgId → Nat} {c : Controller} {id : PkgId} (hc : CfiOkBut B id c)
    (n : Nat) (hn : n < B id) : CfiOk B (c.setCfi id n) := by
  intro q s hs
  rw [Controller.setCfi, Controller.get_modify] at hs
  split at hs
  · rename_i hq
    subst hq
    cases hg : c.states.get q with
    | none => rw [hg] at hs; cases hs
    | some s0 =>
      rw [hg] at hs
      simp only [Option.map_some', Option.some.injEq] at hs
      subst hs
      exact hn
  · rename_i hq
    exact hc q s hs hq

theorem CfiOk.of_st {B : PkgId → Nat} {id : PkgId} {c : Controller} (hc : CfiOkBut B id c)
    (hself : (c.st id).cfi < B id) : CfiOk B c :=
  CfiOk.of_but hc (fun s hs => by rw [← Controller.st_of_get _ _ _ hs]; exact hself)

theorem portExport_keeps (B : PkgId → Nat) (x : Ext) (m : M) (pkg : Package)
    (hc : CfiOk B m.c) (hh : HeapOk B m.heap) (hpkg : pkg.builds.length = B pkg.id) :
    KeepsBounds B m.heap (portExport x m pkg) := by
  unfold portExport
  cases hst : m.c.states.get pkg.id with
  | none =>
    have : filterConfigs x m.heap m.c pkg (some (exportFilter x pkg))
        (some [], (m.c.st pkg.id).cfi) = .error "nil pointer dereference" := by
      simp [filterConfigs, hst]
    rw [this]
    exact ⟨by simp, by intro m' h; cases h⟩
  | some st =>
    have hidx : (m.c.st pkg.id).cfi < pkg.builds.length := by
      rw [Controller.st_of_get _ _ _ hst, hpkg]
      exact hc _ _ hst
    obtain ⟨hne, hok⟩ := filterConfigs_inBounds B x m.heap pkg (exportFilter x pkg)
      (fun acc => acc.2 < pkg.builds.length) (exportFilter_inBounds x pkg)
      (fun cfi hcfi acc e acc' b hacc h =>
        exportFilter_idx x pkg _ cfi hcfi acc e acc' b hacc h)
      hh hpkg m.c (some [], (m.c.st pkg.id).cfi) (hc.but pkg.id) hidx
    cases hf : filterConfigs x m.heap m.c pkg (some (exportFilter x pkg))
        (some [], (m.c.st pkg.id).cfi) with
    | error msg =>
      dsimp only
      refine ⟨?_, by intro m' h; cases h⟩
      intro h
      simp only [Except.error.injEq] at h
      subst h
      exact hne hf
    | ok r =>
      obtain ⟨c1, fiEdits, expIdx⟩ := r
      obtain ⟨hbut, hexp⟩ := hok c1 (fiEdits, expIdx) hf
      dsimp only at hexp ⊢
      split
      · rename_i hlt
        refine ⟨by simp, ?_⟩
        intro m' h
        simp only [Except.ok.injEq, Prod.mk.injEq] at h
        rw [← h.1]
        exact ⟨(CfiOk.of_st hbut (by rw [← hpkg]; exact hlt)).setPsC _ _, rfl⟩
      · split
        · exact ⟨by simp, by intro m' h; simp at h⟩
        · split
          · exact ⟨by simp, by intro m' h; simp at h⟩
          · split
            · refine ⟨by simp, ?_⟩
              intro m' h
              simp only [Except.ok.injEq, Prod.mk.injEq] at h
              rw [← h.1]
              exact ⟨(CfiOk.setCfiC hbut expIdx (by rw [← hpkg]; exact hexp)).setPsC _ _, rfl⟩
            · exact ⟨by simp, by intro m' h; simp at h⟩

theorem promote_keeps (B : PkgId → Nat) (R : Ranks) (l : List (Option PkgId)) :
    ∀ (c : Controller) (can : Bool), CfiOk B c →
      promote R c can l ≠ .error "index out of range" ∧
      ∀ c' b, promote R c can l = .ok (c', b) → CfiOk B c' := by
  induction l with
  | nil =>
    intro c can hc
    refine ⟨by simp [promote], ?_⟩
    intro c' b h
    simp only [promote, Except.ok.injEq, Prod.mk.injEq] at h
    rw [← h.1]; exact hc
  | cons k ks ih =>
    intro c can hc
    unfold promote
    split
    · exact ⟨by simp, by intro c' b h; cases h⟩
    · split
      · exact ⟨by simp, by intro c' b h; cases h⟩
      · split
        · split
          · exact ih _ true (hc.setPsC _ _)
          · exact ih c true hc
        · split
          · exact ⟨by simp, by intro c' b h; cases h⟩
          · exact ih c can hc

theorem recheck_ne (x : Ext) (pkg : Package) :
    ∀ (errs : List TypeError) (imports : Option (List (Option PkgId))),
      recheck x pkg imports errs ≠ .error "index out of range" := by
  intro errs
  induction errs with
  | nil => intro imports h; cases h
  | cons e es ih =>
    intro imports h
    unfold recheck at h
    split at h
    · split at h
      · rename_i msg hm
        simp only [Except.error.injEq] at h
        subst h
        exact badImportTarget_ne x pkg e _ _ hm rfl
      · split at h
        · simp at h
        · exact ih _ h
    · simp at h

theorem portDeps_keeps (B : PkgId → Nat) (R : Ranks) (x : Ext) (m : M) (pkg : Package)
    (imports : Option (List (Option PkgId)))
    (hc : CfiOk B m.c) (hh : HeapOk B m.heap) (hpkg : pkg.builds.length = B pkg.id) :
    KeepsBounds B m.heap (portDeps R x m pkg imports) := by
  unfold portDeps
  dsimp only
  generalize hre : (if (m.c.st pkg.id).ps = psPortingDependencies then
      recheck x pkg imports (m.c.st pkg.id).errs
    else if (imports.getD []).length = 0 then
      (.error "advancing to dependency porting but no bad dependencies found" :
        Except String (Option (List (Option PkgId))))
    else .ok imports) = rechecked
  cases rechecked with
  | error msg =>
    dsimp only
    refine ⟨?_, by intro m' h; cases h⟩
    intro h
    simp only [Except.error.injEq] at h
    subst h
    split at hre
    · exact recheck_ne x pkg _ _ hre
    · split at hre
      · simp at hre
      · cases hre
  | ok imports1 =>
    dsimp only
    split
    · split
      · refine ⟨by simp, ?_⟩
        intro m' h
        simp only [Except.ok.injEq, Prod.mk.injEq] at h
        rw [← h.1]
        exact ⟨hc.setPsC _ _, rfl⟩
      · refine ⟨by simp, ?_⟩
        intro m' h
        simp only [Except.ok.injEq, Prod.mk.injEq] at h
        rw [← h.1]
        exact ⟨hc.setPsC _ _, rfl⟩
    · obtain ⟨hne, hok⟩ := promote_keeps B R (imports1.getD []) m.c false hc
      cases hp : promote R m.c false (imports1.getD []) with
      | error msg =>
        dsimp only
        refine ⟨?_, by intro m' h; cases h⟩
        intro h
        simp only [Except.error.injEq] at h
        subst h
        exact hne hp
      | ok r =>
        obtain ⟨c1, can⟩ := r
        have hc1 := hok c1 can hp
        dsimp only
        split
        · refine ⟨by simp, ?_⟩
          intro m' h
          simp only [Except.ok.injEq, Prod.mk.injEq] at h
          rw [← h.1]
          exact ⟨hc1.setPsC _ _, rfl⟩
        · exact portExport_keeps B x { m with c := c1 } pkg hc1 hh hpkg

theorem portRetag_keeps (B : PkgId → Nat) (R : Ranks) (x : Ext) (m : M) (pkg : Package)
    (needTag : Bool) (imports : List (Option PkgId))
    (hc : CfiOk B m.c) (hh : HeapOk B m.heap) (hpkg : pkg.builds.length = B pkg.id) :
    KeepsBounds B m.heap (portRetag R x m pkg needTag imports) := by
  unfold portRetag
  split
  · have hbut : CfiOkBut B pkg.id (m.c.setCfi pkg.id 1) := by
      intro q s hs hq
      rw [Controller.setCfi, Controller.get_modify_of_ne m.c _ hq] at hs
      exact hc q s hs
    obtain ⟨hne, hok⟩ := filterConfigs_inBounds B x m.heap pkg (retagFilter x pkg)
      (fun _ => True) (retagFilter_inBounds x pkg) (fun _ _ _ _ _ _ _ _ => trivial)
      hh hpkg (m.c.setCfi pkg.id 1) (some imports) hbut trivial
    cases hf : filterConfigs x m.heap (m.c.setCfi pkg.id 1) pkg (some (retagFilter x pkg))
        (some imports) with
    | error msg =>
      dsimp only
      refine ⟨?_, by intro m' h; cases h⟩
      intro h
      simp only [Except.error.injEq] at h
      subst h
      exact hne hf
    | ok r =>
      obtain ⟨c1, imports1⟩ := r
      obtain ⟨hbut1, _⟩ := hok c1 imports1 hf
      dsimp only
      split
      · exact ⟨by simp, by intro m' h; simp at h⟩
      · rename_i hlt
        have hc1 : CfiOk B c1 := CfiOk.of_st hbut1 (by rw [← hpkg]; omega)
        split
        · refine ⟨by simp, ?_⟩
          intro m' h
          simp only [Except.ok.injEq, Prod.mk.injEq] at h
          rw [← h.1]
          exact ⟨hc1.setPsC _ _, rfl⟩
        · exact portDeps_keeps B R x { m with c := c1 } pkg imports1 hc1 hh hpkg
  · exact portDeps_keeps B R x m pkg (some imports) hc hh hpkg

theorem moduleDecision_states (x : Ext) (c : Controller) (pkg : Package) :
    (moduleDecision x c pkg).1.states = c.states := by
  unfold moduleDecision
  dsimp only
  split
  · split
    · rfl
    · split <;> rfl
  · rfl

theorem portModule_keeps (B : PkgId → Nat) (R : Ranks) (x : Ext) (m : M) (pkg : Package)
    (needTag : Bool) (imports : List (Option PkgId))
    (hc : CfiOk B m.c) (hh : HeapOk B m.heap) (hpkg : pkg.builds.length = B pkg.id) :
    KeepsBounds B m.heap (portModule R x m pkg needTag imports) := by
  unfold portModule
  split
  · dsimp only
    have hst := moduleDecision_states x m.c pkg
    generalize moduleDecision x m.c pkg = d at hst
    obtain ⟨c1, version, updated, merr⟩ := d
    dsimp only at hst
    have hc1 : CfiOk B c1 := CfiOk.of_states hst hc
    cases merr with
    | some err => exact ⟨by simp, by intro m' h; simp at h⟩
    | none =>
      dsimp only
      split
      · exact ⟨by simp, by intro m' h; simp at h⟩
      · have hc2 : CfiOk B { c1 with treeIsDirty := updated } :=
          CfiOk.of_states rfl hc1
        split
        · refine ⟨by simp, ?_⟩
          intro m' h
          simp only [Except.ok.injEq, Prod.mk.injEq] at h
          rw [← h.1]
          exact ⟨hc2.setPsC _ _, rfl⟩
        · split
          · refine ⟨by simp, ?_⟩
            intro m' h
            simp only [Except.ok.injEq, Prod.mk.injEq] at h
            rw [← h.1]
            exact ⟨hc2.setPsC _ _, rfl⟩
          · exact portRetag_keeps B R x _ pkg needTag imports hc2 hh hpkg
  · exact portRetag_keeps B R x m pkg needTag imports hc hh hpkg

theorem classify_ne (x : Ext) (pkg : Package) :
    ∀ (errs : List TypeError) (en : Entry),
      classify x pkg en errs ≠ .error "index out of range" := by
  intro errs
  induction errs with
  | nil => intro en h; cases h
  | cons e es ih =>
    intro en h
    unfold classify at h
    split at h
    · split at h
      · rename_i msg hm
        simp only [Except.error.injEq] at h
        subst h
        exact badImportTarget_ne x pkg e _ _ hm rfl
      · exact ih _ h
    · exact ih _ h
    · exact ih _ h

theorem portBuilt_keeps (B : PkgId → Nat) (x : Ext) (m : M) (pkg : Package) (needTag : Bool)
    (hc : CfiOk B m.c) : EntryKeepsBounds B m.heap (portBuilt x m pkg needTag) := by
  unfold portBuilt
  split
  · cases hcl : classify x pkg ⟨[], needTag, []⟩ (m.c.st pkg.id).errs with
    | error msg =>
      dsimp only
      refine ⟨?_, ⟨(by intro m' h; cases h), (by intro m' nt im h; cases h)⟩⟩
      intro h
      simp only [Except.error.injEq] at h
      subst h
      exact classify_ne x pkg _ _ hcl
    | ok en =>
      dsimp only
      split
      · refine ⟨by simp, ?_, by intro m' nt im h; simp at h⟩
        intro m' h
        simp only [Except.ok.injEq, EntryOut.done.injEq] at h
        rw [← h.1]
        exact ⟨hc.setPsC _ _, rfl⟩
      · split
        · exact ⟨by simp, by intro m' h; simp at h, by intro m' nt im h; simp at h⟩
        · refine ⟨by simp, by intro m' h; simp at h, ?_⟩
          intro m' nt im h
          simp only [Except.ok.injEq, EntryOut.proceed.injEq] at h
          rw [← h.1]
          exact ⟨hc, rfl⟩
  · refine ⟨by simp, by intro m' h; simp at h, ?_⟩
    intro m' nt im h
    simp only [Except.ok.injEq, EntryOut.proceed.injEq] at h
    rw [← h.1]
    exact ⟨hc, rfl⟩

theorem portEntry_keeps (B : PkgId → Nat) (x : Ext) (m : M) (pkg : Package)
    (hc : CfiOk B m.c) (hpkg : pkg.builds.length = B pkg.id) :
    EntryKeepsBounds B m.heap (portEntry x m pkg) := by
  unfold portEntry
  split
  · exact ⟨by simp, ⟨(by intro m' h; cases h), (by intro m' nt im h; cases h)⟩⟩
  · split
    · exact ⟨by simp, ⟨(by intro m' h; cases h), (by intro m' nt im h; cases h)⟩⟩
    · dsimp only
      split
      · cases htc : typeCheck x m.c pkg false with
        | error msg =>
          dsimp only
          refine ⟨?_, ⟨(by intro m' h; cases h), (by intro m' nt im h; cases h)⟩⟩
          intro h
          simp only [Except.error.injEq] at h
          subst h
          exact typeCheck_inBounds x m.c pkg false
            (fun s hs => by rw [hpkg]; exact hc _ s hs) htc
        | ok r =>
          obtain ⟨typed, errs⟩ := r
          dsimp only
          exact portBuilt_keeps B x _ pkg _ (CfiOk.modifyC B m.c pkg.id _ (fun _ => rfl) hc)
      · exact portBuilt_keeps B x m pkg _ hc

theorem port_keeps (B : PkgId → Nat) (R : Ranks) (x : Ext) (m : M) (pkg : Package)
    (hc : CfiOk B m.c) (hh : HeapOk B m.heap) (hpkg : pkg.builds.length = B pkg.id) :
    KeepsBounds B m.heap (port R x m pkg) := by
  unfold port
  obtain ⟨hne, hdone, hproc⟩ := portEntry_keeps B x m pkg hc hpkg
  cases he : portEntry x m pkg with
  | error msg =>
    dsimp only
    refine ⟨?_, by intro m' h; cases h⟩
    intro h
    simp only [Except.error.injEq] at h
    subst h
    exact hne he
  | ok out =>
    cases out with
    | done m1 err =>
      dsimp only
      refine ⟨by simp, ?_⟩
      intro m' h
      simp only [Except.ok.injEq, Prod.mk.injEq] at h
      obtain ⟨h1, h2⟩ := h
      subst h1 h2
      exact hdone m1 he
    | proceed m1 needTag imports =>
      dsimp only
      obtain ⟨hc1, hh1⟩ := hproc m1 needTag imports he
      have := portModule_keeps B R x m1 pkg needTag imports hc1 (by rw [hh1]; exact hh) hpkg
      rw [hh1] at this
      exact this

theorem HeapOk.setH {B : PkgId → Nat} {heap : Map PkgId Package} (hh : HeapOk B heap)
    (k : PkgId) (p : Package) (hp : p.builds.length = B p.id) : HeapOk B (heap.set k p) := by
  intro k' p' h
  by_cases hk : k' = k
  · subst hk
    rw [Map.get_set_self] at h
    cases h
    exact hp
  · rw [Map.get_set_of_ne _ _ hk] at h
    exact hh k' p' h

theorem afterPort_keeps (B : PkgId → Nat) (R : Ranks) (m : M) (pkg : Package) (valid : Bool)
    (hc : CfiOk B m.c) (hh : HeapOk B m.heap) (hpkg : pkg.builds.length = B pkg.id) :
    CfiOk B (afterPort R m pkg valid).1.c ∧ HeapOk B (afterPort R m pkg valid).1.heap := by
  refine ⟨CfiOk.of_states (afterPort_states R m pkg valid) hc, ?_⟩
  unfold afterPort
  dsimp only
  split
  · exact hh.setH _ _ hpkg
  · split
    · exact hh.setH _ _ hpkg
    · exact hh

theorem portLayer_keeps (B : PkgId → Nat) (R : Ranks) (x : Ext) (ids : List PkgId) :
    ∀ (m : M) (valid : Bool), CfiOk B m.c → HeapOk B m.heap →
      SweepKeepsBounds B (portLayer R x m valid ids) := by
  induction ids with
  | nil =>
    intro m valid hc hh
    refine ⟨by simp [portLayer], ?_, by intro m' h; simp [portLayer] at h⟩
    intro m' v h
    simp only [portLayer, Except.ok.injEq, Sweep.goOn.injEq] at h
    rw [← h.1]
    exact ⟨hc, hh⟩
  | cons id ids ih =>
    intro m valid hc hh
    unfold portLayer
    cases hg : m.heap.get id with
    | none => exact ⟨by simp, (by intro m' v h; cases h), (by intro m' h; cases h)⟩
    | some pkg =>
      have hpkg := hh id pkg hg
      dsimp only
      split
      · exact ⟨by simp, (by intro m' v h; cases h), (by intro m' h; cases h)⟩
      · split
        · exact ih m valid hc hh
        · obtain ⟨hne, hok⟩ := port_keeps B R x m pkg hc hh hpkg
          cases hp : port R x m pkg with
          | error msg =>
            dsimp only
            refine ⟨?_, (by intro m' v h; cases h), (by intro m' h; cases h)⟩
            intro h
            simp only [Except.error.injEq] at h
            subst h
            exact hne hp
          | ok r =>
            obtain ⟨m1, err⟩ := r
            cases err with
            | some e =>
              exact ⟨by simp, (by intro m' v h; simp at h), (by intro m' h; simp at h)⟩
            | none =>
              obtain ⟨hc1, hh1⟩ := hok m1 hp
              obtain ⟨hc2, hh2⟩ := afterPort_keeps B R m1 pkg valid hc1
                (by rw [hh1]; exact hh) hpkg
              dsimp only
              split
              · refine ⟨by simp, (by intro m' v h; simp at h), ?_⟩
                intro m' h
                simp only [Except.ok.injEq, Sweep.ret.injEq] at h
                rw [← h.1]
                exact ⟨hc2, hh2⟩
              · exact ih _ _ hc2 hh2

theorem portLayers_keeps (B : PkgId → Nat) (R : Ranks) (x : Ext) (layers : List (List PkgId)) :
    ∀ (m : M) (valid : Bool), CfiOk B m.c → HeapOk B m.heap →
      SweepKeepsBounds B (portLayers R x m valid layers) := by
  induction layers with
  | nil =>
    intro m valid hc hh
    refine ⟨by simp [portLayers], ?_, by intro m' h; simp [portLayers] at h⟩
    intro m' v h
    simp only [portLayers, Except.ok.injEq, Sweep.goOn.injEq] at h
    rw [← h.1]
    exact ⟨hc, hh⟩
  | cons layer layers ih =>
    intro m valid hc hh
    unfold portLayers
    obtain ⟨hne, hgo, hret⟩ := portLayer_keeps B R x layer m valid hc hh
    cases hp : portLayer R x m valid layer with
    | error msg =>
      dsimp only
      refine ⟨?_, (by intro m' v h; cases h), (by intro m' h; cases h)⟩
      intro h
      simp only [Except.error.injEq] at h
      subst h
      exact hne hp
    | ok sw =>
      cases sw with
      | ret m1 err =>
        dsimp only
        refine ⟨by simp, (by intro m' v h; simp at h), ?_⟩
        intro m' h
        simp only [Except.ok.injEq, Sweep.ret.injEq] at h
        obtain ⟨h1, h2⟩ := h
        subst h1 h2
        exact hret m1 hp
      | goOn m1 valid1 =>
        obtain ⟨hc1, hh1⟩ := hgo m1 valid1 hp
        exact ih m1 valid1 hc1 hh1

theorem portAll_keeps (B : PkgId → Nat) (R : Ranks) (x : Ext) (m : M)
    (hc : CfiOk B m.c) (hh : HeapOk B m.heap) : StepKeepsBounds B (portAll R x m) := by
  unfold portAll
  split
  · exact ⟨by simp, by intro m' h; cases h⟩
  · rename_i tree _
    obtain ⟨hne, hgo, hret⟩ := portLayers_keeps B R x tree.reverse m true hc hh
    cases hp : portLayers R x m true tree.reverse with
    | error msg =>
      dsimp only
      refine ⟨?_, by intro m' h; cases h⟩
      intro h
      simp only [Except.error.injEq] at h
      subst h
      exact hne hp
    | ok sw =>
      cases sw with
      | ret m1 err =>
        dsimp only
        refine ⟨by simp, ?_⟩
        intro m' h
        simp only [Except.ok.injEq, Prod.mk.injEq] at h
        obtain ⟨h1, h2⟩ := h
        subst h1 h2
        exact hret m1 hp
      | goOn m1 valid =>
        obtain ⟨hc1, hh1⟩ := hgo m1 valid hp
        dsimp only
        split
        · refine ⟨by simp, ?_⟩
          intro m' h
          simp only [Except.ok.injEq, Prod.mk.injEq] at h
          rw [← h.1]
          exact ⟨CfiOk.of_states rfl hc1, hh1⟩
        · refine ⟨by simp, ?_⟩
          intro m' h
          simp only [Except.ok.injEq, Prod.mk.injEq] at h
          rw [← h.1]
          exact ⟨hc1, hh1⟩

theorem CfiOk.st_lt {B : PkgId → Nat} {c : Controller} (hc : CfiOk B c) (id : PkgId)
    (hB : 1 ≤ B id) : (c.st id).cfi < B id := by
  unfold Controller.st
  cases hg : c.states.get id with
  | none => exact hB
  | some s => exact hc id s hg

theorem loadPackage_rest_keeps (B : PkgId → Nat) (x : Ext) (c1 : Controller) (pkg : Package)
    (hc1 : CfiOk B c1) (hpkg : pkg.builds.length = B pkg.id) (hB : 1 ≤ B pkg.id)
    (c2 : Controller)
    (hc2e : c2 = if (c1.st pkg.id).ps = psUnknown ∧ pkg.included then c1.setPs pkg.id psBuilt
      else c1)
    (r : Except String Controller)
    (hr : r = if pkg.dirty ∨ pkg.depDirty then
      match pkg.builds.get? (c2.st pkg.id).cfi with
      | none => .error "index out of range"
      | some b =>
        if b.stx.length = 0 then
          .ok (c2.modify pkg.id (fun s => { s with types := some (x.emptyTypes pkg.id) }))
        else
          match typeCheck x c2 pkg (!pkg.included || x.isStdlibPkg pkg) with
          | .error msg => .error msg
          | .ok (typed, errs) =>
            .ok (c2.modify pkg.id (fun s => { s with types := some typed, errs := errs }))
      else .ok c2) :
    r ≠ .error "index out of range" ∧ ∀ c', r = .ok c' → CfiOk B c' := by
  have hc2 : CfiOk B c2 := by
    subst hc2e
    split
    · exact hc1.setPsC _ _
    · exact hc1
  subst hr
  split
  · have hlt : (c2.st pkg.id).cfi < pkg.builds.length := by
      rw [hpkg]; exact hc2.st_lt _ hB
    cases hb : pkg.builds.get? (c2.st pkg.id).cfi with
    | none =>
      have := List.get?_eq_none.1 hb
      omega
    | some b =>
      dsimp only
      split
      · refine ⟨by simp, ?_⟩
        intro c' h
        simp only [Except.ok.injEq] at h
        rw [← h]
        exact CfiOk.modifyC B c2 pkg.id _ (fun _ => rfl) hc2
      · cases htc : typeCheck x c2 pkg (!pkg.included || x.isStdlibPkg pkg) with
        | error msg =>
          dsimp only
          refine ⟨?_, by intro c' h; cases h⟩
          intro h
          simp only [Except.error.injEq] at h
          subst h
          exact typeCheck_inBounds x c2 pkg _
            (fun s hs => by rw [hpkg]; exact hc2 _ s hs) htc
        | ok r =>
          obtain ⟨typed, errs⟩ := r
          dsimp only
          refine ⟨by simp, ?_⟩
          intro c' h
          simp only [Except.ok.injEq] at h
          rw [← h]
          exact CfiOk.modifyC B c2 pkg.id _ (fun _ => rfl) hc2
  · refine ⟨by simp, ?_⟩
    intro c' h
    simp only [Except.ok.injEq] at h
    rw [← h]
    exact hc2

theorem loadPackage_keeps (B : PkgId → Nat) (x : Ext) (c : Controller) (pkg : Package)
    (hc : CfiOk B c) (hpkg : pkg.builds.length = B pkg.id) (hB : 1 ≤ B pkg.id) :
    loadPackage x c pkg ≠ .error "index out of range" ∧
    ∀ c', loadPackage x c pkg = .ok c' → CfiOk B c' := by
  unfold loadPackage
  dsimp only
  cases hg : c.states.get pkg.id with
  | none =>
    dsimp only
    refine loadPackage_rest_keeps B x _ pkg ?_ hpkg hB _ rfl _ rfl
    intro q s hs
    dsimp only at hs
    by_cases hq : q = pkg.id
    · subst hq
      rw [Map.get_set_self] at hs
      cases hs
      exact hB
    · rw [Map.get_set_of_ne _ _ hq] at hs
      exact hc q s hs
  | some st =>
    dsimp only
    by_cases hsan : c.loadCount > 1 ∧ pkg.firstLoad = false ∧
        (pkg.goroot = true ∨ pkg.standard = true) ∧ (pkg.dirty = true ∨ pkg.depDirty = true)
    · rw [if_pos hsan]
      exact ⟨by simp, by intro c' h; cases h⟩
    · rw [if_neg hsan]
      exact loadPackage_rest_keeps B x c pkg hc hpkg hB _ rfl _ rfl

theorem loadVisit_keeps (B : PkgId → Nat) (x : Ext) (pkgs : List Package) :
    ∀ (m : M), CfiOk B m.c → HeapOk B m.heap →
      (∀ p ∈ pkgs, p.builds.length = B p.id ∧ 1 ≤ B p.id) →
      loadVisit x m pkgs ≠ .error "index out of range" ∧
      ∀ m', loadVisit x m pkgs = .ok m' → CfiOk B m'.c ∧ HeapOk B m'.heap := by
  induction pkgs with
  | nil =>
    intro m hc hh _
    refine ⟨by simp [loadVisit], ?_⟩
    intro m' h
    simp only [loadVisit, Except.ok.injEq] at h
    rw [← h]
    exact ⟨hc, hh⟩
  | cons pkg pkgs ih =>
    intro m hc hh hl
    obtain ⟨hpkg, hB⟩ := hl pkg (List.mem_cons_self _ _)
    obtain ⟨hne, hok⟩ := loadPackage_keeps B x m.c pkg hc hpkg hB
    unfold loadVisit
    cases hp : loadPackage x m.c pkg with
    | error msg =>
      dsimp only
      refine ⟨?_, by intro m' h; cases h⟩
      intro h
      simp only [Except.error.injEq] at h
      subst h
      exact hne hp
    | ok c1 =>
      exact ih _ (hok c1 hp) (hh.setH _ _ hpkg) (fun p hp' => hl p (List.mem_cons_of_mem _ hp'))

theorem load_keeps (B : PkgId → Nat) (x : Ext) (hlist : ListOk B x) (m : M)
    (hc : CfiOk B m.c) (hh : HeapOk B m.heap) : StepKeepsBounds B (load x m) := by
  unfold load
  dsimp only
  split
  · exact ⟨by simp, by intro m' h; simp at h⟩
  · obtain ⟨hne, hok⟩ := loadVisit_keeps B x (x.list (m.c.loadCount + 1)).visit
      { m with c := { m.c with loadCount := m.c.loadCount + 1, treeIsDirty := false } }
      (CfiOk.of_states rfl hc) hh (hlist _)
    cases hv : loadVisit x
        { m with c := { m.c with loadCount := m.c.loadCount + 1, treeIsDirty := false } }
        (x.list (m.c.loadCount + 1)).visit with
    | error msg =>
      dsimp only
      refine ⟨?_, by intro m' h; cases h⟩
      intro h
      simp only [Except.error.injEq] at h
      subst h
      exact hne hv
    | ok m1 =>
      obtain ⟨hc1, hh1⟩ := hok m1 hv
      dsimp only
      split
      · exact ⟨by simp, by intro m' h; simp at h⟩
      · refine ⟨by simp, ?_⟩
        intro m' h
        simp only [Except.ok.injEq, Prod.mk.injEq] at h
        rw [← h.1]
        exact ⟨CfiOk.of_states rfl hc1, hh1⟩

theorem runLoop_keeps (B : PkgId → Nat) (R : Ranks) (x : Ext) (hlist : ListOk B x) :
    ∀ (fuel : Nat) (m : M), CfiOk B m.c → HeapOk B m.heap →
      ∀ r, runLoop R x fuel m = some r →
        r ≠ .error "index out of range" ∧
        ∀ m', r = .ok (m', none) → CfiOk B m'.c ∧ HeapOk B m'.heap := by
  intro fuel
  induction fuel with
  | zero => intro m _ _ r h; cases h
  | succ n ih =>
    intro m hc hh r h
    unfold runLoop at h
    obtain ⟨hne, hok⟩ := load_keeps B x hlist m hc hh
    cases hl : load x m with
    | error msg =>
      rw [hl] at h
      simp only [Option.some.injEq] at h
      subst h
      refine ⟨?_, by intro m' h; cases h⟩
      intro h
      simp only [Except.error.injEq] at h
      subst h
      exact hne hl
    | ok r1 =>
      obtain ⟨m1, err⟩ := r1
      rw [hl] at h
      cases err with
      | some e =>
        simp only [Option.some.injEq] at h
        subst h
        exact ⟨by simp, by intro m' h; simp at h⟩
      | none =>
        obtain ⟨hc1, hh1⟩ := hok m1 hl
        obtain ⟨hne2, hok2⟩ := portAll_keeps B R x m1 hc1 hh1
        dsimp only at h
        cases hp : portAll R x m1 with
        | error msg =>
          rw [hp] at h
          simp only [Option.some.injEq] at h
          subst h
          refine ⟨?_, by intro m' h; cases h⟩
          intro h
          simp only [Except.error.injEq] at h
          subst h
          exact hne2 hp
        | ok r2 =>
          obtain ⟨m2, err2⟩ := r2
          rw [hp] at h
          cases err2 with
          | some e =>
            simp only [Option.some.injEq] at h
            subst h
            exact ⟨by simp, by intro m' h; simp at h⟩
          | none =>
            obtain ⟨hc2, hh2⟩ := hok2 m2 hp
            dsimp only at h
            split at h
            · simp only [Option.some.injEq] at h
              subst h
              refine ⟨by simp, ?_⟩
              intro m' h
              simp only [Except.ok.injEq, Prod.mk.injEq] at h
              rw [← h.1]
              exact ⟨hc2, hh2⟩
            · exact ih m2 hc2 hh2 r h

/-- C27: during `Controller.Run` every access `pkg.Builds[state.cfi]` of
`load` and of `typeCheck` is within bounds. Let every package have a fixed
number `B` of builds, at least one, at every load (`ListOk`), and let the run
start from a state table whose indices are within the builds and a heap whose
packages have their `B` builds (a fresh controller with an empty heap does).
Then `Run`, whatever the number of sweeps, does not panic with an index out of
range, and when it returns nil every configuration index is within the builds
of its package. A failed configuration search leaves the index at
`len(Builds)`, but `port` then returns an error, which ends the run before the
index is used again. -/
theorem C27_builds_index_in_bounds (B : PkgId → Nat) (R : Ranks) (x : Ext)
    (hlist : ListOk B x) (m : M) (hc : CfiOk B m.c) (hh : HeapOk B m.heap) :
    (∀ fuel, Run R x fuel m ≠ some (.error "index out of range")) ∧
    (∀ fuel m', Run R x fuel m = some (.ok (m', none)) →
      CfiOk B m'.c ∧ HeapOk B m'.heap) ∧
    (∀ fuel msg, runLoop R x fuel m = some (.error msg) → msg ≠ "index out of range") := by
  have hloop := runLoop_keeps B R x hlist
  refine ⟨?_, ?_, ?_⟩
  · intro fuel h
    unfold Run at h
    split at h
    · simp at h
    · cases hr : runLoop R x fuel m with
      | none => rw [hr] at h; cases h
      | some r =>
        rw [hr] at h
        cases r with
        | error msg =>
          simp only [Option.some.injEq, Except.error.injEq] at h
          subst h
          exact (hloop fuel m hc hh _ hr).1 rfl
        | ok v => cases h
  · intro fuel m' h
    unfold Run at h
    split at h
    · cases h
    · cases hr : runLoop R x fuel m with
      | none => rw [hr] at h; cases h
      | some r =>
        rw [hr] at h
        cases r with
        | error msg => cases h
        | ok v =>
          obtain ⟨m1, err⟩ := v
          simp only [Option.some.injEq, Except.ok.injEq, Prod.mk.injEq] at h
          obtain ⟨h1, h2⟩ := h
          subst h1 h2
          obtain ⟨hc1, hh1⟩ := (hloop fuel m hc hh _ hr).2 m1 rfl
          exact ⟨CfiOk.of_states rfl hc1, hh1⟩
  · intro fuel msg h hmsg
    subst hmsg
    exact (hloop fuel m hc hh _ h).1 rfl

theorem soloFail_listOk : ListOk soloBuilds extSoloFail := by
  intro n p hp
  by_cases hn : n ≤ 1
  · simp only [extSoloFail, extSolo, if_pos hn, List.mem_singleton] at hp
    subst hp
    exact ⟨by decide, by decide⟩
  · simp only [extSoloFail, extSolo, if_neg hn, List.mem_singleton] at hp
    subst hp
    exact ⟨by decide, by decide⟩

/-- C27, at a concrete input: the run on `example.com/solo/cmd`, which has two
builds, with a re-tag search that fails. The run ends at the third sweep with
the error of the search and the index at 2, the number of builds; no access
was out of range. -/
theorem C27_builds_index_in_bounds_witness :
    ((∀ fuel, Run declRanks extSoloFail fuel mSolo ≠ some (.error "index out of range")) ∧
      (∀ fuel m', Run declRanks extSoloFail fuel mSolo = some (.ok (m', none)) →
        CfiOk soloBuilds m'.c ∧ HeapOk soloBuilds m'.heap) ∧
      (∀ fuel msg, runLoop declRanks extSoloFail fuel mSolo = some (.error msg) →
        msg ≠ "index out of range")) ∧
    (Run declRanks extSoloFail 3 mSolo).map (fun r => r.toOption.map (fun r =>
        (r.2, r.1.c.loadCount, (r.1.c.st 8).cfi, soloPkg.builds.length)))
      = some (some (some "unable to find a valid config", 3, 2, 2)) :=
  ⟨C27_builds_index_in_bounds soloBuilds declRanks extSoloFail soloFail_listOk mSolo
      (by intro id s hs; cases hs) (by intro k p hp; cases hp),
    by decide⟩

/-! ### Termination of `Run` -/

theorem SamePs.reflP (c : Controller) : SamePs c c := ⟨rfl, fun _ => rfl⟩

theorem Known.modified {x : Ext} {p : Package} (h : Known x p) (b : Bool) :
    Known x { p with modified := b } := by
  obtain ⟨n, q, hq, he⟩ := h
  refine ⟨n, q, hq, ?_⟩
  rw [he]

theorem portExport_heap (x : Ext) (m : M) (pkg : Package) (m' : M) (err : Option String)
    (h : portExport x m pkg = .ok (m', err)) : m'.heap = m.heap := by
  unfold portExport at h
  split at h
  · cases h
  · split at h
    · cases h; rfl
    · dsimp only at h
      split at h
      · cases h; rfl
      · split at h
        · cases h; rfl
        · split at h <;> (cases h; rfl)

theorem portDeps_heap (R : Ranks) (x : Ext) (m : M) (pkg : Package)
    (imports : Option (List (Option PkgId))) (m' : M) (err : Option String)
    (h : portDeps R x m pkg imports = .ok (m', err)) : m'.heap = m.heap := by
  unfold portDeps at h
  dsimp only at h
  split at h
  · cases h
  · split at h
    · split at h <;> (cases h; rfl)
    · split at h
      · cases h
      · split at h
        · cases h; rfl
        · have := portExport_heap x _ pkg m' err h
          exact this

theorem portRetag_heap (R : Ranks) (x : Ext) (m : M) (pkg : Package) (needTag : Bool)
    (imports : List (Option PkgId)) (m' : M) (err : Option String)
    (h : portRetag R x m pkg needTag imports = .ok (m', err)) : m'.heap = m.heap := by
  unfold portRetag at h
  split at h
  · split at h
    · cases h
    · split at h
      · cases h; rfl
      · split at h
        · cases h; rfl
        · have := portDeps_heap R x _ pkg _ m' err h
          exact this
  · exact portDeps_heap R x m pkg _ m' err h

theorem portModule_heap (R : Ranks) (x : Ext) (m : M) (pkg : Package) (needTag : Bool)
    (imports : List (Option PkgId)) (m' : M) (err : Option String)
    (h : portModule R x m pkg needTag imports = .ok (m', err)) : m'.heap = m.heap := by
  unfold portModule at h
  split at h
  · dsimp only at h
    split at h
    · cases h; rfl
    · split at h
      · cases h; rfl
      · split at h
        · cases h; rfl
        · split at h
          · cases h; rfl
          · have := portRetag_heap R x _ pkg needTag imports m' err h
            exact this
  · exact portRetag_heap R x m pkg needTag imports m' err h

theorem port_heap (R : Ranks) (x : Ext) (m : M) (pkg : Package) (m' : M)
    (err : Option String) (h : port R x m pkg = .ok (m', err)) : m'.heap = m.heap := by
  unfold port at h
  split at h
  · cases h
  · rename_i m1 e he
    cases h
    exact (portEntry_frame x m pkg _ he).2.2.1
  · rename_i m1 nt imps he
    exact (portModule_heap R x m1 pkg nt imps m' err h).trans (portEntry_frame x m pkg _ he).2.2.1

/-- The module-version step writes the version of the package as `original` of
a new entry and keeps the `original` of an entry it finds. -/
theorem moduleDecision_originals (V : String → String) (x : Ext) (c : Controller)
    (pkg : Package) (hv : pkg.module.version = V pkg.module.path)
    (hc : ∀ path e, c.workspace.get path = some e → e.original = V path) :
    ∀ path e, (moduleDecision x c pkg).1.workspace.get path = some e → e.original = V path := by
  have hset : ∀ (ws : Map String WorkEdit) (e0 : WorkEdit),
      (∀ path e, ws.get path = some e → e.original = V path) →
      e0.original = V pkg.module.path →
      ∀ path e, (ws.set pkg.module.path e0).get path = some e → e.original = V path := by
    intro ws e0 hws h0 path e he
    by_cases hp : path = pkg.module.path
    · subst hp
      rw [Map.get_set_self] at he
      cases he
      exact h0
    · rw [Map.get_set_of_ne _ _ hp] at he
      exact hws path e he
  unfold moduleDecision
  dsimp only
  split
  · have h1 := hset c.workspace ⟨pkg.module.version, pkg.module.version, modLocked⟩ hc hv
    split
    · exact h1
    · split
      · exact hset _ ⟨pkg.module.version, (x.goListModUpdate pkg.module.path).1, modUpdated⟩
          h1 hv
      · exact h1
  · rename_i mptc hget
    exact hset c.workspace _ hc (hc _ mptc hget)

theorem port_versionsKept (V : String → String) (R : Ranks) (x : Ext) (m : M) (pkg : Package)
    (m' : M) (err : Option String) (hk : VersionsKept V m)
    (hv : pkg.module.version = V pkg.module.path)
    (h : port R x m pkg = .ok (m', err)) : VersionsKept V m' := by
  refine ⟨?_, by rw [port_heap R x m pkg m' err h]; exact hk.2⟩
  unfold port at h
  split at h
  · cases h
  · rename_i m1 e he
    cases h
    have hw := (portEntry_frame x m pkg _ he).1
    simp only [EntryOut.machine] at hw
    rw [hw]
    exact hk.1
  · rename_i m1 nt imps he
    have hw1 : m1.c.workspace = m.c.workspace := (portEntry_frame x m pkg _ he).1
    have h1 : ∀ path e, m1.c.workspace.get path = some e → e.original = V path := by
      rw [hw1]; exact hk.1
    have hmd := moduleDecision_originals V x m1.c pkg hv h1
    unfold portModule at h
    split at h
    · dsimp only at h
      split at h
      · rename_i c1 _ _ e heq
        cases h
        rw [heq] at hmd
        exact hmd
      · rename_i c1 version updated heq
        rw [heq] at hmd
        dsimp only at hmd
        split at h
        · cases h
          exact hmd
        · split at h
          · cases h
            rw [Controller.setPs_workspace]
            exact hmd
          · split at h
            · cases h
              rw [Controller.setPs_workspace]
              exact hmd
            · rw [(portRetag_frame R x _ pkg nt imps m' err h).1]
              exact hmd
    · rw [(portRetag_frame R x m1 pkg nt imps m' err h).1]
      exact h1

theorem afterPort_versionsKept (V : String → String) (R : Ranks) (m : M) (pkg : Package)
    (valid : Bool) (hk : VersionsKept V m) (hv : pkg.module.version = V pkg.module.path) :
    VersionsKept V (afterPort R m pkg valid).1 := by
  have hheap : ∀ k p, (m.heap.set pkg.id { pkg with modified := true }).get k = some p →
      p.module.version = V p.module.path := by
    intro k p hg
    by_cases hkk : k = pkg.id
    · subst hkk
      rw [Map.get_set_self] at hg
      cases hg
      exact hv
    · rw [Map.get_set_of_ne _ _ hkk] at hg
      exact hk.2 k p hg
  unfold afterPort
  dsimp only
  split
  · refine ⟨?_, hheap⟩
    intro path e he
    dsimp only at he
    cases hg : m.c.workspace.get pkg.module.path with
    | none =>
      rw [hg] at he
      exact hk.1 path e he
    | some e0 =>
      rw [hg] at he
      dsimp only at he
      by_cases hp : path = pkg.module.path
      · subst hp
        rw [Map.get_set_self] at he
        cases he
        exact hk.1 _ e0 hg
      · rw [Map.get_set_of_ne _ _ hp] at he
        exact hk.1 path e he
  · split
    · exact ⟨hk.1, hheap⟩
    · exact hk

theorem loadVisit_versionsKept (V : String → String) (x : Ext) (pkgs : List Package) :
    ∀ (m m' : M), (∀ p ∈ pkgs, p.module.version = V p.module.path) → VersionsKept V m →
      loadVisit x m pkgs = .ok m' → VersionsKept V m' := by
  induction pkgs with
  | nil =>
    intro m m' _ hk h
    simp only [loadVisit, Except.ok.injEq] at h
    subst h
    exact hk
  | cons pkg pkgs ih =>
    intro m m' hp hk h
    unfold loadVisit at h
    split at h
    · cases h
    · rename_i c1 hl
      refine ih _ m' (fun p hp' => hp p (List.mem_cons_of_mem _ hp')) ⟨?_, ?_⟩ h
      · show ∀ path e, c1.workspace.get path = some e → e.original = V path
        rw [(loadPackage_frame x m.c pkg c1 hl).1]
        exact hk.1
      · intro k p hg
        by_cases hkk : k = pkg.id
        · subst hkk
          have hg' : (m.heap.set pkg.id pkg).get pkg.id = some p := hg
          rw [Map.get_set_self] at hg'
          cases hg'
          exact hp _ (List.mem_cons_self _ _)
        · have hg' : (m.heap.set pkg.id pkg).get k = some p := hg
          rw [Map.get_set_of_ne _ _ hkk] at hg'
          exact hk.2 k p hg'

theorem load_versionsKept (V : String → String) (x : Ext) (hx : ListsVersions V x) (m m' : M)
    (err : Option String) (hk : VersionsKept V m) (h : load x m = .ok (m', err)) :
    VersionsKept V m' := by
  unfold load at h
  dsimp only at h
  split at h
  · cases h
    exact hk
  · split at h
    · cases h
    · rename_i m1 hv
      have h1 : VersionsKept V m1 :=
        loadVisit_versionsKept V x _
          ⟨{ m.c with loadCount := m.c.loadCount + 1, treeIsDirty := false }, m.heap, m.trace⟩
          m1 (fun p hp => hx _ p hp) hk hv
      split at h <;> (cases h; exact h1)

theorem portLayer_versionsKept (V : String → String) (R : Ranks) (x : Ext)
    (ids : List PkgId) :
    ∀ (m : M) (valid : Bool) (sw : Sweep), VersionsKept V m →
      portLayer R x m valid ids = .ok sw → VersionsKept V sw.machine := by
  induction ids with
  | nil =>
    intro m valid sw hk h
    simp only [portLayer, Except.ok.injEq] at h
    subst h
    exact hk
  | cons id ids ih =>
    intro m valid sw hk h
    unfold portLayer at h
    split at h
    · cases h
    · rename_i pkg hpkg
      have hv := hk.2 id pkg hpkg
      split at h
      · cases h
      · split at h
        · exact ih _ _ _ hk h
        · split at h
          · cases h
          · rename_i m1 e hp
            cases h
            exact port_versionsKept V R x m pkg m1 _ hk hv hp
          · rename_i m1 hp
            have h1 := afterPort_versionsKept V R m1 pkg valid
              (port_versionsKept V R x m pkg m1 _ hk hv hp) hv
            dsimp only at h
            split at h
            · cases h
              exact h1
            · exact ih _ _ _ h1 h

theorem portLayers_versionsKept (V : String → String) (R : Ranks) (x : Ext)
    (layers : List (List PkgId)) :
    ∀ (m : M) (valid : Bool) (sw : Sweep), VersionsKept V m →
      portLayers R x m valid layers = .ok sw → VersionsKept V sw.machine := by
  induction layers with
  | nil =>
    intro m valid sw hk h
    simp only [portLayers, Except.ok.injEq] at h
    subst h
    exact hk
  | cons l ls ih =>
    intro m valid sw hk h
    unfold portLayers at h
    split at h
    · cases h
    · rename_i m1 e hl
      cases h
      exact portLayer_versionsKept V R x l m valid _ hk hl
    · rename_i m1 v1 hl
      exact ih _ _ _ (portLayer_versionsKept V R x l m valid _ hk hl) h

theorem portAll_versionsKept (V : String → String) (R : Ranks) (x : Ext) (m m' : M)
    (err : Option String) (hk : VersionsKept V m) (h : portAll R x m = .ok (m', err)) :
    VersionsKept V m' := by
  unfold portAll at h
  split at h
  · cases h
  · split at h
    · cases h
    · rename_i m1 e hl
      cases h
      exact portLayers_versionsKept V R x _ m true _ hk hl
    · rename_i m1 valid hl
      have h1 := portLayers_versionsKept V R x _ m true _ hk hl
      split at h
      · cases h
        exact h1
      · cases h
        exact h1

/-- With a lister that reports every module at one version, the journal and
the heap agree with the lister after every load, every `port` and every sweep
of a run: the version of a package that comes back for a journal entry is the
`original` of the entry. -/
theorem runLoop_versionsKept (V : String → String) (R : Ranks) (x : Ext)
    (hx : ListsVersions V x) (fuel : Nat) :
    ∀ (m m' : M) (err : Option String), VersionsKept V m →
      runLoop R x fuel m = some (.ok (m', err)) → VersionsKept V m' := by
  induction fuel with
  | zero => intro m m' err _ h; simp [runLoop] at h
  | succ n ih =>
    intro m m' err hk h
    unfold runLoop at h
    split at h
    · cases h
    · rename_i m1 e hl
      cases h
      exact load_versionsKept V x hx m _ _ hk hl
    · rename_i m1 hl
      have h1 := load_versionsKept V x hx m _ _ hk hl
      split at h
      · cases h
      · rename_i m2 e hp
        cases h
        exact portAll_versionsKept V R x m1 _ _ h1 hp
      · rename_i m2 hp
        have h2 := portAll_versionsKept V R x m1 _ _ h1 hp
        split at h
        · cases h
          exact h2
        · exact ih _ _ _ h2 h

theorem versionsKept_original (V : String → String) (m : M) (k : PkgId) (pkg : Package)
    (e : WorkEdit) (hk : VersionsKept V m) (hp : m.heap.get k = some pkg)
    (he : m.c.workspace.get pkg.module.path = some e) : pkg.module.version = e.original :=
  (hk.2 k pkg hp).trans (hk.1 _ _ he).symm

end Wharf
